import Mathlib

/-!
# SWC USB adapter firmware (`firmware/swc_usb.c`)

A shallow embedding of the firmware that bridges a USB CDC-ACM host to the
parallel port of a Super Wild Card cartridge copier, and the properties of
its handshake engine, packet protocol and command dispatcher.

Machine integers are natural numbers reduced explicitly (`% 256` for
`uint8_t`, `% 65536` for `uint16_t`).  The AVR registers the code touches
are fields of `State`.  What the code cannot decide itself is environment,
also carried by `State`:

* `pinb k` is the raw value of `PINB` at the `k`-th read of the status port
  (`polls` counts the reads made so far);
* `pinf v` is the value `PINF` shows while the latch `PORTF` holds `v`;
* `rxbuf` holds the bytes waiting in the CDC OUT endpoint and `rxnext` the
  packets the host delivers after them, in order;
* `dmem a` is the byte at address `a` of the data space, which `vfprintf`
  reads when it is given an address for `%s`.

`trace` is an observation log: it records, in program order, every byte
handed to `write_data`, every `invert_strobe`, every byte passed to
`CDC_Device_SendData` and every `send_feedback` message.
-/

namespace SwcUsb

/-! ## Data model -/

/-- Observable actions of the firmware, in program order. -/
inductive Event where
  /-- a byte placed on the data lines by `write_data` -/
  | data (b : Nat)
  /-- one `invert_strobe` call (STROBE and LED toggled) -/
  | strobe
  /-- a byte forwarded to the host by `CDC_Device_SendData` -/
  | usb (b : Nat)
  /-- a status line sent to the host by `send_feedback` -/
  | feedback (msg : String)
  deriving DecidableEq, Repr

/-- Registers, the global `timeout` flag, the environment and the log. -/
structure State where
  PORTD : Nat
  DDRD : Nat
  PORTB : Nat
  DDRB : Nat
  PORTF : Nat
  DDRF : Nat
  PORTE : Nat
  DDRE : Nat
  /-- the global `bool timeout` (the fault flag) -/
  timeout : Bool
  /-- raw `PINB` seen by the `k`-th status read -/
  pinb : Nat → Nat
  /-- number of status reads made so far -/
  polls : Nat
  /-- `PINF` as a function of the `PORTF` latch -/
  pinf : Nat → Nat
  /-- the byte at each address of the data space -/
  dmem : Nat → Nat
  /-- bytes buffered in the CDC OUT endpoint -/
  rxbuf : List Nat
  /-- packets the host delivers next -/
  rxnext : List (List Nat)
  /-- observation log -/
  trace : List Event

abbrev PARPORT_INPUT_MASK : Nat := 0x78
abbrev PARPORT_IBUSY : Nat := 0x80
abbrev PARPORT_STROBE : Nat := 0x1
abbrev POLL_MAX : Nat := 65534
abbrev BLOCK_SIZE : Nat := 8192
abbrev COMMAND_LEN : Nat := 11

/-! ## Port driver -/

/-- `activate_ports`: data and control lines become outputs, LED on. -/
def activate_ports (s : State) : State :=
  { s with PORTD := 0x00, DDRD := 0xFF, PORTB := 0xFF, DDRB := 0x00,
           PORTF := 0x00, DDRF := 0xF0, PORTE := 0x40, DDRE := 0x40 }

/-- `deactivate_ports`: every line becomes an undriven input, LED off. -/
def deactivate_ports (s : State) : State :=
  { s with PORTD := 0x00, DDRD := 0x00, PORTB := 0x00, DDRB := 0x00,
           PORTF := 0x00, DDRF := 0x00, PORTE := 0x00, DDRE := 0x00 }

/-- `write_data(uint8_t byte)`: `PORTD = byte`. -/
def write_data (byte : Nat) (s : State) : State :=
  { s with PORTD := byte % 256, trace := s.trace ++ [Event.data (byte % 256)] }

/-- `write_control(uint8_t byte)`: `PORTF = (byte ^ 0b00001011) << 4`. -/
def write_control (byte : Nat) (s : State) : State :=
  { s with PORTF := (((byte % 256) ^^^ 0b00001011) <<< 4) % 256 }

/-- The value read from `PINF`. -/
def PINF (s : State) : Nat := s.pinf s.PORTF % 256

/-- `read_control()`: `(PINF >> 4) ^ 0b00001011`. -/
def read_control (s : State) : Nat :=
  ((PINF s >>> 4) ^^^ 0b00001011) % 256

/-- `read_status()`: `PINB ^ PARPORT_IBUSY`; consumes one status sample. -/
def read_status (s : State) : Nat × State :=
  ((s.pinb s.polls % 256) ^^^ PARPORT_IBUSY, { s with polls := s.polls + 1 })

/-- `flip_led()`: `PORTE = PORTE ^ 0x40`. -/
def flip_led (s : State) : State :=
  { s with PORTE := (s.PORTE ^^^ 0x40) % 256 }

/-- `invert_strobe()`: `write_control(read_control() ^ PARPORT_STROBE); flip_led()`. -/
def invert_strobe (s : State) : State :=
  let s1 := write_control (read_control s ^^^ PARPORT_STROBE) s
  let s2 := flip_led s1
  { s2 with trace := s2.trace ++ [Event.strobe] }

/-! ## Handshake engine -/

/-- The `do ... while` loop of `wait_busy_bit`.  The first argument bounds the
number of iterations; `poll_count` is the 16-bit counter.  The result is the
last `busy_bit`, the final `poll_count` and the state. -/
def wait_busy_loop (bit : Bool) (poll_min : Nat) : Nat → Nat → State → Bool × Nat × State
  | 0, poll_count, s => (false, poll_count, s)
  | fuel + 1, poll_count, s =>
    let r := read_status s
    let busy_bit := decide (r.1 &&& PARPORT_IBUSY ≠ 0)
    let poll_count := (poll_count + 1) % 65536
    if poll_count < poll_min ∨ (busy_bit ≠ bit ∧ poll_count < POLL_MAX) then
      wait_busy_loop bit poll_min fuel poll_count r.2
    else
      (busy_bit, poll_count, r.2)

/-- `wait_busy_bit(bool bit, uint8_t poll_min)`.  `POLL_MAX` iterations always
suffice for the loop (see `wait_busy_loop_fuel`). -/
def wait_busy_bit (bit : Bool) (poll_min : Nat) (s : State) : State :=
  if s.timeout then s
  else
    let r := wait_busy_loop bit (poll_min % 256) POLL_MAX 0 s
    if r.1 ≠ bit then { r.2.2 with timeout := true } else r.2.2

/-- `send_byte(uint8_t byte)`. -/
def send_byte (byte : Nat) (s : State) : State :=
  let s1 := wait_busy_bit true 0 s
  let s2 := write_data (byte % 256) s1
  let s3 := invert_strobe s2
  wait_busy_bit true 0 s3

/-- `receive_byte()`: two nibbles from status bits 3..6. -/
def receive_byte (s : State) : Nat × State :=
  let s1 := wait_busy_bit false 3 s
  let r1 := read_status s1
  let byte := ((r1.1 &&& PARPORT_INPUT_MASK) >>> 3) % 256
  let s2 := invert_strobe r1.2
  let s3 := wait_busy_bit false 3 s2
  let r2 := read_status s3
  let byte := (byte ||| ((r2.1 &&& PARPORT_INPUT_MASK) <<< 1)) % 256
  let s4 := invert_strobe r2.2
  (byte, s4)

/-! ## Packet protocol -/

/-- `send_command(uint8_t command_code, uint16_t address, uint16_t length)`. -/
def send_command (command_code address length : Nat) (s : State) : State :=
  let command_code := command_code % 256
  let address := address % 65536
  let length := length % 65536
  let s := send_byte 0xD5 s
  let s := send_byte 0xAA s
  let s := send_byte 0x96 s
  let s := send_byte command_code s
  let s := send_byte address s
  let s := send_byte (address >>> 8) s
  let s := send_byte length s
  let s := send_byte (length >>> 8) s
  send_byte (0x81 ^^^ command_code ^^^ address ^^^ (address >>> 8) ^^^ length ^^^ (length >>> 8)) s

/-- `send_command0(uint16_t address, uint8_t byte)`: command 0 for 1 byte. -/
def send_command0 (address byte : Nat) (s : State) : State :=
  let s := send_command 0 address 1 s
  let s := send_byte byte s
  send_byte (0x81 ^^^ (byte % 256)) s

/-! ## Host link (USB CDC)

The LUFA CDC class driver is an external library.  The entry points the
firmware uses are modelled on the endpoint buffer `rxbuf` and the queue
`rxnext` of packets still to arrive. -/

/-- Modelled from the spec: `USB_tasks()` calls `CDC_Device_USBTask` and
`USB_USBTask` (LUFA, absent from the sources), which pump the USB stack; when
the endpoint buffer is empty the next packet of the host, if any, becomes
available. -/
def USB_tasks (s : State) : State :=
  match s.rxbuf, s.rxnext with
  | [], p :: ps => { s with rxbuf := p, rxnext := ps }
  | _, _ => s

/-- Modelled from the spec: `CDC_Device_BytesReceived` (LUFA, absent from the
sources) returns the number of currently buffered bytes, as a `uint16_t`. -/
def CDC_Device_BytesReceived (s : State) : Nat :=
  s.rxbuf.length % 65536

/-- Modelled from the spec: `CDC_Device_ReceiveByte` (LUFA, absent from the
sources) returns the next buffered byte, or `-1` when the buffer is empty. -/
def CDC_Device_ReceiveByte (s : State) : Int × State :=
  match s.rxbuf with
  | [] => (-1, s)
  | b :: rest => (((b % 256 : Nat) : Int), { s with rxbuf := rest })

/-- Modelled from the spec: `CDC_Device_SendData` (LUFA, absent from the
sources) queues bytes for the host. -/
def CDC_Device_SendData (bytes : List Nat) (s : State) : State :=
  { s with trace := s.trace ++ bytes.map Event.usb }

/-- Modelled from the spec: `CDC_Device_Flush` (LUFA, absent from the sources)
pushes queued bytes to the host; the log already holds them. -/
def CDC_Device_Flush (s : State) : State := s

/-- `send_feedback(fmt)` for a format without arguments. -/
def send_feedback (msg : String) (s : State) : State :=
  CDC_Device_Flush { s with trace := s.trace ++ [Event.feedback msg] }

/-- Modelled from the spec: `vfprintf` (avr-libc, absent from the sources)
is handed an integer where the format `%s` expects a string.  What `%s`
prints is the bytes found in the data space from the address it is given up
to the first NUL.  The first argument bounds the number of bytes by the size
of the 16-bit address space. -/
def c_string_at (mem : Nat → Nat) : Nat → Nat → List Nat
  | 0, _ => []
  | fuel + 1, address =>
    if mem address % 256 = 0 then []
    else (mem address % 256) :: c_string_at mem fuel ((address + 1) % 65536)

/-- `send_feedback("*#*#*ERR%s\n", error_count)` as called by `read_sram`:
the `uint8_t` is promoted to a 16-bit `int`, which `%s` takes for the
address of a string, so the line holds what the data space holds at address
`error_count`, not the count. -/
def send_feedback_err (error_count : Nat) (s : State) : State :=
  send_feedback
    ("*#*#*ERR" ++ String.mk ((c_string_at s.dmem 65536 (error_count % 256)).map Char.ofNat)
      ++ "\n") s

/-- The loop of `cdc_device_receive_bytes`; `buffer` holds the
`bytes_received` bytes stored so far.  `none`: the loop did not end within
the given number of iterations. -/
def cdc_device_receive_loop (length : Nat) :
    Nat → Nat → List Nat → State → Option (List Nat × State)
  | 0, bytes_received, buffer, s =>
    if length > bytes_received then none else some (buffer, s)
  | fuel + 1, bytes_received, buffer, s =>
    if length > bytes_received then
      let r := CDC_Device_ReceiveByte s
      let s1 := USB_tasks r.2
      if r.1 ≥ 0 then
        cdc_device_receive_loop length fuel ((bytes_received + 1) % 256)
          (buffer ++ [(r.1 % 256).toNat]) s1
      else
        cdc_device_receive_loop length fuel bytes_received buffer s1
    else some (buffer, s)

/-- Number of bytes the host has sent and the firmware has not yet read. -/
def pending_bytes (s : State) : Nat :=
  s.rxbuf.length + s.rxnext.flatten.length

/-- `cdc_device_receive_bytes(buffer, length)`: blocks until `length` bytes
have arrived.  `none`: the host never sends enough and the loop spins for
ever.  Every iteration reads a byte or takes a packet, or nothing is left. -/
def cdc_device_receive_bytes (length : Nat) (s : State) : Option (List Nat × State) :=
  cdc_device_receive_loop (length % 256) (length % 256 + s.rxnext.length + 1) 0 [] s

/-! ## Block transfers -/

/-- Inner loop of `send_block`: `number_of_bytes_ready` iterations, each one
reading a byte from the host and sending it. -/
def send_block_drain : Nat → Nat → Nat → State → Nat × Nat × State
  | 0, checksum, n, s => (checksum, n, s)
  | k + 1, checksum, n, s =>
    let r := CDC_Device_ReceiveByte s
    let byte := (r.1 % 256).toNat
    let s1 := send_byte byte r.2
    send_block_drain k ((checksum ^^^ byte) % 256) ((n + 1) % 65536) s1

/-- Outer loop of `send_block`.  `none`: the loop did not end within the given
number of passes. -/
def send_block_loop (block_size : Nat) : Nat → Nat → Nat → State → Option (Nat × State)
  | 0, checksum, n, s =>
    if n < block_size then none else some (checksum, s)
  | fuel + 1, checksum, n, s =>
    if n < block_size then
      let s1 := USB_tasks s
      let number_of_bytes_ready := CDC_Device_BytesReceived s1
      let r := send_block_drain number_of_bytes_ready checksum n s1
      send_block_loop block_size fuel r.1 r.2.1 r.2.2
    else some (checksum, s)

/-- `send_block(uint16_t address, uint16_t block_size)`.  `none`: the host
never delivers enough bytes and the outer loop spins for ever.  A pass that
makes progress reads a byte or takes a packet, which bounds the passes. -/
def send_block (address block_size : Nat) (s : State) : Option State :=
  let block_size := block_size % 65536
  let s := send_command 0 address block_size s
  match send_block_loop block_size (pending_bytes s + s.rxnext.length + 2) 0x81 0 s with
  | none => none
  | some r => some (send_byte r.1 r.2)

/-- The `for` loop of `write_rom`.  The result tells whether the function
returned from inside the loop (`timeout`), and gives the final `block`. -/
def write_rom_loop (total_blocks : Nat) : Nat → Nat → Nat → State → Option (Bool × Nat × State)
  | 0, block, _, s =>
    if block < total_blocks then none else some (false, block, s)
  | fuel + 1, block, address, s =>
    if block < total_blocks then
      let s := send_command0 0xC010 (block >>> 9) s
      let s := send_command 5 address 0 s
      match send_block 0x8000 BLOCK_SIZE s with
      | none => none
      | some s =>
        if s.timeout then some (true, block, s)
        else write_rom_loop total_blocks fuel ((block + 1) % 65536) ((address + 1) % 65536) s
    else some (false, block, s)

/-- `write_rom(uint16_t total_blocks, uint8_t emu_mode_select)`. -/
def write_rom (total_blocks emu_mode_select : Nat) (s : State) : Option State :=
  let total_blocks := total_blocks % 65536
  let emu_mode_select := emu_mode_select % 256
  match write_rom_loop total_blocks total_blocks 0 0x200 s with
  | none => none
  | some (true, _, s) => some s
  | some (false, block, s) =>
    let s := if block > 0x200 then send_command0 0xC010 1 s else s
    let s := send_command 5 0 0 s
    let s := send_command 6 (5 ||| (total_blocks <<< 8)) (total_blocks >>> 8) s
    let s := send_command 6 (1 ||| (emu_mode_select <<< 8)) 0 s
    some (send_feedback "OK\n" s)

/-- The `for` loop of `receive_block`, `k` iterations to go. -/
def receive_block_loop : Nat → Nat → State → Nat × State
  | 0, checksum, s => (checksum, s)
  | k + 1, checksum, s =>
    let r := receive_byte s
    let s1 := CDC_Device_SendData [r.1] r.2
    receive_block_loop k ((checksum ^^^ r.1) % 256) s1

/-- `receive_block(uint16_t address, uint16_t len)`: `true` on a checksum
mismatch. -/
def receive_block (address len : Nat) (s : State) : Bool × State :=
  let len := len % 65536
  let s := send_command 1 address len s
  let r := receive_block_loop len 0x81 s
  let c := receive_byte r.2
  (decide (r.1 ≠ c.1), c.2)

/-- The `while` loop of `read_sram`.  The result tells whether the function
returned from inside the loop, and gives `error_count`. -/
def read_sram_loop : Nat → Nat → Nat → State → Bool × Nat × State
  | 0, _, error_count, s => (false, error_count, s)
  | blocks_left + 1, address, error_count, s =>
    let s := send_command 5 address 0 s
    let r := receive_block 0x2000 BLOCK_SIZE s
    let error_count := (error_count + (if r.1 then 1 else 0)) % 256
    let s := r.2
    if s.timeout then (true, error_count, s)
    else read_sram_loop blocks_left ((address + 1) % 65536) error_count s

/-- `read_sram()`.  `r` is the result of the loop: `r.1` tells whether the
function returned from inside it, `r.2.1` is `error_count`. -/
def read_sram (s : State) : State :=
  let s := send_command 5 0 0 s
  let s := send_command0 0xE00D 0 s
  let s := send_command0 0xC008 0 s
  let r := read_sram_loop 4 0x100 0 s
  if r.1 then r.2.2
  else
    let s := CDC_Device_Flush r.2.2
    if r.2.1 ≠ 0 then send_feedback_err r.2.1 s
    else send_feedback "*#*#*#*OK\n" s

/-- The `for` loop of `write_sram`.  The result tells whether the function
returned from inside the loop. -/
def write_sram_loop (blocks last_block_size : Nat) :
    Nat → Nat → Nat → Nat → State → Option (Bool × State)
  | 0, block, _, _, s =>
    if block < blocks then none else some (false, s)
  | fuel + 1, block, block_size, address, s =>
    if block < blocks then
      let block_size :=
        if last_block_size ≠ 0 ∧ (block : Int) = (blocks : Int) - 1 then last_block_size
        else block_size
      let s := send_command 5 address 0 s
      match send_block 0x2000 block_size s with
      | none => none
      | some s =>
        if s.timeout then some (true, s)
        else write_sram_loop blocks last_block_size fuel ((block + 1) % 256) block_size
          ((address + 1) % 65536) s
    else some (false, s)

/-- `write_sram(uint16_t total_bytes)`. -/
def write_sram (total_bytes : Nat) (s : State) : Option State :=
  let total_bytes := total_bytes % 65536
  let s := send_command 5 0 0 s
  let s := send_command0 0xE00D 0 s
  let s := send_command0 0xC008 0 s
  let last_block_size := total_bytes % BLOCK_SIZE
  let blocks := (total_bytes / BLOCK_SIZE) % 256
  let blocks := if last_block_size ≠ 0 then (blocks + 1) % 256 else blocks
  match write_sram_loop blocks last_block_size blocks 0 BLOCK_SIZE 0x100 s with
  | none => none
  | some (true, s) => some s
  | some (false, s) => some (send_feedback "OK\n" s)

/-! ## Command dispatcher -/

/-- The characters of a C string: the bytes before the first NUL. -/
def c_str (buf : List Nat) : List Nat := buf.takeWhile (fun b => b ≠ 0)

/-- The bytes of a string literal. -/
def literal (lit : String) : List Nat := lit.toList.map Char.toNat

/-- `strcmp(command, lit) == 0`. -/
def strcmp_eq (command : List Nat) (lit : String) : Bool :=
  c_str command = literal lit

/-- The `if` chain of `main` that selects and runs the operation. -/
def dispatch (command : List Nat) (s : State) : Option State :=
  if strcmp_eq command "WRITE ROM" then
    match cdc_device_receive_bytes 3 s with
    | none => none
    | some (arguments, s) =>
      let total_blocks := ((arguments.getD 0 0 <<< 8) ||| arguments.getD 1 0) % 65536
      let emu_mode_select := arguments.getD 2 0
      write_rom total_blocks emu_mode_select s
  else if strcmp_eq command "READ SRAM" then
    some (read_sram s)
  else if strcmp_eq command "WRITE SRAM" then
    match cdc_device_receive_bytes 2 s with
    | none => none
    | some (arguments, s) =>
      let total_bytes := ((arguments.getD 0 0 <<< 8) ||| arguments.getD 1 0) % 65536
      write_sram total_bytes s
  else
    some (send_feedback "UNKNOWN COMMAND\n" s)

/-- The final `while` loop of an iteration of `main`, discarding host bytes. -/
def drain_loop : Nat → State → Option State
  | 0, _ => none
  | fuel + 1, s =>
    let r := CDC_Device_ReceiveByte s
    if r.1 > -1 then drain_loop fuel (USB_tasks r.2) else some r.2

/-- One iteration of the `for (;;)` loop of `main`.  `none`: the iteration
never ends because the host stops sending in the middle of a command. -/
def main_iteration (s : State) : Option State :=
  match cdc_device_receive_bytes COMMAND_LEN s with
  | none => none
  | some (raw_command, s) =>
    let raw_command := raw_command.set (COMMAND_LEN - 1) 0
    let s := activate_ports s
    match dispatch raw_command s with
    | none => none
    | some s =>
      let s := deactivate_ports s
      let s := if s.timeout then { send_feedback "TIMEOUT\n" s with timeout := false } else s
      match drain_loop (pending_bytes s + 1) s with
      | none => none
      | some s => some (USB_tasks s)

/-! ## Observation helpers -/

/-- The bytes placed on the data lines, in order. -/
def dataBytes (t : List Event) : List Nat :=
  t.filterMap (fun e => match e with
    | Event.data b => some b
    | _ => none)

/-- The bytes forwarded to the host with `CDC_Device_SendData`, in order. -/
def usbBytes (t : List Event) : List Nat :=
  t.filterMap (fun e => match e with
    | Event.usb b => some b
    | _ => none)

/-- The log left by sending the given bytes: each one driven, then strobed. -/
def sendEvents (bytes : List Nat) : List Event :=
  bytes.flatMap (fun b => [Event.data b, Event.strobe])

/-- The given bytes sent one after the other with `send_byte`. -/
def send_bytes (bytes : List Nat) (s : State) : State :=
  bytes.foldl (fun t b => send_byte b t) s

/-- The polarity-normalised busy bit seen by the `k`-th status read. -/
def busyAt (s : State) (k : Nat) : Bool :=
  decide (((s.pinb k % 256) ^^^ PARPORT_IBUSY) &&& PARPORT_IBUSY ≠ 0)

/-- The nine wire bytes of a command packet. -/
def commandBytes (op addr len : Nat) : List Nat :=
  [0xD5, 0xAA, 0x96, op, addr &&& 0xFF, addr >>> 8, len &&& 0xFF, len >>> 8,
   0x81 ^^^ op ^^^ (addr &&& 0xFF) ^^^ (addr >>> 8) ^^^ (len &&& 0xFF) ^^^ (len >>> 8)]


/-- A state with the ports active, the fault flag clear, nothing logged, no
host input, a peripheral that shows busy at every poll and a control port
that reads back its latch. -/
def readyState : State :=
  { PORTD := 0x00, DDRD := 0xFF, PORTB := 0xFF, DDRB := 0x00,
    PORTF := 0x00, DDRF := 0xF0, PORTE := 0x40, DDRE := 0x40,
    timeout := false, pinb := fun _ => 0x00, polls := 0, pinf := fun v => v,
    dmem := fun _ => 0x00,
    rxbuf := [], rxnext := [], trace := [] }

/-- The state `readyState` with the fault flag set. -/
def faultState : State := { readyState with timeout := true }

/-- The state `readyState` facing a peripheral that shows not busy and offers
the low nibble of 0xA5 on the first four status reads, the high nibble after. -/
def nibbleState : State :=
  { readyState with pinb := fun k => if k < 4 then 0xA8 else 0xD0 }

/-- The fault flag is clear and the peripheral shows busy at every poll: no
wait of a send can time out. -/
def Responsive (s : State) : Prop :=
  s.timeout = false ∧ ∀ k, busyAt s k = true

/-- The fault flag is clear and the peripheral answers every wait of a send:
from every poll on, busy = 1 shows within the `POLL_MAX` polls of a wait. -/
def Answering (s : State) : Prop :=
  s.timeout = false ∧ ∀ k, ∃ j, j < POLL_MAX ∧ busyAt s (k + j) = true

/-- The packets of host input not read yet: what is left of the buffered
packet, then the packets to come. -/
def hostChunks (s : State) : List (List Nat) :=
  if s.rxbuf = [] then s.rxnext else s.rxbuf :: s.rxnext

/-- The bytes the host has sent or will send that are not read yet, in order. -/
def hostBytes (s : State) : List Nat :=
  s.rxbuf ++ s.rxnext.flatten

/-- The value of each byte as a `uint8_t`. -/
def asBytes (l : List Nat) : List Nat := l.map (fun b => b % 256)

/-- The running XOR checksum of a payload, seeded with `seed`. -/
def xorFold (seed : Nat) (payload : List Nat) : Nat :=
  payload.foldl (fun c b => c ^^^ b) seed

/-- The wire bytes of a data block: packet with opcode 0, payload, checksum. -/
def blockBytes (addr size : Nat) (payload : List Nat) : List Nat :=
  commandBytes 0 addr size ++ payload ++ [xorFold 0x81 payload]

/-- The wire bytes of `send_command0`: packet for one byte, the byte, checksum. -/
def command0Bytes (addr byte : Nat) : List Nat :=
  commandBytes 0 addr 1 ++ [byte, 0x81 ^^^ byte]

/-- The state `readyState` with three host bytes on their way, in two packets. -/
def hostState : State :=
  { readyState with rxnext := [[0x11, 0x22], [0x33]] }

/-- The state in which `write_rom(1, 0)` runs when the host has streamed, in
16-byte packets, the command `WRITE ROM` with its arguments, the 8192 payload
bytes (all 0xAA) and the first two bytes of its next command: the dispatcher
has read the 14 bytes of command and arguments, two payload bytes are left in
the endpoint buffer, and the last packet holds 14 payload bytes and the two
bytes that follow the payload. -/
def overrunState : State :=
  { readyState with
    rxbuf := [0xAA, 0xAA],
    rxnext := List.replicate 511 (List.replicate 16 0xAA) ++
      [List.replicate 14 0xAA ++ [0x52, 0x45]] }

/-- Scenario 1 at the start of an iteration: the host streams, in 16-byte
packets, the token `WRITE ROM\0\0`, the arguments 0x00 0x01 0x00 (one block,
mode 0) and 8192 payload bytes, all 0xAA; the peripheral always shows busy. -/
def scenarioState : State :=
  { readyState with
    rxnext := [[87, 82, 73, 84, 69, 32, 82, 79, 77, 0, 0, 0x00, 0x01, 0x00, 0xAA, 0xAA]] ++
      List.replicate 511 (List.replicate 16 0xAA) ++ [List.replicate 14 0xAA] }

/-- The bytes returned by `k` successive calls of `receive_byte`. -/
def receive_bytes : Nat → State → List Nat × State
  | 0, s => ([], s)
  | k + 1, s =>
    let r := receive_byte s
    let rest := receive_bytes k r.2
    (r.1 :: rest.1, rest.2)

/-- The log left by receiving the given bytes and forwarding each to the
host: two strobes per byte, then the byte on the USB side. -/
def forwardEvents (bytes : List Nat) : List Event :=
  bytes.flatMap (fun b => [Event.strobe, Event.strobe, Event.usb b])

/-- Two states that the peripheral cannot tell apart: same status stream,
same number of reads so far, same fault flag. -/
def SameLink (s t : State) : Prop :=
  s.pinb = t.pinb ∧ s.polls = t.polls ∧ s.timeout = t.timeout

/-- The state `readyState` with the host sending the token `HELLO` padded
with NUL bytes to eleven bytes. -/
def helloState : State :=
  { readyState with rxnext := [[72, 69, 76, 76, 79, 0, 0, 0, 0, 0, 0]] }

/-- The block sizes `write_sram` has to request, in the spec's words:
`ceil(total_bytes / 8192)` blocks of 8192 bytes each, except that the final
block has `total_bytes mod 8192` bytes when that remainder is not zero. -/
def sramBlockSizes (total_bytes : Nat) : List Nat :=
  List.replicate (total_bytes / 8192) 8192 ++
    (if total_bytes % 8192 ≠ 0 then [total_bytes % 8192] else [])

/-- The packets `g` are what a `send_block` of `size` bytes takes from the
host: the byte count reaches `size` in the last packet of `g`, not before. -/
def Carries (g : List (List Nat)) (size : Nat) : Prop :=
  ∃ (g0 : List (List Nat)) (c : List Nat),
    g = g0 ++ [c] ∧ g0.flatten.length < size ∧ size ≤ g.flatten.length ∧
      g.flatten.length < 65536

/-- The wire bytes of the blocks of `write_sram`, given the size requested
and the payload sent for each: a seek to `address`, the block to 0x2000, and
so on from `address + 1`. -/
def sramBlocksWire : Nat → List (Nat × List Nat) → List Nat
  | _, [] => []
  | address, (size, payload) :: rest =>
    commandBytes 5 address 0 ++ blockBytes 0x2000 size payload ++
      sramBlocksWire (address + 1) rest

/-- The size `write_sram` passes to `send_block` in iteration `block`. -/
def sramSizeAt (blocks last_block_size block : Nat) : Nat :=
  if last_block_size ≠ 0 ∧ (block : Int) = (blocks : Int) - 1 then last_block_size else BLOCK_SIZE

/-- The sizes passed to `send_block` in `k` iterations from iteration `block`. -/
def sramSizesFrom (blocks last_block_size : Nat) : Nat → Nat → List Nat
  | _, 0 => []
  | block, k + 1 =>
    sramSizeAt blocks last_block_size block :: sramSizesFrom blocks last_block_size (block + 1) k

/-- The state `readyState` with sixteen host bytes on their way in one packet. -/
def sramState : State :=
  { readyState with rxnext := [List.replicate 16 0x07] }

/-- The wire bytes of the blocks of `write_rom` from block index `block` on,
given the payload sent for each: bank select, seek, block to 0x8000. -/
def romBlocksWire : Nat → List (List Nat) → List Nat
  | _, [] => []
  | block, payload :: rest =>
    command0Bytes 0xC010 (block >>> 9) ++ commandBytes 5 ((0x200 + block) % 65536) 0 ++
      blockBytes 0x8000 8192 payload ++ romBlocksWire (block + 1) rest

/-- The state `readyState` with the payload of two ROM blocks on its way,
one 8192-byte packet per block. -/
def romState : State :=
  { readyState with rxnext := [List.replicate 8192 0x5A, List.replicate 8192 0xA5] }

/-- The number of `TIMEOUT\n` lines in a log. -/
def timeoutReports (t : List Event) : Nat :=
  t.count (Event.feedback "TIMEOUT\n")

/-- What every operation below the dispatcher does to the fault flag and the
log on the way from `s` to `t`: a raised flag stays raised, and the log only
grows, by events none of which is the line `TIMEOUT\n`. -/
def Extends (s t : State) : Prop :=
  (s.timeout = true → t.timeout = true) ∧
    ∃ ev : List Event, t.trace = s.trace ++ ev ∧ Event.feedback "TIMEOUT\n" ∉ ev

/-- The first `n` iterations of the `for (;;)` loop of `main`.  `none`: one
of them never ends. -/
def main_loop : Nat → State → Option State
  | 0, s => some s
  | n + 1, s =>
    match main_iteration s with
    | none => none
    | some s => main_loop n s

/-- The state `readyState` facing a peripheral that never shows busy (raw
PINB stays 0xFF, as with nothing attached and the pull-ups on), while the
host sends the command `WRITE SRAM` with a byte count of zero. -/
def silentSramState : State :=
  { readyState with
    pinb := fun _ => 0xFF,
    rxnext := [[87, 82, 73, 84, 69, 32, 83, 82, 65, 77, 0, 0x00, 0x00]] }

/-- Scenario 5 at the start of an iteration: the host streams what
`scenarioState` holds, `WRITE ROM` for one block with its payload, but the
peripheral never shows busy (raw PINB stays 0xFF). -/
def stuckState : State :=
  { scenarioState with pinb := fun _ => 0xFF }

/-- The bytes the peripheral delivers in `k` successive block reads of
`read_sram`, the first one at `address`: for each block the
`BLOCK_SIZE + 1` bytes that `receive_byte` returns after the seek and the
request, the last of them being the checksum byte. -/
def sramBlocksRead : Nat → Nat → State → List (List Nat)
  | 0, _, _ => []
  | k + 1, address, s =>
    (receive_bytes (BLOCK_SIZE + 1)
        (send_command 1 0x2000 BLOCK_SIZE (send_command 5 address 0 s))).1 ::
      sramBlocksRead k ((address + 1) % 65536)
        (receive_block 0x2000 BLOCK_SIZE (send_command 5 address 0 s)).2

/-- The log of the block reads of `read_sram` from `address` on, given the
bytes received for each block: the seek, the request for 8192 bytes from
0x2000, the payload forwarded to the host byte by byte, and the two strobes
of the checksum byte. -/
def sramReadEvents : Nat → List (List Nat) → List Event
  | _, [] => []
  | address, bytes :: rest =>
    sendEvents (commandBytes 5 address 0 ++ commandBytes 1 0x2000 BLOCK_SIZE) ++
      forwardEvents (bytes.take BLOCK_SIZE) ++ [Event.strobe, Event.strobe] ++
      sramReadEvents ((address + 1) % 65536) rest

/-- The number of blocks whose checksum byte differs from 0x81 XORed with
the payload bytes. -/
def sramErrors (blocks : List (List Nat)) : Nat :=
  (blocks.filter
    (fun b => decide (xorFold 0x81 (b.take BLOCK_SIZE) ≠ b.getD BLOCK_SIZE 0))).length

/-- The state `readyState` facing a peripheral that follows a `READ SRAM`:
it shows busy while the header (62 polls) and the two commands of each block
(36 polls) are sent, and not busy, offering zero nibbles, while the 8193
bytes of each block are received (8 polls each). -/
def sramReadState : State :=
  { readyState with
    pinb := fun k => if k < 62 ∨ (k - 62) % 65580 < 36 then 0x00 else 0x80 }

/-- The state `sramReadState` with the character `9` (0x39) at address 4 of
the data space and NUL everywhere else. -/
def sramNineState : State :=
  { sramReadState with dmem := fun a => if a = 4 then 0x39 else 0x00 }

/-- The state `sramState` facing a slow peripheral: busy = 1 shows at every
second poll only, so every wait of a send takes two polls. -/
def slowSramState : State :=
  { sramState with pinb := fun k => if k % 2 = 0 then 0x80 else 0x00 }

/-! ## Unfolding equations of the loops

Stated with the callees kept folded. -/

section Unfolding

attribute [local irreducible] send_block send_command send_command0 receive_block receive_byte
  write_rom write_sram read_sram cdc_device_receive_bytes send_feedback

theorem write_rom_loop_succ (total fuel block address : Nat) (s : State) :
    write_rom_loop total (fuel + 1) block address s =
      (if block < total then
        (match send_block 0x8000 BLOCK_SIZE
            (send_command 5 address 0 (send_command0 0xC010 (block >>> 9) s)) with
          | none => none
          | some t =>
            if t.timeout then some (true, block, t)
            else write_rom_loop total fuel ((block + 1) % 65536) ((address + 1) % 65536) t)
      else some (false, block, s)) := by
  rw [write_rom_loop]

theorem write_rom_loop_zero (total block address : Nat) (s : State) :
    write_rom_loop total 0 block address s =
      (if block < total then none else some (false, block, s)) := by
  rw [write_rom_loop]

theorem write_sram_loop_succ (blocks last fuel block block_size address : Nat) (s : State) :
    write_sram_loop blocks last (fuel + 1) block block_size address s =
      (if block < blocks then
        (match send_block 0x2000
            (if last ≠ 0 ∧ (block : Int) = (blocks : Int) - 1 then last else block_size)
            (send_command 5 address 0 s) with
          | none => none
          | some t =>
            if t.timeout then some (true, t)
            else write_sram_loop blocks last fuel ((block + 1) % 256)
              (if last ≠ 0 ∧ (block : Int) = (blocks : Int) - 1 then last else block_size)
              ((address + 1) % 65536) t)
      else some (false, s)) := by
  rw [write_sram_loop]

theorem write_sram_loop_zero (blocks last block block_size address : Nat) (s : State) :
    write_sram_loop blocks last 0 block block_size address s =
      (if block < blocks then none else some (false, s)) := by
  rw [write_sram_loop]

theorem receive_block_loop_succ (k checksum : Nat) (s : State) :
    receive_block_loop (k + 1) checksum s =
      receive_block_loop k ((checksum ^^^ (receive_byte s).1) % 256)
        (CDC_Device_SendData [(receive_byte s).1] (receive_byte s).2) := by
  rw [receive_block_loop]

theorem write_rom_eq (total_blocks emu_mode_select : Nat) (s : State) :
    write_rom total_blocks emu_mode_select s =
      (match write_rom_loop (total_blocks % 65536) (total_blocks % 65536) 0 0x200 s with
        | none => none
        | some (true, _, t) => some t
        | some (false, block, t) =>
          some (send_feedback "OK\n"
            (send_command 6 (1 ||| ((emu_mode_select % 256) <<< 8)) 0
              (send_command 6 (5 ||| ((total_blocks % 65536) <<< 8)) ((total_blocks % 65536) >>> 8)
                (send_command 5 0 0
                  (if block > 0x200 then send_command0 0xC010 1 t else t)))))) := by
  unfold write_rom
  rfl

theorem write_sram_eq (total_bytes : Nat) (s : State) :
    write_sram total_bytes s =
      (match write_sram_loop
          (if (total_bytes % 65536) % BLOCK_SIZE ≠ 0
            then ((total_bytes % 65536) / BLOCK_SIZE % 256 + 1) % 256
            else (total_bytes % 65536) / BLOCK_SIZE % 256)
          ((total_bytes % 65536) % BLOCK_SIZE)
          (if (total_bytes % 65536) % BLOCK_SIZE ≠ 0
            then ((total_bytes % 65536) / BLOCK_SIZE % 256 + 1) % 256
            else (total_bytes % 65536) / BLOCK_SIZE % 256)
          0 BLOCK_SIZE 0x100
          (send_command0 0xC008 0 (send_command0 0xE00D 0 (send_command 5 0 0 s))) with
        | none => none
        | some (true, t) => some t
        | some (false, t) => some (send_feedback "OK\n" t)) := by
  unfold write_sram
  rfl

theorem dispatch_eq (command : List Nat) (s : State) :
    dispatch command s =
      (if strcmp_eq command "WRITE ROM" then
        (match cdc_device_receive_bytes 3 s with
          | none => none
          | some (arguments, t) =>
            write_rom (((arguments.getD 0 0 <<< 8) ||| arguments.getD 1 0) % 65536)
              (arguments.getD 2 0) t)
      else if strcmp_eq command "READ SRAM" then
        some (read_sram s)
      else if strcmp_eq command "WRITE SRAM" then
        (match cdc_device_receive_bytes 2 s with
          | none => none
          | some (arguments, t) =>
            write_sram (((arguments.getD 0 0 <<< 8) ||| arguments.getD 1 0) % 65536) t)
      else
        some (send_feedback "UNKNOWN COMMAND\n" s)) := by
  unfold dispatch
  rfl

end Unfolding

section UnfoldingMain

attribute [local irreducible] dispatch cdc_device_receive_bytes send_feedback drain_loop

theorem main_iteration_eq (s : State) :
    main_iteration s =
      (match cdc_device_receive_bytes COMMAND_LEN s with
        | none => none
        | some (raw_command, s1) =>
          (match dispatch (raw_command.set (COMMAND_LEN - 1) 0) (activate_ports s1) with
            | none => none
            | some s2 =>
              (match drain_loop
                  (pending_bytes
                    (if (deactivate_ports s2).timeout
                      then { send_feedback "TIMEOUT\n" (deactivate_ports s2) with timeout := false }
                      else deactivate_ports s2) + 1)
                  (if (deactivate_ports s2).timeout
                    then { send_feedback "TIMEOUT\n" (deactivate_ports s2) with timeout := false }
                    else deactivate_ports s2) with
                | none => none
                | some s3 => some (USB_tasks s3)))) := by
  unfold main_iteration
  rfl

end UnfoldingMain

/-! ## Frame lemmas for the handshake engine -/

theorem wait_busy_loop_proj {α : Type} (f : State → α)
    (hf : ∀ (s : State) (p : Nat), f { s with polls := p } = f s) (bit : Bool) (pm : Nat) :
    ∀ (fuel c : Nat) (s : State), f (wait_busy_loop bit pm fuel c s).2.2 = f s := by
  intro fuel
  induction fuel with
  | zero => intro c s; simp [wait_busy_loop]
  | succ n ih =>
    intro c s
    simp only [wait_busy_loop, read_status]
    split
    · rw [ih, hf]
    · exact hf _ _

theorem wait_busy_bit_proj {α : Type} (f : State → α)
    (hf : ∀ (s : State) (p : Nat), f { s with polls := p } = f s)
    (hg : ∀ (s : State) (t : Bool), f { s with timeout := t } = f s)
    (bit : Bool) (pm : Nat) (s : State) :
    f (wait_busy_bit bit pm s) = f s := by
  unfold wait_busy_bit
  by_cases h : s.timeout = true
  · simp [h]
  · simp only [h]
    split
    · rfl
    · split
      · rw [hg, wait_busy_loop_proj f hf]
      · rw [wait_busy_loop_proj f hf]

@[simp] theorem wait_busy_bit_trace (bit : Bool) (pm : Nat) (s : State) :
    (wait_busy_bit bit pm s).trace = s.trace :=
  wait_busy_bit_proj State.trace (fun _ _ => rfl) (fun _ _ => rfl) bit pm s

@[simp] theorem wait_busy_bit_pinb (bit : Bool) (pm : Nat) (s : State) :
    (wait_busy_bit bit pm s).pinb = s.pinb :=
  wait_busy_bit_proj State.pinb (fun _ _ => rfl) (fun _ _ => rfl) bit pm s

@[simp] theorem wait_busy_bit_pinf (bit : Bool) (pm : Nat) (s : State) :
    (wait_busy_bit bit pm s).pinf = s.pinf :=
  wait_busy_bit_proj State.pinf (fun _ _ => rfl) (fun _ _ => rfl) bit pm s

@[simp] theorem wait_busy_bit_rxbuf (bit : Bool) (pm : Nat) (s : State) :
    (wait_busy_bit bit pm s).rxbuf = s.rxbuf :=
  wait_busy_bit_proj State.rxbuf (fun _ _ => rfl) (fun _ _ => rfl) bit pm s

@[simp] theorem wait_busy_bit_rxnext (bit : Bool) (pm : Nat) (s : State) :
    (wait_busy_bit bit pm s).rxnext = s.rxnext :=
  wait_busy_bit_proj State.rxnext (fun _ _ => rfl) (fun _ _ => rfl) bit pm s

@[simp] theorem wait_busy_bit_PORTD (bit : Bool) (pm : Nat) (s : State) :
    (wait_busy_bit bit pm s).PORTD = s.PORTD :=
  wait_busy_bit_proj State.PORTD (fun _ _ => rfl) (fun _ _ => rfl) bit pm s

@[simp] theorem wait_busy_bit_PORTF (bit : Bool) (pm : Nat) (s : State) :
    (wait_busy_bit bit pm s).PORTF = s.PORTF :=
  wait_busy_bit_proj State.PORTF (fun _ _ => rfl) (fun _ _ => rfl) bit pm s

@[simp] theorem wait_busy_bit_PORTE (bit : Bool) (pm : Nat) (s : State) :
    (wait_busy_bit bit pm s).PORTE = s.PORTE :=
  wait_busy_bit_proj State.PORTE (fun _ _ => rfl) (fun _ _ => rfl) bit pm s

/-- With the flag clear and the busy bit already at the awaited value, a wait
without minimum polls the status once and leaves the flag clear. -/
theorem wait_busy_bit_ready (s : State) (h : s.timeout = false)
    (hb : busyAt s s.polls = true) :
    wait_busy_bit true 0 s = { s with polls := s.polls + 1 } := by
  unfold busyAt at hb
  simp only [decide_eq_true_eq] at hb
  simp [wait_busy_bit, h, wait_busy_loop, read_status, hb]

@[simp] theorem busyAt_wait (bit : Bool) (pm : Nat) (s : State) (k : Nat) :
    busyAt (wait_busy_bit bit pm s) k = busyAt s k := by
  simp [busyAt]

@[simp] theorem send_byte_trace (b : Nat) (s : State) :
    (send_byte b s).trace = s.trace ++ [Event.data (b % 256), Event.strobe] := by
  simp [send_byte, invert_strobe, flip_led, write_control, write_data]

@[simp] theorem send_byte_pinb (b : Nat) (s : State) : (send_byte b s).pinb = s.pinb := by
  simp [send_byte, invert_strobe, flip_led, write_control, write_data]

@[simp] theorem send_byte_pinf (b : Nat) (s : State) : (send_byte b s).pinf = s.pinf := by
  simp [send_byte, invert_strobe, flip_led, write_control, write_data]

@[simp] theorem send_byte_rxbuf (b : Nat) (s : State) : (send_byte b s).rxbuf = s.rxbuf := by
  simp [send_byte, invert_strobe, flip_led, write_control, write_data]

@[simp] theorem send_byte_rxnext (b : Nat) (s : State) : (send_byte b s).rxnext = s.rxnext := by
  simp [send_byte, invert_strobe, flip_led, write_control, write_data]

@[simp] theorem busyAt_send_byte (b : Nat) (s : State) (k : Nat) :
    busyAt (send_byte b s) k = busyAt s k := by
  simp [busyAt]

/-- A byte sent to a peripheral that shows busy: two polls, flag still clear. -/
theorem send_byte_ready (b : Nat) (s : State) (h : s.timeout = false)
    (hb : ∀ k, busyAt s k = true) :
    (send_byte b s).timeout = false ∧ (send_byte b s).polls = s.polls + 2 := by
  unfold send_byte
  simp only []
  rw [wait_busy_bit_ready s h (hb _)]
  rw [wait_busy_bit_ready]
  · simp [invert_strobe, flip_led, write_control, write_data, h]
  · simp [invert_strobe, flip_led, write_control, write_data, h]
  · have := hb (s.polls + 1)
    simpa [busyAt, invert_strobe, flip_led, write_control, write_data] using this

/-! ## Byte arithmetic -/

theorem xor_mod_256 (x y : Nat) : (x ^^^ y) % 256 = (x % 256) ^^^ (y % 256) := by
  apply Nat.eq_of_testBit_eq
  intro i
  have h : (256 : Nat) = 2 ^ 8 := rfl
  rw [h]
  simp only [Nat.testBit_mod_two_pow, Nat.testBit_xor]
  by_cases hi : i < 8 <;> simp [hi]

theorem and_255 (x : Nat) : x &&& 0xFF = x % 256 :=
  Nat.and_pow_two_sub_one_eq_mod x 8

theorem shiftRight_8_lt (x : Nat) (h : x < 65536) : x >>> 8 < 256 := by
  rw [Nat.shiftRight_eq_div_pow]
  omega

theorem xor_lt_256 {x y : Nat} (hx : x < 256) (hy : y < 256) : x ^^^ y < 256 :=
  Nat.xor_lt_two_pow (n := 8) hx hy

/-- The 16-bit checksum expression of `send_command`, truncated to a byte, is
the byte-wise XOR. -/
theorem command_checksum (op addr len : Nat) (hop : op < 256) (haddr : addr < 65536)
    (hlen : len < 65536) :
    (0x81 ^^^ op ^^^ addr ^^^ (addr >>> 8) ^^^ len ^^^ (len >>> 8)) % 256 =
      0x81 ^^^ op ^^^ (addr &&& 0xFF) ^^^ (addr >>> 8) ^^^ (len &&& 0xFF) ^^^ (len >>> 8) := by
  have h1 := shiftRight_8_lt addr haddr
  have h2 := shiftRight_8_lt len hlen
  simp only [xor_mod_256, and_255]
  rw [Nat.mod_eq_of_lt hop, Nat.mod_eq_of_lt h1, Nat.mod_eq_of_lt h2]

/-! ## Sequences of bytes -/

@[simp] theorem send_bytes_nil (s : State) : send_bytes [] s = s := rfl

@[simp] theorem send_bytes_cons (b : Nat) (bs : List Nat) (s : State) :
    send_bytes (b :: bs) s = send_bytes bs (send_byte b s) := rfl

theorem send_bytes_append (as bs : List Nat) (s : State) :
    send_bytes (as ++ bs) s = send_bytes bs (send_bytes as s) := by
  simp [send_bytes, List.foldl_append]

theorem sendEvents_append (a b : List Nat) :
    sendEvents (a ++ b) = sendEvents a ++ sendEvents b := by
  simp [sendEvents]

theorem sendEvents_cons (b : Nat) (bs : List Nat) :
    sendEvents (b :: bs) = Event.data b :: Event.strobe :: sendEvents bs := by
  simp [sendEvents]

@[simp] theorem sendEvents_nil : sendEvents [] = [] := rfl

theorem send_bytes_trace (bytes : List Nat) (s : State) :
    (send_bytes bytes s).trace = s.trace ++ sendEvents (bytes.map (fun b => b % 256)) := by
  induction bytes generalizing s with
  | nil => simp
  | cons b bs ih => simp [ih, sendEvents_cons]

@[simp] theorem send_bytes_pinb (bytes : List Nat) (s : State) :
    (send_bytes bytes s).pinb = s.pinb := by
  induction bytes generalizing s with
  | nil => rfl
  | cons b bs ih => simp [ih]

@[simp] theorem send_bytes_pinf (bytes : List Nat) (s : State) :
    (send_bytes bytes s).pinf = s.pinf := by
  induction bytes generalizing s with
  | nil => rfl
  | cons b bs ih => simp [ih]

@[simp] theorem send_bytes_rxbuf (bytes : List Nat) (s : State) :
    (send_bytes bytes s).rxbuf = s.rxbuf := by
  induction bytes generalizing s with
  | nil => rfl
  | cons b bs ih => simp [ih]

@[simp] theorem send_bytes_rxnext (bytes : List Nat) (s : State) :
    (send_bytes bytes s).rxnext = s.rxnext := by
  induction bytes generalizing s with
  | nil => rfl
  | cons b bs ih => simp [ih]

@[simp] theorem busyAt_send_bytes (bytes : List Nat) (s : State) (k : Nat) :
    busyAt (send_bytes bytes s) k = busyAt s k := by
  simp [busyAt]

/-- Bytes sent to a peripheral that shows busy: two polls each, flag clear. -/
theorem send_bytes_ready (bytes : List Nat) (s : State) (h : s.timeout = false)
    (hb : ∀ k, busyAt s k = true) :
    (send_bytes bytes s).timeout = false ∧
      (send_bytes bytes s).polls = s.polls + 2 * bytes.length := by
  induction bytes generalizing s with
  | nil => simp [h]
  | cons b bs ih =>
    have h1 := send_byte_ready b s h hb
    have h2 := ih (send_byte b s) h1.1 (fun k => by simpa using hb k)
    simp only [send_bytes_cons, List.length_cons]
    refine ⟨h2.1, ?_⟩
    rw [h2.2, h1.2]
    omega

/-! ## Command packets -/

theorem send_command_eq (op addr len : Nat) (s : State) :
    send_command op addr len s =
      send_bytes [0xD5, 0xAA, 0x96, op % 256, addr % 65536, (addr % 65536) >>> 8,
        len % 65536, (len % 65536) >>> 8,
        0x81 ^^^ (op % 256) ^^^ (addr % 65536) ^^^ ((addr % 65536) >>> 8) ^^^
          (len % 65536) ^^^ ((len % 65536) >>> 8)] s := rfl

theorem send_command_trace (op addr len : Nat) (s : State) :
    (send_command op addr len s).trace =
      s.trace ++ sendEvents (commandBytes (op % 256) (addr % 65536) (len % 65536)) := by
  have h1 := shiftRight_8_lt (addr % 65536) (Nat.mod_lt _ (by norm_num))
  have h2 := shiftRight_8_lt (len % 65536) (Nat.mod_lt _ (by norm_num))
  have hc := command_checksum (op % 256) (addr % 65536) (len % 65536)
    (Nat.mod_lt _ (by norm_num)) (Nat.mod_lt _ (by norm_num)) (Nat.mod_lt _ (by norm_num))
  rw [send_command_eq, send_bytes_trace]
  simp only [List.map, hc, commandBytes, and_255]
  simp [Nat.mod_eq_of_lt h1, Nat.mod_eq_of_lt h2, Nat.mod_mod_of_dvd]

@[simp] theorem send_command_pinb (op addr len : Nat) (s : State) :
    (send_command op addr len s).pinb = s.pinb := by
  rw [send_command_eq, send_bytes_pinb]

@[simp] theorem send_command_pinf (op addr len : Nat) (s : State) :
    (send_command op addr len s).pinf = s.pinf := by
  rw [send_command_eq, send_bytes_pinf]

@[simp] theorem send_command_rxbuf (op addr len : Nat) (s : State) :
    (send_command op addr len s).rxbuf = s.rxbuf := by
  rw [send_command_eq, send_bytes_rxbuf]

@[simp] theorem send_command_rxnext (op addr len : Nat) (s : State) :
    (send_command op addr len s).rxnext = s.rxnext := by
  rw [send_command_eq, send_bytes_rxnext]

@[simp] theorem busyAt_send_command (op addr len : Nat) (s : State) (k : Nat) :
    busyAt (send_command op addr len s) k = busyAt s k := by
  simp [busyAt]

/-- A command sent to a peripheral that shows busy: eighteen polls, flag clear. -/
theorem send_command_ready (op addr len : Nat) (s : State) (h : s.timeout = false)
    (hb : ∀ k, busyAt s k = true) :
    (send_command op addr len s).timeout = false ∧
      (send_command op addr len s).polls = s.polls + 18 := by
  rw [send_command_eq]
  exact send_bytes_ready _ s h hb

theorem dataBytes_append (t u : List Event) :
    dataBytes (t ++ u) = dataBytes t ++ dataBytes u := by
  simp [dataBytes, List.filterMap_append]

@[simp] theorem dataBytes_sendEvents (bytes : List Nat) :
    dataBytes (sendEvents bytes) = bytes := by
  induction bytes with
  | nil => rfl
  | cons b bs ih =>
    have h : sendEvents (b :: bs) = [Event.data b, Event.strobe] ++ sendEvents bs := by
      simp [sendEvents]
    rw [h, dataBytes_append, ih]
    rfl

/-! ## The command packet on the wire -/

/-- C1: for an 8-bit opcode, a 16-bit address and a 16-bit length, with the
fault flag clear and the peripheral showing busy at every poll,
`send_command` drives exactly nine bytes, each followed by one strobe:
0xD5, 0xAA, 0x96, op, address low, address high, length low, length high and
the byte-wise XOR checksum seeded with 0x81; the fault flag stays clear. -/
theorem send_command_wire (op addr len : Nat) (s : State)
    (hop : op < 256) (haddr : addr < 65536) (hlen : len < 65536)
    (hflag : s.timeout = false) (hbusy : ∀ k, busyAt s k = true) :
    (send_command op addr len s).trace =
        s.trace ++ sendEvents [0xD5, 0xAA, 0x96, op, addr &&& 0xFF, addr >>> 8,
          len &&& 0xFF, len >>> 8,
          0x81 ^^^ op ^^^ (addr &&& 0xFF) ^^^ (addr >>> 8) ^^^ (len &&& 0xFF) ^^^ (len >>> 8)] ∧
      dataBytes (send_command op addr len s).trace =
        dataBytes s.trace ++ [0xD5, 0xAA, 0x96, op, addr &&& 0xFF, addr >>> 8,
          len &&& 0xFF, len >>> 8,
          0x81 ^^^ op ^^^ (addr &&& 0xFF) ^^^ (addr >>> 8) ^^^ (len &&& 0xFF) ^^^ (len >>> 8)] ∧
      (send_command op addr len s).timeout = false := by
  have ht := send_command_trace op addr len s
  rw [Nat.mod_eq_of_lt hop, Nat.mod_eq_of_lt haddr, Nat.mod_eq_of_lt hlen] at ht
  refine ⟨ht, ?_, (send_command_ready op addr len s hflag hbusy).1⟩
  rw [ht, dataBytes_append, dataBytes_sendEvents]
  rfl

/-- Witness for C1: the seek command `send_command(5, 0x200, 0)` on `readyState`. -/
theorem send_command_wire_witness :
    (5 < 256 ∧ 0x200 < 65536 ∧ 0 < 65536 ∧ readyState.timeout = false ∧
      ∀ k, busyAt readyState k = true) ∧
    dataBytes (send_command 5 0x200 0 readyState).trace =
      dataBytes readyState.trace ++ [0xD5, 0xAA, 0x96, 5, 0x200 &&& 0xFF, 0x200 >>> 8,
        0 &&& 0xFF, 0 >>> 8,
        0x81 ^^^ 5 ^^^ (0x200 &&& 0xFF) ^^^ (0x200 >>> 8) ^^^ (0 &&& 0xFF) ^^^ (0 >>> 8)] :=
  ⟨⟨by decide, by decide, by decide, rfl, fun _ => by simp [busyAt, readyState]⟩,
    (send_command_wire 5 0x200 0 readyState (by decide) (by decide) (by decide) rfl
      (fun _ => by simp [busyAt, readyState])).2.1⟩



/-! ## The busy wait -/

theorem busyAt_polls (s : State) (p k : Nat) :
    busyAt { s with polls := p } k = busyAt s k := rfl

/-- Exit of the polling loop entered with counter `c`: it stops at the first
poll number `k > c` with `poll_min ≤ k` whose busy bit matches, or at
`POLL_MAX`; the counter equals the number of polls and does not wrap. -/
theorem wait_busy_loop_exit (bit : Bool) (pm : Nat) (hpm : pm < 256) :
    ∀ (fuel c : Nat) (s : State), POLL_MAX ≤ c + fuel → c < POLL_MAX →
      ∃ k, c < k ∧ k ≤ POLL_MAX ∧ pm ≤ k ∧
        (wait_busy_loop bit pm fuel c s).2.1 = k ∧
        (wait_busy_loop bit pm fuel c s).2.2.polls = s.polls + (k - c) ∧
        (wait_busy_loop bit pm fuel c s).1 = busyAt s (s.polls + (k - c) - 1) ∧
        ((wait_busy_loop bit pm fuel c s).1 = bit ∨ k = POLL_MAX) ∧
        ∀ j, c < j → j < k → pm ≤ j → busyAt s (s.polls + (j - c) - 1) ≠ bit := by
  have hP : POLL_MAX = 65534 := rfl
  intro fuel
  induction fuel with
  | zero => intro c s h1 h2; omega
  | succ n ih =>
    intro c s h1 h2
    have hc : (c + 1) % 65536 = c + 1 := Nat.mod_eq_of_lt (by omega)
    simp only [wait_busy_loop, read_status, hc]
    have hb : decide ((s.pinb s.polls % 256 ^^^ PARPORT_IBUSY) &&& PARPORT_IBUSY ≠ 0) =
        busyAt s s.polls := rfl
    rw [hb]
    split
    · rename_i hcont
      have hlt : c + 1 < POLL_MAX := by
        rcases hcont with h | h
        · omega
        · exact h.2
      obtain ⟨k, hk1, hk2, hk3, hk4, hk5, hk6, hk7, hk8⟩ :=
        ih (c + 1) { s with polls := s.polls + 1 } (by omega) hlt
      refine ⟨k, by omega, hk2, hk3, hk4, ?_, ?_, hk7, ?_⟩
      · rw [hk5]; simp only []; omega
      · rw [hk6, busyAt_polls]
        simp only []
        congr 1; omega
      · intro j hj1 hj2 hj3
        by_cases hj : j = c + 1
        · subst hj
          rcases hcont with h | h
          · omega
          · have : s.polls + (c + 1 - c) - 1 = s.polls := by omega
            rw [this]; exact h.1
        · have := hk8 j (by omega) hj2 hj3
          rw [busyAt_polls] at this
          simp only [] at this
          have e : s.polls + 1 + (j - (c + 1)) - 1 = s.polls + (j - c) - 1 := by omega
          rw [e] at this; exact this
    · rename_i hstop
      have hstop1 : ¬ (c + 1 < pm) := fun h => hstop (Or.inl h)
      have hstop2 : ¬ (busyAt s s.polls ≠ bit ∧ c + 1 < POLL_MAX) := fun h => hstop (Or.inr h)
      refine ⟨c + 1, by omega, by omega, by omega, rfl, by simp, ?_, ?_, ?_⟩
      · have : s.polls + (c + 1 - c) - 1 = s.polls := by omega
        rw [this]
      · by_cases hm : busyAt s s.polls = bit
        · exact Or.inl hm
        · right
          have : ¬ (c + 1 < POLL_MAX) := fun h => hstop2 ⟨hm, h⟩
          omega
      · intro j hj1 hj2; omega

/-- `POLL_MAX` iterations are enough: more fuel does not change the result. -/
theorem wait_busy_loop_fuel (bit : Bool) (pm : Nat) (hpm : pm < 256) :
    ∀ (fuel c : Nat) (s : State), POLL_MAX ≤ c + fuel → c < POLL_MAX →
      wait_busy_loop bit pm (fuel + 1) c s = wait_busy_loop bit pm fuel c s := by
  have hP : POLL_MAX = 65534 := rfl
  intro fuel
  induction fuel with
  | zero => intro c s h1 h2; omega
  | succ n ih =>
    intro c s h1 h2
    have hc : (c + 1) % 65536 = c + 1 := Nat.mod_eq_of_lt (by omega)
    conv_lhs => unfold wait_busy_loop
    conv_rhs => unfold wait_busy_loop
    simp only [hc]
    split
    · rename_i hcont
      have hlt : c + 1 < POLL_MAX := by
        rcases hcont with h | h
        · omega
        · exact h.2
      exact ih (c + 1) _ (by omega) hlt
    · rfl

theorem wait_busy_bit_fault (bit : Bool) (pm : Nat) (s : State) (h : s.timeout = true) :
    wait_busy_bit bit pm s = s := by
  simp [wait_busy_bit, h]

theorem wait_busy_loop_timeout (bit : Bool) (pm fuel c : Nat) (s : State) :
    (wait_busy_loop bit pm fuel c s).2.2.timeout = s.timeout :=
  wait_busy_loop_proj State.timeout (fun _ _ => rfl) bit pm fuel c s

/-- C8: for every awaited bit, every `poll_min` below 256 and every stream of
status reads, `wait_busy_bit` leaves the fault flag set exactly when it was
set on entry (then no status read is made) or no poll numbered
`max 1 poll_min` to `POLL_MAX` showed the awaited busy bit; with the flag
clear at least `max 1 poll_min` polls are made, so an earlier match does not
end the wait. -/
theorem wait_busy_bit_fault_iff (bit : Bool) (pm : Nat) (s : State) (hpm : pm < 256) :
    ((wait_busy_bit bit pm s).timeout = true ↔
        (s.timeout = true ∨
          ∀ j, max 1 pm ≤ j → j ≤ POLL_MAX → busyAt s (s.polls + j - 1) ≠ bit)) ∧
      (s.timeout = true → (wait_busy_bit bit pm s).polls = s.polls) ∧
      (s.timeout = false → s.polls + max 1 pm ≤ (wait_busy_bit bit pm s).polls) := by
  have hP : POLL_MAX = 65534 := rfl
  by_cases ht : s.timeout = true
  · simp [wait_busy_bit_fault bit pm s ht, ht]
  · have ht' : s.timeout = false := by simpa using ht
    obtain ⟨k, hk1, hk2, hk3, hk4, hk5, hk6, hk7, hk8⟩ :=
      wait_busy_loop_exit bit pm hpm POLL_MAX 0 s (by omega) (by norm_num)
    have hto := wait_busy_loop_timeout bit pm POLL_MAX 0 s
    have hmod : pm % 256 = pm := Nat.mod_eq_of_lt hpm
    simp only [Nat.sub_zero] at hk5 hk6 hk8
    refine ⟨?_, fun h => absurd h ht, fun _ => ?_⟩
    · simp only [ht', false_or, Bool.false_eq_true]
      unfold wait_busy_bit
      simp only [ht', Bool.false_eq_true, if_false, hmod]
      constructor
      · intro h
        by_cases hm : (wait_busy_loop bit pm POLL_MAX 0 s).1 = bit
        · rw [if_neg (by simpa using hm)] at h
          rw [hto, ht'] at h
          exact absurd h (by simp)
        · intro j hj1 hj2
          have hkmax : k = POLL_MAX := by
            rcases hk7 with h7 | h7
            · exact absurd h7 hm
            · exact h7
          by_cases hjk : j < k
          · exact hk8 j (by omega) hjk (by omega)
          · have : j = k := by omega
            subst this
            rw [← hk6]; exact hm
      · intro h
        have hm : (wait_busy_loop bit pm POLL_MAX 0 s).1 ≠ bit := by
          rw [hk6]
          exact h k (by omega) hk2
        rw [if_pos hm]
    · unfold wait_busy_bit
      simp only [ht', Bool.false_eq_true, if_false, hmod]
      split
      · simp only []; rw [hk5]; omega
      · rw [hk5]; omega

/-- Witness for C8: waiting for busy = 0 with `poll_min = 3` on `readyState`. -/
theorem wait_busy_bit_fault_iff_witness :
    3 < 256 ∧
    ((wait_busy_bit false 3 readyState).timeout = true ↔
        (readyState.timeout = true ∨
          ∀ j, max 1 3 ≤ j → j ≤ POLL_MAX →
            busyAt readyState (readyState.polls + j - 1) ≠ false)) :=
  ⟨by decide, (wait_busy_bit_fault_iff false 3 readyState (by decide)).1⟩


/-! ## Operations entered with the fault flag set -/

theorem send_byte_fault (b : Nat) (s : State) (h : s.timeout = true) :
    send_byte b s = invert_strobe (write_data (b % 256) s) := by
  unfold send_byte
  simp only []
  rw [wait_busy_bit_fault true 0 s h, wait_busy_bit_fault]
  simp [invert_strobe, flip_led, write_control, write_data, h]

theorem send_byte_fault_keeps (b : Nat) (s : State) (h : s.timeout = true) :
    (send_byte b s).timeout = true ∧ (send_byte b s).polls = s.polls := by
  rw [send_byte_fault b s h]
  simp [invert_strobe, flip_led, write_control, write_data, h]

theorem send_bytes_fault_keeps (bytes : List Nat) (s : State) (h : s.timeout = true) :
    (send_bytes bytes s).timeout = true ∧ (send_bytes bytes s).polls = s.polls := by
  induction bytes generalizing s with
  | nil => simp [h]
  | cons b bs ih =>
    have h1 := send_byte_fault_keeps b s h
    have h2 := ih (send_byte b s) h1.1
    simp only [send_bytes_cons]
    exact ⟨h2.1, by rw [h2.2, h1.2]⟩

theorem send_command0_eq (addr b : Nat) (s : State) :
    send_command0 addr b s =
      send_bytes [b, 0x81 ^^^ (b % 256)] (send_command 0 addr 1 s) := rfl

theorem xor_0x40_twice (x : Nat) : ((x ^^^ 0x40) % 256 ^^^ 0x40) % 256 = x % 256 := by
  rw [xor_mod_256, Nat.mod_mod, xor_mod_256, Nat.xor_assoc]
  simp

set_option maxRecDepth 100000 in
theorem strobe_latch :
    ∀ h < 16, ((((((16 * h) % 256) >>> 4 ^^^ 11) % 256 ^^^ 1) % 256 ^^^ 11) <<< 4) % 256
      = 16 * (h ^^^ 1) := by
  decide

theorem xor_one_nibble : ∀ h < 16, h ^^^ 1 < 16 ∧ (h ^^^ 1) ^^^ 1 = h := by
  decide

/-- Two `invert_strobe` calls on a control port that reads back its latch
restore the latch (high nibble in use) and the LED register. -/
theorem invert_strobe_twice_ports (s : State) (hrb : ∀ v, s.pinf v = v)
    (hF : s.PORTF < 256) (hF0 : s.PORTF % 16 = 0) (hE : s.PORTE < 256) (f : State → State)
    (hfF : ∀ t, (f t).PORTF = t.PORTF) (hfE : ∀ t, (f t).PORTE = t.PORTE)
    (hfp : ∀ t, (f t).pinf = t.pinf) :
    (invert_strobe (f (invert_strobe s))).PORTF = s.PORTF ∧
      (invert_strobe (f (invert_strobe s))).PORTE = s.PORTE := by
  have hh : s.PORTF = 16 * (s.PORTF / 16) := by omega
  have hlt : s.PORTF / 16 < 16 := by omega
  have t1 := strobe_latch (s.PORTF / 16) hlt
  have hx := xor_one_nibble (s.PORTF / 16) hlt
  have t2 := strobe_latch (s.PORTF / 16 ^^^ 1) hx.1
  rw [hx.2] at t2
  constructor
  · simp only [invert_strobe, flip_led, write_control, read_control, PINF, hfF, hfp, hrb]
    rw [hh, t1, t2]
  · simp only [invert_strobe, flip_led, write_control, hfE]
    rw [xor_0x40_twice, Nat.mod_eq_of_lt hE]

/-- C3 (as amended): with the fault flag set on entry, `send_byte`,
`send_command`, `send_command0` and `receive_byte` leave the flag set and skip
every busy wait (the senders read no status, `receive_byte` only its two
nibbles), but the senders are not no-ops: `send_byte(b)` still puts `b` on
PORTD and toggles STROBE and the LED, once per byte sent; `receive_byte`
leaves PORTD unchanged and, on a control port that reads back its latch,
returns PORTF and PORTE to their values after its two toggles. -/
theorem fault_flag_skips_only_waits (s : State) (b op addr len : Nat)
    (h : s.timeout = true) :
    ((send_byte b s).timeout = true ∧ (send_byte b s).polls = s.polls ∧
      (send_byte b s).PORTD = b % 256 ∧ (send_byte b s).PORTE = (s.PORTE ^^^ 0x40) % 256 ∧
      (send_byte b s).trace = s.trace ++ [Event.data (b % 256), Event.strobe]) ∧
    ((send_command op addr len s).timeout = true ∧
      (send_command op addr len s).polls = s.polls ∧
      (send_command op addr len s).trace =
        s.trace ++ sendEvents (commandBytes (op % 256) (addr % 65536) (len % 65536))) ∧
    ((send_command0 addr b s).timeout = true ∧
      (send_command0 addr b s).polls = s.polls ∧
      (send_command0 addr b s).trace =
        s.trace ++ sendEvents (commandBytes 0 (addr % 65536) 1 ++ [b % 256, 0x81 ^^^ (b % 256)])) ∧
    ((receive_byte s).2.timeout = true ∧ (receive_byte s).2.polls = s.polls + 2 ∧
      (receive_byte s).2.PORTD = s.PORTD ∧
      (receive_byte s).2.trace = s.trace ++ [Event.strobe, Event.strobe] ∧
      ((∀ v, s.pinf v = v) → s.PORTF < 256 → s.PORTF % 16 = 0 → s.PORTE < 256 →
        (receive_byte s).2.PORTF = s.PORTF ∧ (receive_byte s).2.PORTE = s.PORTE)) := by
  have hc := send_bytes_fault_keeps
  refine ⟨⟨(send_byte_fault_keeps b s h).1, (send_byte_fault_keeps b s h).2, ?_, ?_, by simp⟩,
    ⟨?_, ?_, send_command_trace op addr len s⟩, ⟨?_, ?_, ?_⟩, ?_⟩
  · rw [send_byte_fault b s h]; simp [invert_strobe, flip_led, write_control, write_data]
  · rw [send_byte_fault b s h]; simp [invert_strobe, flip_led, write_control, write_data]
  · rw [send_command_eq]; exact (hc _ s h).1
  · rw [send_command_eq]; exact (hc _ s h).2
  · rw [send_command0_eq, send_command_eq]
    exact (hc _ _ (hc _ s h).1).1
  · rw [send_command0_eq, send_command_eq]
    rw [(hc _ _ (hc _ s h).1).2, (hc _ s h).2]
  · rw [send_command0_eq, send_bytes_trace, send_command_trace, sendEvents_append,
      List.append_assoc]
    have hx : (0x81 ^^^ b % 256) % 256 = 0x81 ^^^ b % 256 :=
      Nat.mod_eq_of_lt (xor_lt_256 (by norm_num) (Nat.mod_lt _ (by norm_num)))
    simp [hx]
  · have e : receive_byte s =
        (((((read_status s).1 &&& PARPORT_INPUT_MASK) >>> 3) % 256 |||
            ((read_status (invert_strobe (read_status s).2)).1 &&& PARPORT_INPUT_MASK) <<< 1) % 256,
          invert_strobe (read_status (invert_strobe (read_status s).2)).2) := by
      unfold receive_byte
      simp only []
      rw [wait_busy_bit_fault false 3 s h, wait_busy_bit_fault false 3]
      simp [invert_strobe, flip_led, write_control, read_status, h]
    rw [e]
    refine ⟨?_, ?_, ?_, ?_, ?_⟩
    · simp [invert_strobe, flip_led, write_control, read_status, h]
    · simp [invert_strobe, flip_led, write_control, read_status]
    · simp [invert_strobe, flip_led, write_control, read_status]
    · simp [invert_strobe, flip_led, write_control, read_status]
    · intro hrb hF hF0 hE
      have := invert_strobe_twice_ports (read_status s).2 hrb hF hF0 hE
        (fun t => (read_status t).2) (fun _ => rfl) (fun _ => rfl) (fun _ => rfl)
      exact this

/-- Witness for C3 (as amended): the operations on `faultState`. -/
theorem fault_flag_skips_only_waits_witness :
    faultState.timeout = true ∧
    ((send_byte 0x55 faultState).timeout = true ∧
      (send_byte 0x55 faultState).polls = faultState.polls ∧
      (send_byte 0x55 faultState).PORTD = 0x55 % 256 ∧
      (send_byte 0x55 faultState).PORTE = (faultState.PORTE ^^^ 0x40) % 256 ∧
      (send_byte 0x55 faultState).trace =
        faultState.trace ++ [Event.data (0x55 % 256), Event.strobe]) :=
  ⟨rfl, (fault_flag_skips_only_waits faultState 0x55 5 0x200 0 rfl).1⟩

/-- C3 (as stated) fails: with the fault flag set, `send_byte(0x55)` changes
PORTD from 0x00 to 0x55, PORTF from 0x00 to 0x10 and PORTE from 0x40 to 0x00. -/
theorem fault_send_byte_changes_ports :
    faultState.timeout = true ∧
      (send_byte 0x55 faultState).PORTD ≠ faultState.PORTD ∧
      (send_byte 0x55 faultState).PORTF ≠ faultState.PORTF ∧
      (send_byte 0x55 faultState).PORTE ≠ faultState.PORTE := by
  refine ⟨rfl, ?_, ?_, ?_⟩ <;>
    · rw [send_byte_fault _ _ rfl]
      simp [invert_strobe, flip_led, write_control, write_data, read_control, PINF, faultState,
        readyState]

/-! ## Receiving a byte -/

set_option maxRecDepth 100000 in
theorem nibble_low : ∀ x < 256, (x &&& 0x78) >>> 3 = (x >>> 3) % 16 := by
  decide

set_option maxRecDepth 100000 in
theorem nibble_high : ∀ x < 256, (x &&& 0x78) <<< 1 = ((x >>> 3) % 16) * 16 := by
  decide

set_option maxRecDepth 100000 in
theorem nibble_join : ∀ x < 16, ∀ y < 16,
    (x % 256 ||| (y * 16)) % 256 = x ||| (y * 16) ∧ x ||| (y * 16) = x + y * 16 := by
  decide

theorem read_status_lt (s : State) : (read_status s).1 < 256 := by
  simp only [read_status]
  exact xor_lt_256 (Nat.mod_lt _ (by norm_num)) (by norm_num)

/-- C6: `receive_byte` returns `((s1 & 0x78) >> 3) | ((s2 & 0x78) << 1)` for
the status `s1` read after its first busy wait and the status `s2` read after
its second; STROBE is toggled once after each read; hence, when `s1` carries
the low nibble of a byte `b` on bits 3..6 and `s2` its high nibble, the
result is `b`, whatever the other status bits are. -/
theorem receive_byte_value (s : State) :
    let w1 := wait_busy_bit false 3 s
    let s1 := (read_status w1).1
    let w2 := wait_busy_bit false 3 (invert_strobe (read_status w1).2)
    let s2 := (read_status w2).1
    (receive_byte s).1 = ((s1 &&& 0x78) >>> 3) ||| ((s2 &&& 0x78) <<< 1) ∧
      (receive_byte s).2 = invert_strobe (read_status w2).2 ∧
      (receive_byte s).2.trace = s.trace ++ [Event.strobe, Event.strobe] ∧
      ∀ b, b < 256 → (s1 >>> 3) % 16 = b % 16 → (s2 >>> 3) % 16 = b / 16 →
        (receive_byte s).1 = b := by
  intro w1 s1 w2 s2
  have h1 : s1 < 256 := read_status_lt w1
  have h2 : s2 < 256 := read_status_lt w2
  have hv : (receive_byte s).1 = (((s1 &&& 0x78) >>> 3) % 256 ||| ((s2 &&& 0x78) <<< 1)) % 256 :=
    rfl
  have hj := nibble_join ((s1 >>> 3) % 16) (Nat.mod_lt _ (by norm_num))
    ((s2 >>> 3) % 16) (Nat.mod_lt _ (by norm_num))
  have hl := nibble_low s1 h1
  have hh := nibble_high s2 h2
  refine ⟨?_, rfl, ?_, ?_⟩
  · rw [hv, hl, hh, hj.1]
  · simp [receive_byte, invert_strobe, flip_led, write_control, read_status]
  · intro b hb e1 e2
    rw [hv, hl, hh, hj.1, hj.2, e1, e2]
    omega

/-- Witness for C6: the byte 0xA5 read from `nibbleState`. -/
theorem receive_byte_value_witness :
    (0xA5 < 256 ∧
      ((read_status (wait_busy_bit false 3 nibbleState)).1 >>> 3) % 16 = 0xA5 % 16 ∧
      ((read_status (wait_busy_bit false 3
        (invert_strobe (read_status (wait_busy_bit false 3 nibbleState)).2))).1 >>> 3) % 16
          = 0xA5 / 16) ∧
    (receive_byte nibbleState).1 = 0xA5 :=
  ⟨⟨by decide, by decide, by decide⟩,
    (receive_byte_value nibbleState).2.2.2 0xA5 (by decide) (by decide) (by decide)⟩


/-! ## Host input -/

theorem hostChunks_flatten (s : State) : (hostChunks s).flatten = hostBytes s := by
  unfold hostChunks hostBytes
  split
  · rename_i h; simp [h]
  · simp

theorem hostChunks_length_le (s : State) : (hostChunks s).length ≤ s.rxnext.length + 1 := by
  unfold hostChunks
  split <;> simp

theorem USB_tasks_chunks (s : State) (h : List Nat) (t : List (List Nat))
    (hc : hostChunks s = h :: t) :
    (USB_tasks s).rxbuf = h ∧ (USB_tasks s).rxnext = t := by
  unfold hostChunks at hc
  unfold USB_tasks
  split at hc
  · rename_i he
    rw [he, hc]
    simp
  · rename_i hne
    injection hc with h1 h2
    split
    · rename_i he _; exact absurd he hne
    · exact ⟨h1, h2⟩

theorem USB_tasks_proj {α : Type} (f : State → α)
    (hf : ∀ (s : State) (b : List Nat) (n : List (List Nat)),
      f { s with rxbuf := b, rxnext := n } = f s) (s : State) :
    f (USB_tasks s) = f s := by
  unfold USB_tasks
  split
  · exact hf _ _ _
  · rfl

@[simp] theorem USB_tasks_trace (s : State) : (USB_tasks s).trace = s.trace :=
  USB_tasks_proj State.trace (fun _ _ _ => rfl) s

@[simp] theorem USB_tasks_timeout (s : State) : (USB_tasks s).timeout = s.timeout :=
  USB_tasks_proj State.timeout (fun _ _ _ => rfl) s

@[simp] theorem USB_tasks_pinb (s : State) : (USB_tasks s).pinb = s.pinb :=
  USB_tasks_proj State.pinb (fun _ _ _ => rfl) s

@[simp] theorem USB_tasks_hostBytes (s : State) : hostBytes (USB_tasks s) = hostBytes s := by
  unfold USB_tasks hostBytes
  split
  · rename_i h1 h2; simp [h1, h2]
  · rfl

theorem Responsive_of_eq {s t : State} (h1 : t.timeout = s.timeout) (h2 : t.pinb = s.pinb)
    (hs : Responsive s) : Responsive t := by
  refine ⟨by rw [h1]; exact hs.1, fun k => ?_⟩
  have := hs.2 k
  simpa [busyAt, h2] using this

theorem Responsive_send_bytes (bytes : List Nat) (s : State) (hs : Responsive s) :
    Responsive (send_bytes bytes s) :=
  ⟨(send_bytes_ready bytes s hs.1 hs.2).1, fun k => by simpa using hs.2 k⟩

theorem Responsive_send_byte (b : Nat) (s : State) (hs : Responsive s) :
    Responsive (send_byte b s) :=
  Responsive_send_bytes [b] s hs

theorem Responsive_send_command (op addr len : Nat) (s : State) (hs : Responsive s) :
    Responsive (send_command op addr len s) := by
  rw [send_command_eq]; exact Responsive_send_bytes _ s hs

theorem Responsive_send_command0 (addr b : Nat) (s : State) (hs : Responsive s) :
    Responsive (send_command0 addr b s) := by
  rw [send_command0_eq]
  exact Responsive_send_bytes _ _ (Responsive_send_command 0 addr 1 s hs)

theorem xorFold_cons (seed b : Nat) (l : List Nat) :
    xorFold seed (b :: l) = xorFold (seed ^^^ b) l := rfl

theorem xorFold_append (seed : Nat) (a b : List Nat) :
    xorFold seed (a ++ b) = xorFold (xorFold seed a) b := by
  simp [xorFold, List.foldl_append]

theorem asBytes_append (a b : List Nat) : asBytes (a ++ b) = asBytes a ++ asBytes b := by
  simp [asBytes]

@[simp] theorem asBytes_length (a : List Nat) : (asBytes a).length = a.length := by
  simp [asBytes]

/-! ## The loops of `send_block` -/

/-- The inner loop run for the `p.length` bytes at the head of the buffer. -/
theorem send_block_drain_spec (p : List Nat) :
    ∀ (r : List Nat) (ck n : Nat) (s : State), s.rxbuf = p ++ r → ck < 256 → n < 65536 →
      (send_block_drain p.length ck n s).1 = xorFold ck (asBytes p) ∧
      (send_block_drain p.length ck n s).1 < 256 ∧
      (send_block_drain p.length ck n s).2.1 = (n + p.length) % 65536 ∧
      (send_block_drain p.length ck n s).2.2.rxbuf = r ∧
      (send_block_drain p.length ck n s).2.2.rxnext = s.rxnext ∧
      (send_block_drain p.length ck n s).2.2.trace = s.trace ++ sendEvents (asBytes p) ∧
      (Responsive s → Responsive (send_block_drain p.length ck n s).2.2) := by
  induction p with
  | nil =>
    intro r ck n s h hck hn
    refine ⟨by simp [send_block_drain, asBytes, xorFold], by simpa [send_block_drain] using hck,
      ?_, by simpa [send_block_drain] using h, by simp [send_block_drain],
      by simp [send_block_drain, asBytes], fun hs => by simpa [send_block_drain] using hs⟩
    simp only [List.length_nil, send_block_drain, Nat.add_zero]
    omega
  | cons b p ih =>
    intro r ck n s h hck hn
    have hR : CDC_Device_ReceiveByte s = (((b % 256 : Nat) : Int), { s with rxbuf := p ++ r }) := by
      simp [CDC_Device_ReceiveByte, h]
    have hb : (((b % 256 : Nat) : Int) % 256).toNat = b % 256 := by omega
    have hck' : (ck ^^^ b % 256) % 256 = ck ^^^ b % 256 :=
      Nat.mod_eq_of_lt (xor_lt_256 hck (Nat.mod_lt _ (by norm_num)))
    simp only [List.length_cons, send_block_drain, hR, hb, hck']
    obtain ⟨h1, h2, h3, h4, h5, h6, h7⟩ :=
      ih r (ck ^^^ b % 256) ((n + 1) % 65536) (send_byte (b % 256) { s with rxbuf := p ++ r })
        (by simp) (xor_lt_256 hck (Nat.mod_lt _ (by norm_num))) (Nat.mod_lt _ (by norm_num))
    refine ⟨?_, h2, ?_, h4, ?_, ?_, ?_⟩
    · rw [h1]; simp [asBytes, xorFold_cons]
    · rw [h3]; omega
    · rw [h5]; simp
    · rw [h6]; simp [asBytes, sendEvents_cons]
    · intro hs
      apply h7
      apply Responsive_send_byte
      exact Responsive_of_eq rfl rfl hs

/-- One pass of the outer loop of `send_block` in any state: the bytes it
sends are read off the head of the pending host input. -/
theorem send_block_pass_any (s : State) (ck n : Nat) (hck : ck < 256) (hn : n < 65536) :
    ∃ p : List Nat,
      (send_block_drain (CDC_Device_BytesReceived (USB_tasks s)) ck n (USB_tasks s)).1
        = xorFold ck (asBytes p) ∧
      (send_block_drain (CDC_Device_BytesReceived (USB_tasks s)) ck n (USB_tasks s)).1 < 256 ∧
      (send_block_drain (CDC_Device_BytesReceived (USB_tasks s)) ck n (USB_tasks s)).2.1 < 65536 ∧
      (send_block_drain (CDC_Device_BytesReceived (USB_tasks s)) ck n (USB_tasks s)).2.2.trace
        = s.trace ++ sendEvents (asBytes p) ∧
      hostBytes s = p ++
        hostBytes (send_block_drain (CDC_Device_BytesReceived (USB_tasks s)) ck n (USB_tasks s)).2.2
      := by
  have hk : CDC_Device_BytesReceived (USB_tasks s) ≤ (USB_tasks s).rxbuf.length := by
    unfold CDC_Device_BytesReceived
    exact Nat.mod_le _ _
  have hlen : ((USB_tasks s).rxbuf.take (CDC_Device_BytesReceived (USB_tasks s))).length =
      CDC_Device_BytesReceived (USB_tasks s) := by
    rw [List.length_take]; omega
  obtain ⟨h1, h2, h3, h4, h5, h6, _⟩ :=
    send_block_drain_spec ((USB_tasks s).rxbuf.take (CDC_Device_BytesReceived (USB_tasks s)))
      ((USB_tasks s).rxbuf.drop (CDC_Device_BytesReceived (USB_tasks s))) ck n (USB_tasks s)
      (List.take_append_drop _ _).symm hck hn
  rw [hlen] at h1 h2 h3 h4 h5 h6
  refine ⟨_, h1, h2, ?_, ?_, ?_⟩
  · rw [h3]; exact Nat.mod_lt _ (by norm_num)
  · rw [h6]; simp
  · rw [← USB_tasks_hostBytes s]
    unfold hostBytes
    rw [h4, h5, ← List.append_assoc, List.take_append_drop]

/-- One pass of the outer loop of `send_block` when a packet is pending: the
pass sends that packet whole. -/
theorem send_block_pass (s : State) (h : List Nat) (t : List (List Nat))
    (hc : hostChunks s = h :: t) (hl : h.length < 65536) (ck n : Nat) (hck : ck < 256)
    (hn : n < 65536) :
    (send_block_drain (CDC_Device_BytesReceived (USB_tasks s)) ck n (USB_tasks s)).1
        = xorFold ck (asBytes h) ∧
      (send_block_drain (CDC_Device_BytesReceived (USB_tasks s)) ck n (USB_tasks s)).1 < 256 ∧
      (send_block_drain (CDC_Device_BytesReceived (USB_tasks s)) ck n (USB_tasks s)).2.1
        = (n + h.length) % 65536 ∧
      (send_block_drain (CDC_Device_BytesReceived (USB_tasks s)) ck n (USB_tasks s)).2.2.rxbuf
        = [] ∧
      (send_block_drain (CDC_Device_BytesReceived (USB_tasks s)) ck n (USB_tasks s)).2.2.rxnext
        = t ∧
      (send_block_drain (CDC_Device_BytesReceived (USB_tasks s)) ck n (USB_tasks s)).2.2.trace
        = s.trace ++ sendEvents (asBytes h) ∧
      (Responsive s →
        Responsive
          (send_block_drain (CDC_Device_BytesReceived (USB_tasks s)) ck n (USB_tasks s)).2.2)
      := by
  obtain ⟨hb, hx⟩ := USB_tasks_chunks s h t hc
  have hk : CDC_Device_BytesReceived (USB_tasks s) = h.length := by
    unfold CDC_Device_BytesReceived
    rw [hb]; exact Nat.mod_eq_of_lt hl
  obtain ⟨h1, h2, h3, h4, h5, h6, h7⟩ :=
    send_block_drain_spec h [] ck n (USB_tasks s) (by simp [hb]) hck hn
  rw [hk]
  refine ⟨h1, h2, h3, h4, by rw [h5, hx], by rw [h6]; simp, fun hs => ?_⟩
  exact h7 (Responsive_of_eq (by simp) (by simp) hs)

theorem hostChunks_of_rx {s : State} {t : List (List Nat)} (h1 : s.rxbuf = [])
    (h2 : s.rxnext = t) : hostChunks s = t := by
  simp [hostChunks, h1, h2]

/-- The outer loop of `send_block` on pending packets `g0 ++ c :: rest`, when
`c` is the packet in which the byte count reaches `block_size`: the loop ends
after sending `g0` and all of `c`, leaving `rest`. -/
theorem send_block_loop_group (bs : Nat) (g0 : List (List Nat)) :
    ∀ (c : List Nat) (rest : List (List Nat)) (fuel ck n : Nat) (s : State),
      hostChunks s = g0 ++ c :: rest → n + g0.flatten.length < bs →
      bs ≤ n + g0.flatten.length + c.length → n + g0.flatten.length + c.length < 65536 →
      g0.length + 1 ≤ fuel → ck < 256 →
      ∃ s', send_block_loop bs fuel ck n s
            = some (xorFold ck (asBytes (g0.flatten ++ c)), s') ∧
        s'.rxbuf = [] ∧ s'.rxnext = rest ∧
        s'.trace = s.trace ++ sendEvents (asBytes (g0.flatten ++ c)) ∧
        (Responsive s → Responsive s') := by
  induction g0 with
  | nil =>
    intro c rest fuel ck n s hc h1 h2 h3 hf hck
    simp only [List.flatten_nil, List.length_nil, Nat.add_zero, List.nil_append] at *
    obtain ⟨f, rfl⟩ : ∃ f, fuel = f + 1 := ⟨fuel - 1, by omega⟩
    obtain ⟨p1, p2, p3, p4, p5, p6, p7⟩ :=
      send_block_pass s c rest hc (by omega) ck n hck (by omega)
    rw [Nat.mod_eq_of_lt h3] at p3
    refine ⟨_, ?_, p4, p5, p6, p7⟩
    rw [send_block_loop]
    simp only [h1, if_true]
    rw [← p1]
    cases f with
    | zero => rw [send_block_loop, if_neg (by rw [p3]; omega)]
    | succ f' => rw [send_block_loop, if_neg (by rw [p3]; omega)]
  | cons a g1 ih =>
    intro c rest fuel ck n s hc h1 h2 h3 hf hck
    simp only [List.flatten_cons, List.length_append, List.length_cons, List.cons_append] at *
    obtain ⟨f, rfl⟩ : ∃ f, fuel = f + 1 := ⟨fuel - 1, by omega⟩
    obtain ⟨p1, p2, p3, p4, p5, p6, p7⟩ :=
      send_block_pass s a (g1 ++ c :: rest) hc (by omega) ck n hck (by omega)
    rw [Nat.mod_eq_of_lt (by omega)] at p3
    have hlt : n < bs := by omega
    have e : send_block_loop bs (f + 1) ck n s =
        send_block_loop bs f
          (send_block_drain (CDC_Device_BytesReceived (USB_tasks s)) ck n (USB_tasks s)).1
          (send_block_drain (CDC_Device_BytesReceived (USB_tasks s)) ck n (USB_tasks s)).2.1
          (send_block_drain (CDC_Device_BytesReceived (USB_tasks s)) ck n (USB_tasks s)).2.2 := by
      rw [send_block_loop]
      simp only [hlt, if_true]
    rw [e]
    generalize send_block_drain (CDC_Device_BytesReceived (USB_tasks s)) ck n (USB_tasks s) = r
      at p1 p2 p3 p4 p5 p6 p7 ⊢
    obtain ⟨s', q1, q2, q3, q4, q5⟩ :=
      ih c rest f r.1 r.2.1 r.2.2 (hostChunks_of_rx p4 p5) (by rw [p3]; omega)
        (by rw [p3]; omega) (by rw [p3]; omega) (by omega) p2
    refine ⟨s', ?_, q2, q3, ?_, fun hs => q5 (p7 hs)⟩
    · rw [q1, p1]
      simp only [List.append_assoc, asBytes_append, xorFold_append]
    · rw [q4, p6]
      simp only [List.append_assoc, asBytes_append, sendEvents_append]


theorem xorFold_lt (ck : Nat) (l : List Nat) (hck : ck < 256) :
    xorFold ck (asBytes l) < 256 := by
  induction l generalizing ck with
  | nil => exact hck
  | cons b l ih =>
    have : asBytes (b :: l) = (b % 256) :: asBytes l := rfl
    rw [this, xorFold_cons]
    exact ih _ (xor_lt_256 hck (Nat.mod_lt _ (by norm_num)))

theorem asBytes_asBytes (l : List Nat) : asBytes (asBytes l) = asBytes l := by
  simp [asBytes]

/-- Whenever the outer loop of `send_block` ends, the bytes it has sent are
the next bytes of the host, and the checksum is their running XOR. -/
theorem send_block_loop_some (bs : Nat) :
    ∀ (fuel ck n : Nat) (s : State) (r : Nat × State), ck < 256 → n < 65536 →
      send_block_loop bs fuel ck n s = some r →
      ∃ P : List Nat, r.2.trace = s.trace ++ sendEvents (asBytes P) ∧
        r.1 = xorFold ck (asBytes P) ∧ hostBytes s = P ++ hostBytes r.2 := by
  intro fuel
  induction fuel with
  | zero =>
    intro ck n s r hck hn h
    rw [send_block_loop] at h
    split at h
    · exact absurd h (by simp)
    · injection h with h
      subst h
      exact ⟨[], by simp [asBytes], rfl, by simp⟩
  | succ f ih =>
    intro ck n s r hck hn h
    rw [send_block_loop] at h
    split at h
    · obtain ⟨p, p1, p2, p3, p4, p5⟩ := send_block_pass_any s ck n hck hn
      obtain ⟨P, q1, q2, q3⟩ := ih _ _ _ r p2 p3 h
      refine ⟨p ++ P, ?_, ?_, ?_⟩
      · rw [q1, p4]; simp only [List.append_assoc, asBytes_append, sendEvents_append]
      · rw [q2, p1]; simp only [asBytes_append, xorFold_append]
      · rw [p5, q3, List.append_assoc]
    · injection h with h
      subst h
      exact ⟨[], by simp [asBytes], rfl, by simp⟩

@[simp] theorem hostBytes_send_byte (b : Nat) (s : State) :
    hostBytes (send_byte b s) = hostBytes s := by
  simp [hostBytes]

@[simp] theorem hostBytes_send_command (op addr len : Nat) (s : State) :
    hostBytes (send_command op addr len s) = hostBytes s := by
  simp [hostBytes]

@[simp] theorem hostChunks_send_command (op addr len : Nat) (s : State) :
    hostChunks (send_command op addr len s) = hostChunks s := by
  simp [hostChunks]

theorem mod_256_of_lt {x : Nat} (h : x < 256) : x % 256 = x := Nat.mod_eq_of_lt h

/-- Whenever `send_block` returns, its log is the command packet, a payload
taken from the head of the host input, and the running XOR of that payload. -/
theorem send_block_some (address size : Nat) (s s' : State)
    (h : send_block address size s = some s') :
    ∃ P : List Nat,
      s'.trace = s.trace ++
        sendEvents (blockBytes (address % 65536) (size % 65536) (asBytes P)) ∧
      hostBytes s = P ++ hostBytes s' := by
  unfold send_block at h
  simp only [] at h
  split at h
  · exact absurd h (by simp)
  · rename_i r hr
    injection h with h
    subst h
    obtain ⟨P, q1, q2, q3⟩ := send_block_loop_some _ _ _ _ _ r (by norm_num) (by norm_num) hr
    refine ⟨P, ?_, ?_⟩
    · rw [send_byte_trace, q1, send_command_trace, q2,
        mod_256_of_lt (xorFold_lt _ _ (by norm_num))]
      simp [blockBytes, sendEvents_append, sendEvents_cons, Nat.mod_mod]
    · rw [hostBytes_send_byte, ← q3, hostBytes_send_command]

/-- `send_block` on pending packets `g0 ++ c :: rest`, `c` being the packet in
which the byte count reaches `size`: the block carries `g0` and all of `c`. -/
theorem send_block_group (address size : Nat) (s : State) (g0 : List (List Nat)) (c : List Nat)
    (rest : List (List Nat)) (hsize : size < 65536) (hc : hostChunks s = g0 ++ c :: rest)
    (h1 : g0.flatten.length < size) (h2 : size ≤ g0.flatten.length + c.length)
    (h3 : g0.flatten.length + c.length < 65536) :
    ∃ s', send_block address size s = some s' ∧
      s'.trace = s.trace ++
        sendEvents (blockBytes (address % 65536) size (asBytes (g0.flatten ++ c))) ∧
      s'.rxbuf = [] ∧ s'.rxnext = rest ∧ (Responsive s → Responsive s') := by
  have hlen := hostChunks_length_le s
  rw [hc] at hlen
  simp only [List.length_append, List.length_cons] at hlen
  obtain ⟨t, q1, q2, q3, q4, q5⟩ :=
    send_block_loop_group size g0 c rest
      (pending_bytes (send_command 0 address size s) +
        (send_command 0 address size s).rxnext.length + 2) 0x81 0
      (send_command 0 address size s) (by simpa using hc) (by omega) (by omega) (by omega)
      (by simp only [send_command_rxnext]; omega) (by norm_num)
  refine ⟨send_byte (xorFold 0x81 (asBytes (g0.flatten ++ c))) t, ?_, ?_, by simpa using q2,
    by simpa using q3, fun hs => ?_⟩
  · unfold send_block
    simp only [Nat.mod_eq_of_lt hsize]
    rw [q1]
  · rw [send_byte_trace, q4, send_command_trace, mod_256_of_lt (xorFold_lt _ _ (by norm_num)),
      Nat.mod_eq_of_lt hsize]
    simp [blockBytes, sendEvents_append, sendEvents_cons]
  · exact Responsive_send_byte _ _ (q5 (Responsive_send_command _ _ _ _ hs))

/-- In a list of packets holding at least `need > 0` bytes there is a first
packet in which the byte count reaches `need`. -/
theorem exists_crossing :
    ∀ (L : List (List Nat)) (need : Nat), 0 < need → need ≤ L.flatten.length →
      ∃ (g0 : List (List Nat)) (c : List Nat) (rest : List (List Nat)),
        L = g0 ++ c :: rest ∧ g0.flatten.length < need ∧
          need ≤ g0.flatten.length + c.length := by
  intro L
  induction L with
  | nil => intro need h0 h; simp at h; omega
  | cons a L ih =>
    intro need h0 h
    by_cases ha : need ≤ a.length
    · exact ⟨[], a, L, rfl, by simpa using h0, by simpa using ha⟩
    · simp only [List.flatten_cons, List.length_append] at h
      obtain ⟨g0, c, rest, e, h1, h2⟩ := ih (need - a.length) (by omega) (by omega)
      refine ⟨a :: g0, c, rest, by rw [e]; rfl, ?_, ?_⟩
      · simp only [List.flatten_cons, List.length_append]; omega
      · simp only [List.flatten_cons, List.length_append]; omega

/-- `send_block` returns once the host has sent `size` bytes or more, in
packets short enough for the 16-bit byte counter. -/
theorem send_block_returns (address size : Nat) (s : State)
    (h1 : size % 65536 ≤ (hostBytes s).length)
    (h2 : ∀ c ∈ hostChunks s, c.length + size % 65536 < 65536) :
    (send_block address size s).isSome = true := by
  by_cases h0 : size % 65536 = 0
  · unfold send_block
    simp only [h0]
    rw [send_block_loop]
    simp
  · rw [← hostChunks_flatten] at h1
    obtain ⟨g0, c, rest, e, q1, q2⟩ := exists_crossing (hostChunks s) (size % 65536) (by omega) h1
    have hc : c.length + size % 65536 < 65536 := h2 c (by rw [e]; simp)
    obtain ⟨s', r1, _⟩ := send_block_group address (size % 65536) s g0 c rest
      (Nat.mod_lt _ (by norm_num)) e q1 q2 (by omega)
    have : send_block address size s = send_block address (size % 65536) s := by
      unfold send_block
      simp only [Nat.mod_mod]
    rw [this, r1]
    rfl

/-- C4: whenever `send_block` returns, the bytes it has put on the data lines
are its command packet, a payload `P` (the next bytes of the host, as many as
it actually sent) and, last, the left fold of XOR over `P` from 0x81 (0x81
itself for an empty `P`); and it does return once the host has sent `size`
bytes in packets that fit the 16-bit counter. -/
theorem send_block_checksum_closure (address size : Nat) (s : State) :
    (∀ s', send_block address size s = some s' →
      ∃ P : List Nat,
        dataBytes s'.trace = dataBytes s.trace ++
          (commandBytes 0 (address % 65536) (size % 65536) ++ P ++ [xorFold 0x81 P]) ∧
        (P = [] → xorFold 0x81 P = 0x81) ∧
        ∃ H : List Nat, P = asBytes H ∧ hostBytes s = H ++ hostBytes s') ∧
    (size % 65536 ≤ (hostBytes s).length →
      (∀ c ∈ hostChunks s, c.length + size % 65536 < 65536) →
      (send_block address size s).isSome = true) := by
  refine ⟨fun s' h => ?_, send_block_returns address size s⟩
  obtain ⟨H, q1, q2⟩ := send_block_some address size s s' h
  refine ⟨asBytes H, ?_, fun e => by rw [e]; rfl, H, rfl, q2⟩
  rw [q1, dataBytes_append, dataBytes_sendEvents]
  rfl

/-- Witness for C4: a block of three bytes sent from `hostState`. -/
theorem send_block_checksum_closure_witness :
    (3 % 65536 ≤ (hostBytes hostState).length ∧
      ∀ c ∈ hostChunks hostState, c.length + 3 % 65536 < 65536) ∧
    (send_block 0x2000 3 hostState).isSome = true :=
  ⟨⟨by decide, by decide⟩,
    (send_block_checksum_closure 0x2000 3 hostState).2 (by decide) (by decide)⟩


/-! ## `write_rom` -/

theorem send_command0_trace (addr b : Nat) (s : State) :
    (send_command0 addr b s).trace =
      s.trace ++ sendEvents (command0Bytes (addr % 65536) (b % 256)) := by
  rw [send_command0_eq, send_bytes_trace, send_command_trace]
  have hx : (0x81 ^^^ b % 256) % 256 = 0x81 ^^^ b % 256 :=
    Nat.mod_eq_of_lt (xor_lt_256 (by norm_num) (Nat.mod_lt _ (by norm_num)))
  simp [command0Bytes, sendEvents_append, hx]

@[simp] theorem send_command0_rxbuf (addr b : Nat) (s : State) :
    (send_command0 addr b s).rxbuf = s.rxbuf := by
  simp [send_command0_eq]

@[simp] theorem send_command0_rxnext (addr b : Nat) (s : State) :
    (send_command0 addr b s).rxnext = s.rxnext := by
  simp [send_command0_eq]

@[simp] theorem hostChunks_send_command0 (addr b : Nat) (s : State) :
    hostChunks (send_command0 addr b s) = hostChunks s := by
  simp [hostChunks]

/-- One iteration of the loop of `write_rom` with a responsive peripheral,
on pending packets `g0 ++ c :: rest`, `c` being the packet in which the byte
count of the block reaches 8192. -/
theorem write_rom_loop_step (total fuel block address : Nat) (s : State)
    (g0 : List (List Nat)) (c : List Nat) (rest : List (List Nat))
    (hb : block < total) (hresp : Responsive s) (hc : hostChunks s = g0 ++ c :: rest)
    (h1 : g0.flatten.length < 8192) (h2 : 8192 ≤ g0.flatten.length + c.length)
    (h3 : g0.flatten.length + c.length < 65536) :
    ∃ s1, write_rom_loop total (fuel + 1) block address s =
        write_rom_loop total fuel ((block + 1) % 65536) ((address + 1) % 65536) s1 ∧
      s1.trace = s.trace ++ sendEvents (command0Bytes 0xC010 ((block >>> 9) % 256) ++
        commandBytes 5 (address % 65536) 0 ++
        blockBytes 0x8000 8192 (asBytes (g0.flatten ++ c))) ∧
      s1.rxbuf = [] ∧ s1.rxnext = rest ∧ Responsive s1 := by
  obtain ⟨s1, q1, q2, q3, q4, q5⟩ :=
    send_block_group 0x8000 BLOCK_SIZE
      (send_command 5 address 0 (send_command0 0xC010 (block >>> 9) s)) g0 c rest
      (by norm_num) (by simpa using hc) h1 h2 h3
  have hr : Responsive s1 :=
    q5 (Responsive_send_command _ _ _ _ (Responsive_send_command0 _ _ _ hresp))
  refine ⟨s1, ?_, ?_, q3, q4, hr⟩
  · rw [write_rom_loop_succ, if_pos hb, q1]
    simp only [hr.1, Bool.false_eq_true, if_false]
  · rw [q2, send_command_trace, send_command0_trace]
    simp [sendEvents_append]

theorem write_rom_loop_done (total fuel block address : Nat) (s : State)
    (hb : ¬ block < total) :
    write_rom_loop total fuel block address s = some (false, block, s) := by
  cases fuel
  · rw [write_rom_loop_zero, if_neg hb]
  · rw [write_rom_loop_succ, if_neg hb]

/-- `write_rom(1, m)` with a responsive peripheral. -/
theorem write_rom_one_block (m : Nat) (s : State)
    (g0 : List (List Nat)) (c : List Nat) (rest : List (List Nat))
    (hresp : Responsive s) (hc : hostChunks s = g0 ++ c :: rest)
    (h1 : g0.flatten.length < 8192) (h2 : 8192 ≤ g0.flatten.length + c.length)
    (h3 : g0.flatten.length + c.length < 65536) :
    ∃ s', write_rom 1 m s = some s' ∧
      s'.trace = s.trace ++ sendEvents (command0Bytes 0xC010 0 ++ commandBytes 5 0x200 0 ++
        blockBytes 0x8000 8192 (asBytes (g0.flatten ++ c)) ++ commandBytes 5 0 0 ++
        commandBytes 6 0x0105 0 ++ commandBytes 6 ((1 ||| ((m % 256) <<< 8)) % 65536) 0) ++
        [Event.feedback "OK\n"] ∧
      s'.timeout = false ∧ s'.rxbuf = [] ∧ s'.rxnext = rest := by
  obtain ⟨s1, q1, q2, q3, q4, q5⟩ :=
    write_rom_loop_step 1 0 0 0x200 s g0 c rest (by norm_num) hresp hc h1 h2 h3
  rw [write_rom_loop_done 1 0 _ _ s1 (by norm_num)] at q1
  have r1 := Responsive_send_command 5 0 0 s1 q5
  have r2 := Responsive_send_command 6 (5 ||| (1 % 65536) <<< 8) ((1 % 65536) >>> 8) _ r1
  have r3 := Responsive_send_command 6 (1 ||| (m % 256) <<< 8) 0 _ r2
  refine ⟨send_feedback "OK\n" (send_command 6 (1 ||| (m % 256) <<< 8) 0
    (send_command 6 (5 ||| (1 % 65536) <<< 8) ((1 % 65536) >>> 8) (send_command 5 0 0 s1))),
    ?_, ?_, ?_, ?_, ?_⟩
  · have q1' : write_rom_loop (1 % 65536) (1 % 65536) 0 0x200 s = some (false, 1, s1) := q1
    rw [write_rom_eq, q1']
    rfl
  · simp only [send_feedback, CDC_Device_Flush, send_command_trace, q2]
    simp [sendEvents_append]
  · simpa [send_feedback, CDC_Device_Flush] using r3.1
  · simpa [send_feedback, CDC_Device_Flush] using q3
  · simpa [send_feedback, CDC_Device_Flush] using q4


theorem flatten_replicate_replicate (n m x : Nat) :
    (List.replicate n (List.replicate m x)).flatten = List.replicate (n * m) x := by
  induction n with
  | zero => simp
  | succ k ih =>
    rw [List.replicate_succ, List.flatten_cons, ih, ← List.replicate_add]
    congr 1
    rw [Nat.succ_mul, Nat.add_comm]

theorem asBytes_replicate (k x : Nat) : asBytes (List.replicate k x) = List.replicate k (x % 256) := by
  simp [asBytes]

theorem Responsive_readyState : Responsive readyState :=
  ⟨rfl, fun _ => by simp [busyAt, readyState]⟩

/-- C2 at the failing input: on `overrunState` (8192 payload bytes followed by
two more bytes in the same 16-byte packet) `write_rom(1, 0)` finishes with the
fault flag clear, yet its block, announced as 8192 bytes, carries 8194 payload
bytes: the inner loop of `send_block` drains the whole packet. -/
theorem write_rom_block_overrun :
    ∃ s', write_rom 1 0 overrunState = some s' ∧ s'.timeout = false ∧
      dataBytes s'.trace = command0Bytes 0xC010 0 ++ commandBytes 5 0x200 0 ++
        blockBytes 0x8000 8192 (List.replicate 8192 0xAA ++ [0x52, 0x45]) ++
        commandBytes 5 0 0 ++ commandBytes 6 0x0105 0 ++ commandBytes 6 0x0001 0 ∧
      (List.replicate 8192 0xAA ++ [0x52, 0x45]).length = 8194 := by
  have hc : hostChunks overrunState =
      ([0xAA, 0xAA] :: List.replicate 511 (List.replicate 16 0xAA)) ++
        (List.replicate 14 0xAA ++ [0x52, 0x45]) :: [] := rfl
  have hl : ([0xAA, 0xAA] :: List.replicate 511 (List.replicate 16 0xAA)).flatten.length = 8178 := by
    rw [List.flatten_cons, flatten_replicate_replicate, List.length_append,
      List.length_replicate]
    rfl
  have hr : Responsive overrunState := Responsive_of_eq rfl rfl Responsive_readyState
  obtain ⟨s', q1, q2, q3, _, _⟩ :=
    write_rom_one_block 0 overrunState _ _ _ hr hc (by rw [hl]; norm_num)
      (by rw [hl]; simp only [List.length_append, List.length_replicate, List.length_cons,
        List.length_nil]; norm_num)
      (by rw [hl]; simp only [List.length_append, List.length_replicate, List.length_cons,
        List.length_nil]; norm_num)
  refine ⟨s', q1, q3, ?_, by simp only [List.length_append, List.length_replicate,
    List.length_cons, List.length_nil]⟩
  rw [q2, dataBytes_append, dataBytes_append, dataBytes_sendEvents]
  have hp : asBytes (([0xAA, 0xAA] :: List.replicate 511 (List.replicate 16 0xAA)).flatten ++
      (List.replicate 14 0xAA ++ [0x52, 0x45])) = List.replicate 8192 0xAA ++ [0x52, 0x45] := by
    rw [List.flatten_cons, flatten_replicate_replicate]
    have e2 : ([0xAA, 0xAA] : List Nat) = List.replicate 2 0xAA := rfl
    rw [e2, ← List.replicate_add, ← List.append_assoc, ← List.replicate_add, asBytes_append,
      asBytes_replicate]
    rfl
  rw [hp]
  have ht : dataBytes overrunState.trace = [] := rfl
  have hf : dataBytes [Event.feedback "OK\n"] = [] := rfl
  rw [ht, hf, List.nil_append, List.append_nil]
  rfl


/-! ## Reading from the host -/

/-- `USB_tasks` touches the host buffers only, and keeps the pending bytes. -/
theorem USB_tasks_form (s : State) :
    ∃ (b : List Nat) (n : List (List Nat)),
      USB_tasks s = { s with rxbuf := b, rxnext := n } ∧ b ++ n.flatten = hostBytes s ∧
      n.length ≤ s.rxnext.length ∧ (s.rxbuf = [] → s.rxnext ≠ [] → n.length < s.rxnext.length) := by
  unfold USB_tasks hostBytes
  split
  · rename_i p ps h1 h2
    exact ⟨p, ps, rfl, by simp [h1, h2], by simp [h2], fun _ _ => by simp [h2]⟩
  · rename_i hne
    refine ⟨s.rxbuf, s.rxnext, rfl, rfl, le_refl _, fun h1 h2 => ?_⟩
    cases hx : s.rxnext with
    | nil => exact absurd hx h2
    | cons p ps => exact (hne p ps h1 hx).elim

/-- The loop of `cdc_device_receive_bytes` delivers the next bytes of the
host whenever the host sends enough of them. -/
theorem cdc_device_receive_loop_spec (len : Nat) (hlen : len < 256) :
    ∀ (fuel count : Nat) (buffer : List Nat) (s : State), count ≤ len →
      len - count ≤ (hostBytes s).length → (len - count) + s.rxnext.length < fuel + 1 →
      ∃ (b : List Nat) (n : List (List Nat)),
        cdc_device_receive_loop len fuel count buffer s =
          some (buffer ++ asBytes ((hostBytes s).take (len - count)),
            { s with rxbuf := b, rxnext := n }) ∧
        b ++ n.flatten = (hostBytes s).drop (len - count) := by
  intro fuel
  induction fuel with
  | zero =>
    intro count buffer s h1 h2 h3
    have e : len - count = 0 := by omega
    refine ⟨s.rxbuf, s.rxnext, ?_, by rw [e]; rfl⟩
    rw [cdc_device_receive_loop, if_neg (by omega), e]
    simp [asBytes]
  | succ f ih =>
    intro count buffer s h1 h2 h3
    by_cases hc : len > count
    · rw [cdc_device_receive_loop, if_pos hc]
      cases hb : s.rxbuf with
      | nil =>
        have hR : CDC_Device_ReceiveByte s = (-1, s) := by simp [CDC_Device_ReceiveByte, hb]
        simp only [hR]
        rw [if_neg (by decide)]
        obtain ⟨b, n, e1, e2, e3, e4⟩ := USB_tasks_form s
        have hne : s.rxnext ≠ [] := by
          intro h0
          have : (hostBytes s).length = 0 := by simp [hostBytes, hb, h0]
          omega
        have hh : hostBytes { s with rxbuf := b, rxnext := n } = hostBytes s := e2
        obtain ⟨b', n', r1, r2⟩ := ih count buffer { s with rxbuf := b, rxnext := n } h1
          (by rw [hh]; exact h2) (by have := e4 hb hne; simp only []; omega)
        rw [e1, r1, hh]
        exact ⟨b', n', rfl, by rw [r2, hh]⟩
      | cons x r =>
        have hR : CDC_Device_ReceiveByte s = (((x % 256 : Nat) : Int), { s with rxbuf := r }) := by
          simp [CDC_Device_ReceiveByte, hb]
        have hx : (((x % 256 : Nat) : Int) % 256).toNat = x % 256 := by omega
        simp only [hR, hx]
        rw [if_pos (by omega)]
        obtain ⟨b, n, e1, e2, e3, e4⟩ := USB_tasks_form { s with rxbuf := r }
        have hs : hostBytes s = x :: (r ++ s.rxnext.flatten) := by simp [hostBytes, hb]
        have hh : hostBytes { s with rxbuf := b, rxnext := n } = r ++ s.rxnext.flatten := e2
        have hcnt : (count + 1) % 256 = count + 1 := Nat.mod_eq_of_lt (by omega)
        have hl : (hostBytes s).length = (r ++ s.rxnext.flatten).length + 1 := by rw [hs]; rfl
        obtain ⟨b', n', r1, r2⟩ := ih (count + 1) (buffer ++ [x % 256])
          { s with rxbuf := b, rxnext := n } (by omega) (by rw [hh]; omega)
          (by simp only [] at e3 ⊢; omega)
        rw [e1, hcnt, r1, hh]
        refine ⟨b', n', ?_, ?_⟩
        · have e : len - count = (len - (count + 1)) + 1 := by omega
          rw [e, hs, List.take_succ_cons]
          simp [asBytes]
        · have e : len - count = (len - (count + 1)) + 1 := by omega
          rw [r2, hh, e, hs, List.drop_succ_cons]
    · have e : len - count = 0 := by omega
      refine ⟨s.rxbuf, s.rxnext, ?_, by rw [e]; rfl⟩
      rw [cdc_device_receive_loop, if_neg hc, e]
      simp [asBytes]

/-- `cdc_device_receive_bytes` returns the next `len` bytes of the host and
touches nothing but the host buffers. -/
theorem cdc_device_receive_bytes_spec (len : Nat) (s : State) (hlen : len < 256)
    (h : len ≤ (hostBytes s).length) :
    ∃ (b : List Nat) (n : List (List Nat)),
      cdc_device_receive_bytes len s =
        some (asBytes ((hostBytes s).take len), { s with rxbuf := b, rxnext := n }) ∧
      b ++ n.flatten = (hostBytes s).drop len := by
  unfold cdc_device_receive_bytes
  rw [Nat.mod_eq_of_lt hlen]
  obtain ⟨b, n, r1, r2⟩ := cdc_device_receive_loop_spec len hlen (len + s.rxnext.length + 1) 0 []
    s (by omega) (by simpa using h) (by omega)
  exact ⟨b, n, by simpa using r1, by simpa using r2⟩

/-- The final loop of an iteration ends and touches only the host buffers. -/
theorem drain_loop_spec :
    ∀ (fuel : Nat) (s : State), pending_bytes s < fuel →
      ∃ (b : List Nat) (n : List (List Nat)),
        drain_loop fuel s = some { s with rxbuf := b, rxnext := n } := by
  intro fuel
  induction fuel with
  | zero => intro s h; omega
  | succ f ih =>
    intro s h
    rw [drain_loop]
    cases hb : s.rxbuf with
    | nil =>
      have hR : CDC_Device_ReceiveByte s = (-1, s) := by simp [CDC_Device_ReceiveByte, hb]
      simp only [hR]
      rw [if_neg (by decide)]
      exact ⟨s.rxbuf, s.rxnext, rfl⟩
    | cons x r =>
      have hR : CDC_Device_ReceiveByte s = (((x % 256 : Nat) : Int), { s with rxbuf := r }) := by
        simp [CDC_Device_ReceiveByte, hb]
      simp only [hR]
      rw [if_pos (by omega)]
      obtain ⟨b, n, e1, e2, _, _⟩ := USB_tasks_form { s with rxbuf := r }
      have hp : pending_bytes { s with rxbuf := b, rxnext := n } < f := by
        have h1 : pending_bytes { s with rxbuf := b, rxnext := n } = (b ++ n.flatten).length := by
          simp [pending_bytes]
        have h2 : pending_bytes s = (x :: r).length + s.rxnext.flatten.length := by
          simp [pending_bytes, hb]
        rw [h1, e2]
        simp only [hostBytes, List.length_append, List.length_cons] at h2 ⊢
        omega
      obtain ⟨b', n', r1⟩ := ih _ hp
      rw [e1, r1]
      exact ⟨b', n', rfl⟩


/-! ## The dispatcher -/

theorem literal_write_rom : literal "WRITE ROM" = [87, 82, 73, 84, 69, 32, 82, 79, 77] := by
  decide

theorem literal_read_sram : literal "READ SRAM" = [82, 69, 65, 68, 32, 83, 82, 65, 77] := by
  decide

theorem literal_write_sram :
    literal "WRITE SRAM" = [87, 82, 73, 84, 69, 32, 83, 82, 65, 77] := by
  decide

/-- The end of an iteration of `main` after the ports are released: the drain
loop ends, and it and the last pump touch only the host buffers. -/
theorem drain_and_pump (d : State) :
    ∃ (b : List Nat) (n : List (List Nat)),
      (match drain_loop (pending_bytes d + 1) d with
        | none => none
        | some s3 => some (USB_tasks s3)) = some { d with rxbuf := b, rxnext := n } := by
  obtain ⟨b, n, h⟩ := drain_loop_spec (pending_bytes d + 1) d (by omega)
  obtain ⟨b', n', e, _⟩ := USB_tasks_form { d with rxbuf := b, rxnext := n }
  exact ⟨b', n', by rw [h]; simp only []; rw [e]⟩

/-- A block of exactly the bytes the host still has to deliver. -/
theorem exact_crossing (s : State) (size : Nat) (h0 : 0 < size)
    (h : (hostBytes s).length = size) :
    ∃ (g0 : List (List Nat)) (c : List Nat) (rest : List (List Nat)),
      hostChunks s = g0 ++ c :: rest ∧ g0.flatten.length < size ∧
      size ≤ g0.flatten.length + c.length ∧ g0.flatten.length + c.length = size ∧
      g0.flatten ++ c = hostBytes s := by
  obtain ⟨g0, c, rest, e, h1, h2⟩ :=
    exists_crossing (hostChunks s) size h0 (by rw [hostChunks_flatten]; omega)
  have hf := hostChunks_flatten s
  rw [e] at hf
  simp only [List.flatten_append, List.flatten_cons] at hf
  have hl : g0.flatten.length + (c.length + rest.flatten.length) = size := by
    rw [← h, ← hf]; simp
  have hr : rest.flatten = [] := List.eq_nil_of_length_eq_zero (by omega)
  refine ⟨g0, c, rest, e, h1, h2, by omega, ?_⟩
  rw [← hf, hr, List.append_nil]

/-- An iteration of `main` for `WRITE ROM` with one block and mode 0. -/
theorem main_iteration_write_rom_one (s : State) (payload : List Nat) (hresp : Responsive s)
    (hhost : hostBytes s =
      literal "WRITE ROM" ++ [0, 0] ++ [0x00, 0x01, 0x00] ++ payload)
    (hlen : payload.length = 8192) :
    ∃ s', main_iteration s = some s' ∧
      s'.trace = s.trace ++ sendEvents (command0Bytes 0xC010 0 ++ commandBytes 5 0x200 0 ++
        blockBytes 0x8000 8192 (asBytes payload) ++ commandBytes 5 0 0 ++
        commandBytes 6 0x0105 0 ++ commandBytes 6 0x0001 0) ++ [Event.feedback "OK\n"] ∧
      s'.timeout = false := by
  rw [literal_write_rom] at hhost
  -- the command token
  obtain ⟨b1, n1, r1, e1⟩ := cdc_device_receive_bytes_spec COMMAND_LEN s (by norm_num)
    (by
      rw [hhost]
      simp only [List.length_append, List.length_cons, List.length_nil]
      show 11 ≤ _
      omega)
  rw [hhost] at r1 e1
  have t1 : asBytes (List.take COMMAND_LEN
      ([87, 82, 73, 84, 69, 32, 82, 79, 77] ++ [0, 0] ++ [0x00, 0x01, 0x00] ++ payload)) =
        [87, 82, 73, 84, 69, 32, 82, 79, 77, 0, 0] := rfl
  have d1 : List.drop COMMAND_LEN
      ([87, 82, 73, 84, 69, 32, 82, 79, 77] ++ [0, 0] ++ [0x00, 0x01, 0x00] ++ payload) =
        [0x00, 0x01, 0x00] ++ payload := rfl
  rw [t1] at r1
  rw [d1] at e1
  -- the arguments
  have hb2 : hostBytes (activate_ports { s with rxbuf := b1, rxnext := n1 }) =
      [0x00, 0x01, 0x00] ++ payload := e1
  obtain ⟨b2, n2, r2, e2⟩ := cdc_device_receive_bytes_spec 3
    (activate_ports { s with rxbuf := b1, rxnext := n1 }) (by norm_num) (by rw [hb2]; simp)
  rw [hb2] at r2 e2
  have t2 : asBytes (List.take 3 ([0x00, 0x01, 0x00] ++ payload)) = [0, 1, 0] := rfl
  have d2 : List.drop 3 ([0x00, 0x01, 0x00] ++ payload) = payload := rfl
  rw [t2] at r2
  rw [d2] at e2
  -- the block
  have hr2 : Responsive
      { activate_ports { s with rxbuf := b1, rxnext := n1 } with rxbuf := b2, rxnext := n2 } :=
    Responsive_of_eq rfl rfl hresp
  have hb3 : hostBytes
      { activate_ports { s with rxbuf := b1, rxnext := n1 } with rxbuf := b2, rxnext := n2 }
        = payload := e2
  obtain ⟨g0, c, rest, hc, h1, h2, h3, h4⟩ := exact_crossing _ 8192 (by norm_num)
    (by rw [hb3]; exact hlen)
  obtain ⟨s3, q1, q2, q3, _, _⟩ := write_rom_one_block 0 _ g0 c rest hr2 hc h1 h2 (by omega)
  rw [h4, hb3] at q2
  -- the end of the iteration
  have hd : (deactivate_ports s3).timeout = false := q3
  obtain ⟨b4, n4, r4⟩ := drain_and_pump (deactivate_ports s3)
  refine ⟨{ deactivate_ports s3 with rxbuf := b4, rxnext := n4 }, ?_, ?_, q3⟩
  · rw [main_iteration_eq, r1]
    simp only []
    have hcmd : List.set [87, 82, 73, 84, 69, 32, 82, 79, 77, 0, 0] (COMMAND_LEN - 1) 0 =
        [87, 82, 73, 84, 69, 32, 82, 79, 77, 0, 0] := rfl
    have hs : strcmp_eq [87, 82, 73, 84, 69, 32, 82, 79, 77, 0, 0] "WRITE ROM" = true := by
      decide
    rw [hcmd, dispatch_eq, if_pos hs, r2]
    simp only []
    have hargs : (([0, 1, 0] : List Nat).getD 0 0 <<< 8 ||| ([0, 1, 0] : List Nat).getD 1 0)
        % 65536 = 1 := rfl
    have harg2 : ([0, 1, 0] : List Nat).getD 2 0 = 0 := rfl
    rw [hargs, harg2, q1]
    have hif : ∀ X : State,
        (if (deactivate_ports s3).timeout = true then X else deactivate_ports s3) =
          deactivate_ports s3 := fun X => by
      rw [if_neg]; rw [hd]; decide
    simp only [hif]
    exact r4
  · show s3.trace = _
    rw [q2]
    rfl


theorem hostBytes_scenarioState :
    hostBytes scenarioState =
      literal "WRITE ROM" ++ [0, 0] ++ [0x00, 0x01, 0x00] ++ List.replicate 8192 0xAA := by
  rw [literal_write_rom]
  have h : hostBytes scenarioState =
      [87, 82, 73, 84, 69, 32, 82, 79, 77, 0, 0, 0x00, 0x01, 0x00] ++
        (List.replicate 2 0xAA ++
          ((List.replicate 511 (List.replicate 16 0xAA)).flatten ++ List.replicate 14 0xAA)) := by
    unfold hostBytes scenarioState
    simp only [List.nil_append, List.flatten_append, List.flatten_cons, List.flatten_nil,
      List.append_nil]
    rfl
  rw [h, flatten_replicate_replicate, ← List.replicate_add, ← List.replicate_add]
  rfl

/-- C5 (as stated) fails: in scenario 1 the second finalization packet is
command(6, address 0x0105, length 0), whose bytes after the opcode are
05 01 00 00, not command(6, address 0x0005, length 0x0001) with 05 00 01 00. -/
theorem scenario_write_rom_packet_differs :
    ∃ s', main_iteration scenarioState = some s' ∧
      dataBytes s'.trace ≠ command0Bytes 0xC010 0 ++ commandBytes 5 0x200 0 ++
        blockBytes 0x8000 8192 (List.replicate 8192 0xAA) ++ commandBytes 5 0 0 ++
        commandBytes 6 0x0005 0x0001 ++ commandBytes 6 0x0001 0 := by
  obtain ⟨s', q1, q2, _⟩ := main_iteration_write_rom_one scenarioState (List.replicate 8192 0xAA)
    (Responsive_of_eq rfl rfl Responsive_readyState) hostBytes_scenarioState
    (List.length_replicate _ _)
  refine ⟨s', q1, ?_⟩
  have ht : dataBytes scenarioState.trace = [] := rfl
  have hf : dataBytes [Event.feedback "OK\n"] = [] := rfl
  rw [q2, dataBytes_append, dataBytes_append, dataBytes_sendEvents, ht, hf, List.nil_append,
    List.append_nil, asBytes_replicate]
  intro h
  have h1 := List.append_cancel_right h
  have h2 := List.append_cancel_left h1
  exact absurd h2 (by decide)

/-! ## Receiving a block -/

theorem read_status_link (s t : State) (h : SameLink s t) :
    (read_status s).1 = (read_status t).1 ∧ SameLink (read_status s).2 (read_status t).2 := by
  obtain ⟨h1, h2, h3⟩ := h
  simp [SameLink, read_status, h1, h2, h3]

theorem wait_busy_loop_link (bit : Bool) (pm : Nat) :
    ∀ (fuel c : Nat) (s t : State), SameLink s t →
      (wait_busy_loop bit pm fuel c s).1 = (wait_busy_loop bit pm fuel c t).1 ∧
      SameLink (wait_busy_loop bit pm fuel c s).2.2 (wait_busy_loop bit pm fuel c t).2.2 := by
  intro fuel
  induction fuel with
  | zero => intro c s t h; exact ⟨rfl, h⟩
  | succ n ih =>
    intro c s t h
    obtain ⟨r1, r2⟩ := read_status_link s t h
    simp only [wait_busy_loop, r1]
    split
    · exact ih _ _ _ r2
    · exact ⟨rfl, r2⟩

theorem wait_busy_bit_link (bit : Bool) (pm : Nat) (s t : State) (h : SameLink s t) :
    SameLink (wait_busy_bit bit pm s) (wait_busy_bit bit pm t) := by
  obtain ⟨l1, l2⟩ := wait_busy_loop_link bit (pm % 256) POLL_MAX 0 s t h
  unfold wait_busy_bit
  rw [← h.2.2]
  by_cases ht : s.timeout = true
  · simp only [ht, if_true]; exact h
  · simp only [ht, Bool.false_eq_true, if_false, l1]
    split
    · exact ⟨l2.1, l2.2.1, rfl⟩
    · exact l2

theorem invert_strobe_link (s t : State) (h : SameLink s t) :
    SameLink (invert_strobe s) (invert_strobe t) := h

theorem receive_byte_link (s t : State) (h : SameLink s t) :
    (receive_byte s).1 = (receive_byte t).1 ∧ SameLink (receive_byte s).2 (receive_byte t).2 := by
  have w1 := wait_busy_bit_link false 3 s t h
  obtain ⟨v1, r1⟩ := read_status_link _ _ w1
  have w2 := wait_busy_bit_link false 3 _ _ (invert_strobe_link _ _ r1)
  obtain ⟨v2, r2⟩ := read_status_link _ _ w2
  refine ⟨?_, invert_strobe_link _ _ r2⟩
  unfold receive_byte
  simp only [v1, v2]

theorem receive_byte_lt (s : State) : (receive_byte s).1 < 256 :=
  Nat.mod_lt _ (by norm_num)

theorem receive_byte_trace (s : State) :
    (receive_byte s).2.trace = s.trace ++ [Event.strobe, Event.strobe] := by
  simp [receive_byte, invert_strobe, flip_led, write_control, read_status]

theorem forwardEvents_cons (b : Nat) (bs : List Nat) :
    forwardEvents (b :: bs) = [Event.strobe, Event.strobe, Event.usb b] ++ forwardEvents bs := by
  simp [forwardEvents]

theorem receive_bytes_length (k : Nat) : ∀ s : State, (receive_bytes k s).1.length = k := by
  induction k with
  | zero => intro s; rfl
  | succ n ih => intro s; simp [receive_bytes, ih]

/-- The loop of `receive_block` forwards what `receive_byte` delivers, byte
by byte, and folds it into the checksum. -/
theorem receive_block_loop_spec (k : Nat) :
    ∀ (ck : Nat) (s t : State), ck < 256 → SameLink s t →
      (receive_block_loop k ck s).1 = xorFold ck (receive_bytes k t).1 ∧
      (receive_block_loop k ck s).1 < 256 ∧
      (receive_block_loop k ck s).2.trace = s.trace ++ forwardEvents (receive_bytes k t).1 ∧
      SameLink (receive_block_loop k ck s).2 (receive_bytes k t).2 := by
  induction k with
  | zero => intro ck s t hck h; exact ⟨rfl, hck, by simp [receive_block_loop, forwardEvents, receive_bytes], h⟩
  | succ n ih =>
    intro ck s t hck h
    obtain ⟨v, l⟩ := receive_byte_link s t h
    have hx : (ck ^^^ (receive_byte s).1) % 256 = ck ^^^ (receive_byte s).1 :=
      Nat.mod_eq_of_lt (xor_lt_256 hck (receive_byte_lt s))
    obtain ⟨i1, i2, i3, i4⟩ := ih (ck ^^^ (receive_byte s).1)
      (CDC_Device_SendData [(receive_byte s).1] (receive_byte s).2) (receive_byte t).2
      (xor_lt_256 hck (receive_byte_lt s)) l
    rw [receive_block_loop_succ, hx]
    refine ⟨?_, i2, ?_, ?_⟩
    · rw [i1]; simp only [receive_bytes, xorFold_cons, v]
    · rw [i3]
      simp only [receive_bytes, forwardEvents_cons, CDC_Device_SendData, receive_byte_trace, v]
      simp
    · exact i4

theorem usbBytes_append (t u : List Event) : usbBytes (t ++ u) = usbBytes t ++ usbBytes u := by
  simp [usbBytes, List.filterMap_append]

theorem usbBytes_sendEvents (bytes : List Nat) : usbBytes (sendEvents bytes) = [] := by
  induction bytes with
  | nil => rfl
  | cons b bs ih => rw [sendEvents_cons]; simpa [usbBytes] using ih

theorem usbBytes_forwardEvents (bytes : List Nat) : usbBytes (forwardEvents bytes) = bytes := by
  induction bytes with
  | nil => rfl
  | cons b bs ih =>
    rw [forwardEvents_cons, usbBytes_append, ih]
    rfl

theorem receive_bytes_succ_take (k : Nat) :
    ∀ s : State, (receive_bytes (k + 1) s).1.take k = (receive_bytes k s).1 ∧
      (receive_bytes (k + 1) s).1.getD k 0 = (receive_byte (receive_bytes k s).2).1 := by
  induction k with
  | zero => intro s; simp [receive_bytes]
  | succ n ih =>
    intro s
    obtain ⟨h1, h2⟩ := ih (receive_byte s).2
    constructor
    · show (receive_byte s).1 :: ((receive_bytes (n + 1) (receive_byte s).2).1.take n) = _
      rw [h1]; rfl
    · show ((receive_bytes (n + 1) (receive_byte s).2).1).getD n 0 = _
      rw [h2]; rfl

/-- C7: `receive_block(address, len)` first sends command(1, address, len);
then, `bytes` being the `len + 1` bytes that `receive_byte` delivers after
it, forwards the first `len` of them to the host in the order received, each
right after its two strobes, and returns true exactly when 0x81 XORed with
these `len` bytes differs from the last byte received. -/
theorem receive_block_spec (address len : Nat) (s : State) (hlen : len < 65536) :
    (receive_bytes (len + 1) (send_command 1 address len s)).1.length = len + 1 ∧
    (receive_block address len s).2.trace =
      s.trace ++ sendEvents (commandBytes 1 (address % 65536) len) ++
        forwardEvents ((receive_bytes (len + 1) (send_command 1 address len s)).1.take len) ++
        [Event.strobe, Event.strobe] ∧
    usbBytes (receive_block address len s).2.trace =
      usbBytes s.trace ++ (receive_bytes (len + 1) (send_command 1 address len s)).1.take len ∧
    ((receive_block address len s).1 = true ↔
      xorFold 0x81 ((receive_bytes (len + 1) (send_command 1 address len s)).1.take len) ≠
        (receive_bytes (len + 1) (send_command 1 address len s)).1.getD len 0) := by
  obtain ⟨p1, p2, p3, p4⟩ := receive_block_loop_spec len 0x81 (send_command 1 address len s)
    (send_command 1 address len s) (by norm_num) ⟨rfl, rfl, rfl⟩
  obtain ⟨t1, t2⟩ := receive_bytes_succ_take len (send_command 1 address len s)
  obtain ⟨v, _⟩ := receive_byte_link _ _ p4
  have hm : len % 65536 = len := Nat.mod_eq_of_lt hlen
  have htr : (receive_block address len s).2.trace =
      s.trace ++ sendEvents (commandBytes 1 (address % 65536) len) ++
        forwardEvents ((receive_bytes (len + 1) (send_command 1 address len s)).1.take len) ++
        [Event.strobe, Event.strobe] := by
    unfold receive_block
    simp only [hm]
    rw [receive_byte_trace, p3, send_command_trace, t1, hm]
  refine ⟨receive_bytes_length _ _, htr, ?_, ?_⟩
  · rw [htr]
    have he : usbBytes [Event.strobe, Event.strobe] = [] := rfl
    simp only [usbBytes_append, usbBytes_sendEvents, usbBytes_forwardEvents, List.append_nil, he]
  · unfold receive_block
    simp only [hm, decide_eq_true_eq]
    rw [p1, v, t1, t2]

/-- Witness for C7: a block of two bytes received on `nibbleState`. -/
theorem receive_block_spec_witness :
    2 < 65536 ∧
    usbBytes (receive_block 0x2000 2 nibbleState).2.trace =
      usbBytes nibbleState.trace ++
        (receive_bytes (2 + 1) (send_command 1 0x2000 2 nibbleState)).1.take 2 :=
  ⟨by decide, (receive_block_spec 0x2000 2 nibbleState (by decide)).2.2.1⟩


/-! ## Command selection -/

theorem takeWhile_append_zero (l : List Nat) :
    (l ++ [0]).takeWhile (fun b => b ≠ 0) = l.takeWhile (fun b => b ≠ 0) := by
  induction l with
  | nil => simp
  | cons a l ih =>
    simp only [List.cons_append, List.takeWhile_cons]
    split
    · rw [ih]
    · rfl

theorem set_last_zero (tok : List Nat) (h : tok.length = 11) :
    tok.set (COMMAND_LEN - 1) 0 = tok.take 10 ++ [0] := by
  match tok, h with
  | [_, _, _, _, _, _, _, _, _, _, _], _ => rfl

/-- The string the dispatcher compares: the bytes of the first ten positions
that precede the first NUL; the eleventh byte plays no part. -/
theorem c_str_command (tok : List Nat) (h : tok.length = 11) :
    c_str (tok.set (COMMAND_LEN - 1) 0) = c_str (tok.take 10) := by
  rw [set_last_zero tok h]
  exact takeWhile_append_zero _

theorem strcmp_eq_iff (tok : List Nat) (h : tok.length = 11) (lit : String) :
    strcmp_eq (tok.set (COMMAND_LEN - 1) 0) lit = true ↔ c_str (tok.take 10) = literal lit := by
  unfold strcmp_eq
  rw [c_str_command tok h]
  simp

theorem literals_distinct :
    literal "WRITE ROM" ≠ literal "READ SRAM" ∧ literal "WRITE ROM" ≠ literal "WRITE SRAM" ∧
      literal "READ SRAM" ≠ literal "WRITE SRAM" := by
  rw [literal_write_rom, literal_read_sram, literal_write_sram]
  decide

@[simp] theorem send_feedback_trace (msg : String) (s : State) :
    (send_feedback msg s).trace = s.trace ++ [Event.feedback msg] := rfl

/-- An iteration of `main` on a token that is none of the three commands. -/
theorem main_iteration_unknown (tok more : List Nat) (s : State) (htok : tok.length = 11)
    (hbytes : ∀ b ∈ tok, b < 256) (hflag : s.timeout = false) (hhost : hostBytes s = tok ++ more)
    (h1 : c_str (tok.take 10) ≠ literal "WRITE ROM")
    (h2 : c_str (tok.take 10) ≠ literal "READ SRAM")
    (h3 : c_str (tok.take 10) ≠ literal "WRITE SRAM") :
    ∃ s', main_iteration s = some s' ∧
      s'.trace = s.trace ++ [Event.feedback "UNKNOWN COMMAND\n"] ∧
      s'.polls = s.polls ∧ s'.timeout = false ∧
      s'.PORTD = 0 ∧ s'.PORTF = 0 ∧ s'.PORTE = 0 := by
  obtain ⟨b1, n1, r1, _⟩ := cdc_device_receive_bytes_spec COMMAND_LEN s (by norm_num)
    (by rw [hhost, List.length_append, htok]; show 11 ≤ _; omega)
  have ht : asBytes ((hostBytes s).take COMMAND_LEN) = tok := by
    rw [hhost, List.take_left' htok]
    unfold asBytes
    conv_rhs => rw [← List.map_id tok]
    apply List.map_congr_left
    intro b hb
    exact Nat.mod_eq_of_lt (hbytes b hb)
  rw [ht] at r1
  have hn1 : ¬ (strcmp_eq (tok.set (COMMAND_LEN - 1) 0) "WRITE ROM" = true) :=
    fun h => h1 ((strcmp_eq_iff tok htok _).1 h)
  have hn2 : ¬ (strcmp_eq (tok.set (COMMAND_LEN - 1) 0) "READ SRAM" = true) :=
    fun h => h2 ((strcmp_eq_iff tok htok _).1 h)
  have hn3 : ¬ (strcmp_eq (tok.set (COMMAND_LEN - 1) 0) "WRITE SRAM" = true) :=
    fun h => h3 ((strcmp_eq_iff tok htok _).1 h)
  obtain ⟨b4, n4, r4⟩ := drain_and_pump (deactivate_ports
    (send_feedback "UNKNOWN COMMAND\n" (activate_ports { s with rxbuf := b1, rxnext := n1 })))
  refine ⟨{ deactivate_ports (send_feedback "UNKNOWN COMMAND\n"
      (activate_ports { s with rxbuf := b1, rxnext := n1 })) with rxbuf := b4, rxnext := n4 },
    ?_, ?_, ?_, ?_, ?_, ?_, ?_⟩
  · rw [main_iteration_eq, r1]
    simp only []
    rw [dispatch_eq, if_neg hn1, if_neg hn2, if_neg hn3]
    simp only []
    have hif : ∀ X : State,
        (if (deactivate_ports (send_feedback "UNKNOWN COMMAND\n"
            (activate_ports { s with rxbuf := b1, rxnext := n1 }))).timeout = true then X
          else deactivate_ports (send_feedback "UNKNOWN COMMAND\n"
            (activate_ports { s with rxbuf := b1, rxnext := n1 }))) =
          deactivate_ports (send_feedback "UNKNOWN COMMAND\n"
            (activate_ports { s with rxbuf := b1, rxnext := n1 })) := fun X => by
      rw [if_neg]
      show ¬ (s.timeout = true)
      rw [hflag]; decide
    simp only [hif]
    exact r4
  · rfl
  · rfl
  · exact hflag
  · rfl
  · rfl
  · rfl

/-- C10: for every 11-byte token, with `name` the bytes of its first ten
positions before the first NUL (the eleventh byte is ignored), the dispatcher
runs `write_rom` (after reading three argument bytes) when `name` is
`WRITE ROM`, `read_sram` when it is `READ SRAM`, `write_sram` (after reading
two argument bytes) when it is `WRITE SRAM`, and in every other case reads no
argument and sends nothing to the peripheral: the iteration logs exactly
`UNKNOWN COMMAND\n`, makes no status read and leaves the ports released. -/
theorem dispatch_selects (tok : List Nat) (s : State) (htok : tok.length = 11) :
    (c_str (tok.take 10) = literal "WRITE ROM" →
      dispatch (tok.set (COMMAND_LEN - 1) 0) s =
        (match cdc_device_receive_bytes 3 s with
          | none => none
          | some (arguments, t) =>
            write_rom (((arguments.getD 0 0 <<< 8) ||| arguments.getD 1 0) % 65536)
              (arguments.getD 2 0) t)) ∧
    (c_str (tok.take 10) = literal "READ SRAM" →
      dispatch (tok.set (COMMAND_LEN - 1) 0) s = some (read_sram s)) ∧
    (c_str (tok.take 10) = literal "WRITE SRAM" →
      dispatch (tok.set (COMMAND_LEN - 1) 0) s =
        (match cdc_device_receive_bytes 2 s with
          | none => none
          | some (arguments, t) =>
            write_sram (((arguments.getD 0 0 <<< 8) ||| arguments.getD 1 0) % 65536) t)) ∧
    (c_str (tok.take 10) ≠ literal "WRITE ROM" → c_str (tok.take 10) ≠ literal "READ SRAM" →
      c_str (tok.take 10) ≠ literal "WRITE SRAM" →
      dispatch (tok.set (COMMAND_LEN - 1) 0) s = some (send_feedback "UNKNOWN COMMAND\n" s) ∧
      (send_feedback "UNKNOWN COMMAND\n" s).rxbuf = s.rxbuf ∧
      (send_feedback "UNKNOWN COMMAND\n" s).rxnext = s.rxnext ∧
      ∀ (t : State) (more : List Nat), (∀ b ∈ tok, b < 256) → t.timeout = false →
        hostBytes t = tok ++ more →
        ∃ t', main_iteration t = some t' ∧
          t'.trace = t.trace ++ [Event.feedback "UNKNOWN COMMAND\n"] ∧
          t'.polls = t.polls ∧ t'.timeout = false ∧
          t'.PORTD = 0 ∧ t'.PORTF = 0 ∧ t'.PORTE = 0) := by
  have e1 := strcmp_eq_iff tok htok "WRITE ROM"
  have e2 := strcmp_eq_iff tok htok "READ SRAM"
  have e3 := strcmp_eq_iff tok htok "WRITE SRAM"
  obtain ⟨d1, d2, d3⟩ := literals_distinct
  refine ⟨fun h => ?_, fun h => ?_, fun h => ?_, fun h1 h2 h3 => ⟨?_, rfl, rfl, ?_⟩⟩
  · rw [dispatch_eq, if_pos (e1.2 h)]
  · have n1 : ¬ (strcmp_eq (tok.set (COMMAND_LEN - 1) 0) "WRITE ROM" = true) :=
      fun x => d1 ((e1.1 x).symm.trans h)
    rw [dispatch_eq, if_neg n1, if_pos (e2.2 h)]
  · have n1 : ¬ (strcmp_eq (tok.set (COMMAND_LEN - 1) 0) "WRITE ROM" = true) :=
      fun x => d2 ((e1.1 x).symm.trans h)
    have n2 : ¬ (strcmp_eq (tok.set (COMMAND_LEN - 1) 0) "READ SRAM" = true) :=
      fun x => d3 ((e2.1 x).symm.trans h)
    rw [dispatch_eq, if_neg n1, if_neg n2, if_pos (e3.2 h)]
  · rw [dispatch_eq, if_neg (fun x => h1 (e1.1 x)), if_neg (fun x => h2 (e2.1 x)),
      if_neg (fun x => h3 (e3.1 x))]
  · intro t more hb hf hh
    exact main_iteration_unknown tok more t htok hb hf hh h1 h2 h3

/-- Witness for C10: the token `HELLO` on `helloState`. -/
theorem dispatch_selects_witness :
    [72, 69, 76, 76, 79, 0, 0, 0, 0, 0, 0].length = 11 ∧
    ∃ t', main_iteration helloState = some t' ∧
      t'.trace = helloState.trace ++ [Event.feedback "UNKNOWN COMMAND\n"] ∧
      t'.polls = helloState.polls ∧ t'.timeout = false ∧
      t'.PORTD = 0 ∧ t'.PORTF = 0 ∧ t'.PORTE = 0 :=
  ⟨rfl,
    ((dispatch_selects [72, 69, 76, 76, 79, 0, 0, 0, 0, 0, 0] helloState rfl).2.2.2
      (by rw [literal_write_rom]; decide) (by rw [literal_read_sram]; decide)
      (by rw [literal_write_sram]; decide)).2.2.2 helloState [] (by decide) rfl rfl⟩


/-! ## `write_sram` -/

theorem write_sram_loop_done (blocks last fuel block block_size address : Nat) (s : State)
    (hb : ¬ block < blocks) :
    write_sram_loop blocks last fuel block block_size address s = some (false, s) := by
  cases fuel
  · rw [write_sram_loop_zero, if_neg hb]
  · rw [write_sram_loop_succ, if_neg hb]

/-- The loop of `write_sram` with a responsive peripheral, when the host
delivers, block after block, packets that carry the size requested. -/
theorem write_sram_loop_spec (blocks last : Nat) (hB : blocks ≤ 255) (rest : List (List Nat)) :
    ∀ (groups : List (List (List Nat))) (sizes : List Nat) (fuel block block_size address : Nat)
      (s : State),
      List.Forall₂ Carries groups sizes →
      sizes = sramSizesFrom blocks last block groups.length →
      (groups ≠ [] → block_size = BLOCK_SIZE) → block + groups.length = blocks →
      address + groups.length < 65536 → groups.length ≤ fuel → Responsive s →
      hostChunks s = groups.flatten ++ rest →
      ∃ s', write_sram_loop blocks last fuel block block_size address s = some (false, s') ∧
        s'.trace = s.trace ++ sendEvents
          (sramBlocksWire address (sizes.zip (groups.map (fun g => asBytes g.flatten)))) ∧
        Responsive s' := by
  intro groups
  induction groups with
  | nil =>
    intro sizes fuel block block_size address s hF hs hbs hblk haddr hfuel hresp hhost
    cases hF
    refine ⟨s, write_sram_loop_done _ _ _ _ _ _ _ (by simp at hblk; omega), ?_, hresp⟩
    simp [sramBlocksWire]
  | cons g gs ih =>
    intro sizes fuel block block_size address s hF hs hbs hblk haddr hfuel hresp hhost
    cases hF with
    | cons hg hrest =>
    rename_i sz szs
    simp only [List.length_cons] at hblk haddr hfuel
    have hsz : sz = sramSizeAt blocks last block ∧
        szs = sramSizesFrom blocks last (block + 1) gs.length := by
      simp only [List.length_cons, sramSizesFrom] at hs
      injection hs with a b
      exact ⟨a, b⟩
    obtain ⟨g0, c, eg, c1, c2, c3⟩ := hg
    have hblock : block < blocks := by omega
    obtain ⟨f, rfl⟩ : ∃ f, fuel = f + 1 := ⟨fuel - 1, by omega⟩
    have hbs' : block_size = BLOCK_SIZE := hbs (by simp)
    have hsize : (if last ≠ 0 ∧ (block : Int) = (blocks : Int) - 1 then last else block_size)
        = sz := by
      rw [hsz.1, hbs']; rfl
    have hlen : g.flatten.length = g0.flatten.length + c.length := by
      rw [eg]; simp
    have hh : hostChunks (send_command 5 address 0 s) = g0 ++ c :: (gs.flatten ++ rest) := by
      rw [hostChunks_send_command, hhost, eg]
      simp
    obtain ⟨s1, q1, q2, q3, q4, q5⟩ := send_block_group 0x2000 sz (send_command 5 address 0 s)
      g0 c (gs.flatten ++ rest) (by omega) hh c1 (by omega) (by omega)
    have hr1 : Responsive s1 := q5 (Responsive_send_command _ _ _ _ hresp)
    have hnext : gs ≠ [] → sz = BLOCK_SIZE := by
      intro hne
      have : 0 < gs.length := List.length_pos.mpr hne
      rw [hsz.1]
      unfold sramSizeAt
      rw [if_neg]
      intro hcon
      have := hcon.2
      omega
    obtain ⟨s', r1, r2, r3⟩ := ih szs f (block + 1) sz (address + 1) s1 hrest hsz.2 hnext
      (by omega) (by omega) (by omega) hr1 (hostChunks_of_rx q3 q4)
    refine ⟨s', ?_, ?_, r3⟩
    · rw [write_sram_loop_succ, if_pos hblock, hsize, q1]
      simp only [hr1.1, Bool.false_eq_true, if_false]
      rw [Nat.mod_eq_of_lt (by omega : block + 1 < 256),
        Nat.mod_eq_of_lt (by omega : address + 1 < 65536)]
      exact r1
    · rw [r2, q2, send_command_trace]
      have ha : address % 65536 = address := Nat.mod_eq_of_lt (by omega)
      have hflat : g.flatten = g0.flatten ++ c := by rw [eg]; simp
      simp only [List.map_cons, List.zip_cons_cons, sramBlocksWire, sendEvents_append, ha, hflat,
        List.append_assoc]
      rfl

theorem sramSizesFrom_full (blocks last : Nat) :
    ∀ (k block : Nat), (last ≠ 0 → block + k < blocks) →
      sramSizesFrom blocks last block k = List.replicate k 8192 := by
  intro k
  induction k with
  | zero => intro block _; rfl
  | succ n ih =>
    intro block h
    rw [sramSizesFrom, ih (block + 1) (fun hl => by have := h hl; omega), List.replicate_succ]
    congr 1
    unfold sramSizeAt
    rw [if_neg]
    intro hcon
    have := h hcon.1
    have := hcon.2
    omega

theorem sramSizesFrom_append (blocks last : Nat) :
    ∀ (k block m : Nat),
      sramSizesFrom blocks last block (k + m) =
        sramSizesFrom blocks last block k ++ sramSizesFrom blocks last (block + k) m := by
  intro k
  induction k with
  | zero => intro block m; simp [sramSizesFrom]
  | succ n ih =>
    intro block m
    have e : n + 1 + m = (n + m) + 1 := by omega
    rw [e, sramSizesFrom, sramSizesFrom, ih (block + 1) m]
    have e2 : block + 1 + n = block + (n + 1) := by omega
    rw [e2]
    rfl

/-- The sizes the code passes to `send_block` are those of the spec. -/
theorem sramSizes_eq (total_bytes : Nat) :
    sramSizesFrom
      (if total_bytes % 8192 ≠ 0 then total_bytes / 8192 + 1 else total_bytes / 8192)
      (total_bytes % 8192) 0
      (if total_bytes % 8192 ≠ 0 then total_bytes / 8192 + 1 else total_bytes / 8192)
      = sramBlockSizes total_bytes := by
  unfold sramBlockSizes
  by_cases hl : total_bytes % 8192 ≠ 0
  · simp only [hl, ne_eq, not_false_eq_true, if_true]
    rw [sramSizesFrom_append, sramSizesFrom_full _ _ _ _ (fun _ => by omega)]
    congr 1
    simp only [sramSizesFrom, sramSizeAt, Nat.zero_add]
    rw [if_pos ⟨hl, by push_cast; omega⟩]
  · simp only [hl, if_false]
    rw [sramSizesFrom_full _ _ _ _ (fun h => absurd h hl)]
    simp

theorem Forall₂_length_eq {g : List (List (List Nat))} {z : List Nat}
    (h : List.Forall₂ Carries g z) : g.length = z.length :=
  List.Forall₂.length_eq h

theorem sramBlockSizes_length (total_bytes : Nat) :
    (sramBlockSizes total_bytes).length =
      (if total_bytes % 8192 ≠ 0 then total_bytes / 8192 + 1 else total_bytes / 8192) := by
  unfold sramBlockSizes
  by_cases hl : total_bytes % 8192 ≠ 0
  · simp [hl]
  · simp only [hl, if_false]; simp

/-- `write_sram` with a responsive peripheral and a host that delivers what
each block takes. -/
theorem write_sram_run (total_bytes : Nat) (s : State) (groups : List (List (List Nat)))
    (rest : List (List Nat)) (htb : total_bytes < 65536) (hresp : Responsive s)
    (hhost : hostChunks s = groups.flatten ++ rest)
    (hcarry : List.Forall₂ Carries groups (sramBlockSizes total_bytes)) :
    ∃ s', write_sram total_bytes s = some s' ∧
      s'.trace = s.trace ++ sendEvents (commandBytes 5 0 0 ++ command0Bytes 0xE00D 0 ++
        command0Bytes 0xC008 0 ++
        sramBlocksWire 0x100
          ((sramBlockSizes total_bytes).zip (groups.map (fun g => asBytes g.flatten)))) ++
        [Event.feedback "OK\n"] ∧
      s'.timeout = false := by
  have hm : total_bytes % 65536 = total_bytes := Nat.mod_eq_of_lt htb
  have hq : total_bytes / 8192 ≤ 7 := by omega
  have hblocks : (if (total_bytes % 65536) % BLOCK_SIZE ≠ 0
        then ((total_bytes % 65536) / BLOCK_SIZE % 256 + 1) % 256
        else (total_bytes % 65536) / BLOCK_SIZE % 256) =
      (if total_bytes % 8192 ≠ 0 then total_bytes / 8192 + 1 else total_bytes / 8192) := by
    rw [hm]
    show (if total_bytes % 8192 ≠ 0 then (total_bytes / 8192 % 256 + 1) % 256
      else total_bytes / 8192 % 256) = _
    split <;> omega
  have hlenG : groups.length =
      (if total_bytes % 8192 ≠ 0 then total_bytes / 8192 + 1 else total_bytes / 8192) := by
    rw [Forall₂_length_eq hcarry, sramBlockSizes_length]
  have hle : (if total_bytes % 8192 ≠ 0 then total_bytes / 8192 + 1 else total_bytes / 8192)
      ≤ 8 := by split <;> omega
  have hs0 : Responsive (send_command0 0xC008 0 (send_command0 0xE00D 0 (send_command 5 0 0 s))) :=
    Responsive_send_command0 _ _ _ (Responsive_send_command0 _ _ _
      (Responsive_send_command _ _ _ _ hresp))
  obtain ⟨s1, r1, r2, r3⟩ := write_sram_loop_spec
    (if total_bytes % 8192 ≠ 0 then total_bytes / 8192 + 1 else total_bytes / 8192)
    (total_bytes % 8192) (by omega) rest groups (sramBlockSizes total_bytes)
    (if total_bytes % 8192 ≠ 0 then total_bytes / 8192 + 1 else total_bytes / 8192)
    0 BLOCK_SIZE 0x100
    (send_command0 0xC008 0 (send_command0 0xE00D 0 (send_command 5 0 0 s)))
    hcarry (by rw [hlenG, sramSizes_eq]) (fun _ => rfl) (by omega) (by omega) (by omega) hs0
    (by simpa using hhost)
  refine ⟨send_feedback "OK\n" s1, ?_, ?_, r3.1⟩
  · rw [write_sram_eq, hblocks, hm]
    show (match write_sram_loop _ (total_bytes % 8192) _ 0 BLOCK_SIZE 0x100 _ with
      | none => none
      | some (true, t) => some t
      | some (false, t) => some (send_feedback "OK\n" t)) = _
    rw [r1]
  · rw [send_feedback_trace, r2, send_command0_trace, send_command0_trace, send_command_trace]
    simp only [sendEvents_append, List.append_assoc]

theorem Carries_sramState : List.Forall₂ Carries [[List.replicate 16 0x07]] (sramBlockSizes 16) := by
  have e : sramBlockSizes 16 = [16] := by decide
  rw [e]
  refine List.Forall₂.cons ⟨[], List.replicate 16 0x07, rfl, by decide, by decide, by decide⟩
    List.Forall₂.nil

/-! ## `write_rom` for any number of blocks -/

theorem shiftRight_9_lt (x : Nat) (h : x < 65536) : x >>> 9 < 256 := by
  rw [Nat.shiftRight_eq_div_pow]
  omega

/-- The loop of `write_rom` with a responsive peripheral, when the host
delivers, block after block, packets that carry 8192 bytes. -/
theorem write_rom_loop_spec (total : Nat) (htotal : total < 65536) (rest : List (List Nat)) :
    ∀ (groups : List (List (List Nat))) (fuel block : Nat) (s : State),
      (∀ g ∈ groups, Carries g 8192) → block + groups.length = total →
      groups.length ≤ fuel → Responsive s → hostChunks s = groups.flatten ++ rest →
      ∃ s', write_rom_loop total fuel block ((0x200 + block) % 65536) s
            = some (false, total, s') ∧
        s'.trace = s.trace ++ sendEvents
          (romBlocksWire block (groups.map (fun g => asBytes g.flatten))) ∧
        Responsive s' ∧ hostChunks s' = rest := by
  intro groups
  induction groups with
  | nil =>
    intro fuel block s _ hblk _ hresp hhost
    simp only [List.length_nil, Nat.add_zero] at hblk
    subst hblk
    exact ⟨s, write_rom_loop_done _ _ _ _ _ (by omega), by simp [romBlocksWire], hresp,
      by simpa using hhost⟩
  | cons g gs ih =>
    intro fuel block s hc hblk hfuel hresp hhost
    simp only [List.length_cons] at hblk hfuel
    obtain ⟨g0, c, eg, c1, c2, c3⟩ := hc g (by simp)
    obtain ⟨f, rfl⟩ : ∃ f, fuel = f + 1 := ⟨fuel - 1, by omega⟩
    have hflat : g.flatten = g0.flatten ++ c := by rw [eg]; simp
    have hlen : g.flatten.length = g0.flatten.length + c.length := by rw [hflat]; simp
    have hh : hostChunks s = g0 ++ c :: (gs.flatten ++ rest) := by
      rw [hhost, eg]; simp
    obtain ⟨s1, q1, q2, q3, q4, q5⟩ := write_rom_loop_step total f block
      ((0x200 + block) % 65536) s g0 c (gs.flatten ++ rest) (by omega) hresp hh c1 (by omega)
      (by omega)
    have hb : (block + 1) % 65536 = block + 1 := Nat.mod_eq_of_lt (by omega)
    have ha : ((0x200 + block) % 65536 + 1) % 65536 = (0x200 + (block + 1)) % 65536 := by omega
    rw [hb, ha] at q1
    obtain ⟨s', r1, r2, r3, r4⟩ := ih f (block + 1) s1 (fun x hx => hc x (by simp [hx]))
      (by omega) (by omega) q5 (hostChunks_of_rx q3 q4)
    refine ⟨s', by rw [q1, r1], ?_, r3, r4⟩
    rw [r2, q2]
    have h9 : (block >>> 9) % 256 = block >>> 9 :=
      Nat.mod_eq_of_lt (shiftRight_9_lt block (by omega))
    simp only [List.map_cons, romBlocksWire, sendEvents_append, List.append_assoc, h9, hflat,
      Nat.mod_mod]

theorem send_feedback_timeout (msg : String) (s : State) :
    (send_feedback msg s).timeout = s.timeout := rfl

theorem hostChunks_send_feedback (msg : String) (s : State) :
    hostChunks (send_feedback msg s) = hostChunks s := rfl

/-- `write_rom(N, m)` with a responsive peripheral and a host that delivers
what each block takes: `N` blocks with increasing index, the extra bank
select for more than 0x200 blocks, the three finalization packets, `OK\n`. -/
theorem write_rom_run (N m : Nat) (s : State) (groups : List (List (List Nat)))
    (rest : List (List Nat)) (hN : N < 65536) (hm : m < 256) (hresp : Responsive s)
    (hhost : hostChunks s = groups.flatten ++ rest) (hlen : groups.length = N)
    (hcarry : ∀ g ∈ groups, Carries g 8192) :
    ∃ s', write_rom N m s = some s' ∧
      s'.trace = s.trace ++ sendEvents
        (romBlocksWire 0 (groups.map (fun g => asBytes g.flatten)) ++
          (if N > 0x200 then command0Bytes 0xC010 1 else []) ++ commandBytes 5 0 0 ++
          commandBytes 6 ((5 ||| (N <<< 8)) % 65536) (N >>> 8) ++
          commandBytes 6 (1 ||| (m <<< 8)) 0) ++ [Event.feedback "OK\n"] ∧
      s'.timeout = false ∧ hostChunks s' = rest := by
  obtain ⟨s1, q1, q2, q3, q4⟩ := write_rom_loop_spec N hN rest groups N 0 s hcarry
    (by omega) (by omega) hresp hhost
  have hNm : N % 65536 = N := Nat.mod_eq_of_lt hN
  have hmm : m % 256 = m := Nat.mod_eq_of_lt hm
  have h8 : N >>> 8 < 256 := shiftRight_8_lt N hN
  have hm8 : 1 ||| (m <<< 8) < 65536 := by
    have : m <<< 8 < 65536 := by rw [Nat.shiftLeft_eq]; omega
    exact Nat.or_lt_two_pow (n := 16) (by norm_num) this
  have hx : Responsive (if N > 0x200 then send_command0 0xC010 1 s1 else s1) := by
    split
    · exact Responsive_send_command0 _ _ _ q3
    · exact q3
  have r1 := Responsive_send_command 5 0 0 _ hx
  have r2 := Responsive_send_command 6 (5 ||| (N <<< 8)) (N >>> 8) _ r1
  have r3 := Responsive_send_command 6 (1 ||| (m <<< 8)) 0 _ r2
  refine ⟨send_feedback "OK\n" (send_command 6 (1 ||| (m <<< 8)) 0
    (send_command 6 (5 ||| (N <<< 8)) (N >>> 8) (send_command 5 0 0
      (if N > 0x200 then send_command0 0xC010 1 s1 else s1)))), ?_, ?_,
    by rw [send_feedback_timeout]; exact r3.1, ?_⟩
  · rw [write_rom_eq, hNm, hmm]
    have q1' : write_rom_loop N N 0 0x200 s = some (false, N, s1) := q1
    rw [q1']
  · rw [send_feedback_trace, send_command_trace, send_command_trace, send_command_trace]
    have ht : (if N > 0x200 then send_command0 0xC010 1 s1 else s1).trace =
        s1.trace ++ sendEvents (if N > 0x200 then command0Bytes 0xC010 1 else []) := by
      split
      · rw [send_command0_trace]
      · simp
    rw [ht, q2]
    simp only [sendEvents_append, List.append_assoc, Nat.mod_eq_of_lt hm8,
      Nat.mod_eq_of_lt (Nat.lt_of_lt_of_le h8 (by norm_num : 256 ≤ 65536))]
  · rw [hostChunks_send_feedback, hostChunks_send_command, hostChunks_send_command,
      hostChunks_send_command]
    split
    · rw [hostChunks_send_command0]; exact q4
    · exact q4


/-! ## Control-port polarity and the strobe toggle -/

set_option maxRecDepth 100000 in
theorem control_roundtrip_byte :
    ∀ b < 256, (((((((b % 256) ^^^ 0b00001011) <<< 4) % 256) % 256) >>> 4) ^^^ 0b00001011) % 256
      = b &&& 0x0F := by
  decide

set_option maxRecDepth 100000 in
theorem control_toggle_byte :
    ∀ v < 256,
      ((((((((((v >>> 4) ^^^ 0b00001011) % 256 ^^^ 1) % 256) ^^^ 0b00001011) <<< 4) % 256) % 256)
          >>> 4) ^^^ 0b00001011) % 256
        = ((v >>> 4) ^^^ 0b00001011) % 256 ^^^ 1 := by
  decide

/-- C15: for every byte `b` in 0..255, on a control port whose pins read back
the latch (PINF = PORTF), `write_control(b)` followed by `read_control()`
returns `b & 0x0F`: the low nibble survives the polarity inversion and the
shift into the high nibble of PORTF, and the high nibble of `b` is dropped. -/
theorem control_polarity_roundtrip (b : Nat) (s : State) (hb : b < 256)
    (hrb : ∀ v, s.pinf v = v) :
    read_control (write_control b s) = b &&& 0x0F := by
  simp only [read_control, write_control, PINF, hrb]
  exact control_roundtrip_byte b hb

/-- Witness for C15: the byte 0xA7 written on `readyState` reads back as 7. -/
theorem control_polarity_roundtrip_witness :
    (0xA7 < 256 ∧ ∀ v, readyState.pinf v = v) ∧
      read_control (write_control 0xA7 readyState) = 0xA7 &&& 0x0F :=
  ⟨⟨by decide, fun _ => rfl⟩,
    control_polarity_roundtrip 0xA7 readyState (by decide) (fun _ => rfl)⟩

/-- On a control port that reads back its latch, `invert_strobe` flips bit 0
of the logical control value. -/
theorem read_control_invert_strobe (s : State) (hrb : ∀ v, s.pinf v = v) :
    read_control (invert_strobe s) = read_control s ^^^ 1 := by
  simp only [invert_strobe, flip_led, write_control, read_control, PINF, hrb]
  exact control_toggle_byte (s.PORTF % 256) (Nat.mod_lt _ (by decide))

set_option maxRecDepth 100000 in
theorem read_control_byte : ∀ v < 256, ((v >>> 4) ^^^ 0b00001011) % 256 < 16 := by
  decide

theorem read_control_lt (s : State) : read_control s < 16 := by
  simp only [read_control, PINF]
  have h : s.pinf s.PORTF % 256 < 256 := Nat.mod_lt _ (by decide)
  exact read_control_byte _ h

theorem xor_one_twice (x : Nat) : x ^^^ 1 ^^^ 1 = x := by
  rw [Nat.xor_assoc]; simp

set_option maxRecDepth 100000 in
theorem xor_0x40_lt : ∀ x < 256, x ^^^ 0x40 < 256 := by
  decide

theorem read_control_wait (bit : Bool) (pm : Nat) (s : State) :
    read_control (wait_busy_bit bit pm s) = read_control s := by
  simp only [read_control, PINF, wait_busy_bit_PORTF, wait_busy_bit_pinf]

theorem invert_strobe_PORTE (s : State) (hE : s.PORTE < 256) :
    (invert_strobe s).PORTE = s.PORTE ^^^ 0x40 := by
  simp only [invert_strobe, flip_led, write_control]
  exact Nat.mod_eq_of_lt (xor_0x40_lt _ hE)

theorem xor_0x40_cancel (x : Nat) : x ^^^ 0x40 ^^^ 0x40 = x := by
  rw [Nat.xor_assoc]; simp

theorem invert_strobe_pinf (s : State) : (invert_strobe s).pinf = s.pinf := rfl

theorem invert_strobe_PORTE_lt (s : State) : (invert_strobe s).PORTE < 256 := by
  simp only [invert_strobe, flip_led, write_control]
  exact Nat.mod_lt _ (by decide)

theorem nibble_toggle_bits :
    ∀ h < 16, (h ^^^ 1) / 2 = h / 2 ∧ (h ^^^ 1) % 2 = 1 - h % 2 := by
  decide

set_option maxRecDepth 100000 in
theorem led_toggle_bits :
    ∀ x < 256, (x ^^^ 0x40) &&& 0xBF = x &&& 0xBF ∧
      (x ^^^ 0x40) &&& 0x40 = 0x40 - (x &&& 0x40) := by
  decide

/-- The strobe and LED lines after `receive_byte`: as found. -/
theorem receive_byte_lines (s : State) (hrb : ∀ v, s.pinf v = v) (hE : s.PORTE < 256) :
    read_control (receive_byte s).2 = read_control s ∧ (receive_byte s).2.PORTE = s.PORTE := by
  have h1 : ∀ v, (read_status (wait_busy_bit false 3 s)).2.pinf v = v := by
    intro v
    show (wait_busy_bit false 3 s).pinf v = v
    rw [wait_busy_bit_pinf]; exact hrb v
  have h2 : ∀ v, (read_status (wait_busy_bit false 3
      (invert_strobe (read_status (wait_busy_bit false 3 s)).2))).2.pinf v = v := by
    intro v
    show (wait_busy_bit false 3 (invert_strobe (read_status (wait_busy_bit false 3 s)).2)).pinf v
      = v
    rw [wait_busy_bit_pinf, invert_strobe_pinf]; exact h1 v
  have e1 : (read_status (wait_busy_bit false 3 s)).2.PORTE = s.PORTE := by
    show (wait_busy_bit false 3 s).PORTE = s.PORTE
    rw [wait_busy_bit_PORTE]
  constructor
  · show read_control (invert_strobe (read_status (wait_busy_bit false 3
      (invert_strobe (read_status (wait_busy_bit false 3 s)).2))).2) = read_control s
    rw [read_control_invert_strobe _ h2]
    show read_control (wait_busy_bit false 3
      (invert_strobe (read_status (wait_busy_bit false 3 s)).2)) ^^^ 1 = read_control s
    rw [read_control_wait, read_control_invert_strobe _ h1]
    show read_control (wait_busy_bit false 3 s) ^^^ 1 ^^^ 1 = read_control s
    rw [read_control_wait, xor_one_twice]
  · show (invert_strobe (read_status (wait_busy_bit false 3
      (invert_strobe (read_status (wait_busy_bit false 3 s)).2))).2).PORTE = s.PORTE
    rw [invert_strobe_PORTE]
    · show (wait_busy_bit false 3
        (invert_strobe (read_status (wait_busy_bit false 3 s)).2)).PORTE ^^^ 0x40 = s.PORTE
      rw [wait_busy_bit_PORTE, invert_strobe_PORTE _ (by rw [e1]; exact hE), e1, xor_0x40_cancel]
    · show (wait_busy_bit false 3
        (invert_strobe (read_status (wait_busy_bit false 3 s)).2)).PORTE < 256
      rw [wait_busy_bit_PORTE]
      exact invert_strobe_PORTE_lt _

/-- The strobe and LED lines after `send_byte`: both inverted. -/
theorem send_byte_lines (b : Nat) (s : State) (hrb : ∀ v, s.pinf v = v) (hE : s.PORTE < 256) :
    read_control (send_byte b s) = read_control s ^^^ 1 ∧
      (send_byte b s).PORTE = s.PORTE ^^^ 0x40 := by
  have h1 : ∀ v, (write_data (b % 256) (wait_busy_bit true 0 s)).pinf v = v := by
    intro v
    show (wait_busy_bit true 0 s).pinf v = v
    rw [wait_busy_bit_pinf]; exact hrb v
  have e1 : (write_data (b % 256) (wait_busy_bit true 0 s)).PORTE = s.PORTE := by
    show (wait_busy_bit true 0 s).PORTE = s.PORTE
    rw [wait_busy_bit_PORTE]
  constructor
  · show read_control (wait_busy_bit true 0
      (invert_strobe (write_data (b % 256) (wait_busy_bit true 0 s)))) = _
    rw [read_control_wait, read_control_invert_strobe _ h1]
    show read_control (wait_busy_bit true 0 s) ^^^ 1 = _
    rw [read_control_wait]
  · show (wait_busy_bit true 0
      (invert_strobe (write_data (b % 256) (wait_busy_bit true 0 s)))).PORTE = _
    rw [wait_busy_bit_PORTE, invert_strobe_PORTE _ (by rw [e1]; exact hE), e1]

/-- C20: on a control port whose pins read back the latch (PINF = PORTF),
`invert_strobe` flips exactly bit 0 of the logical control value returned by
`read_control` (bits 1..3 keep their value) and exactly the LED bit 0x40 of
PORTE (the other PORTE bits keep their value), and leaves the data lines
PORTD unchanged; two consecutive calls restore both the control value and
PORTE.  Hence `receive_byte`, which toggles twice, leaves STROBE and the LED
as it found them, and `send_byte`, which toggles once, leaves both inverted. -/
theorem invert_strobe_toggles (s : State) (b : Nat) (hrb : ∀ v, s.pinf v = v)
    (hE : s.PORTE < 256) :
    (read_control (invert_strobe s) = read_control s ^^^ PARPORT_STROBE ∧
      read_control (invert_strobe s) / 2 = read_control s / 2 ∧
      read_control (invert_strobe s) % 2 = 1 - read_control s % 2) ∧
    ((invert_strobe s).PORTE = s.PORTE ^^^ 0x40 ∧
      (invert_strobe s).PORTE &&& 0xBF = s.PORTE &&& 0xBF ∧
      (invert_strobe s).PORTE &&& 0x40 = 0x40 - (s.PORTE &&& 0x40)) ∧
    (invert_strobe s).PORTD = s.PORTD ∧
    (read_control (invert_strobe (invert_strobe s)) = read_control s ∧
      (invert_strobe (invert_strobe s)).PORTE = s.PORTE) ∧
    (read_control (receive_byte s).2 = read_control s ∧ (receive_byte s).2.PORTE = s.PORTE) ∧
    (read_control (send_byte b s) = read_control s ^^^ PARPORT_STROBE ∧
      (send_byte b s).PORTE = s.PORTE ^^^ 0x40) := by
  have hc := read_control_invert_strobe s hrb
  have hb := nibble_toggle_bits (read_control s) (read_control_lt s)
  have hp := invert_strobe_PORTE s hE
  have hl := led_toggle_bits s.PORTE hE
  refine ⟨⟨hc, ?_, ?_⟩, ⟨hp, ?_, ?_⟩, rfl, ⟨?_, ?_⟩, receive_byte_lines s hrb hE,
    send_byte_lines b s hrb hE⟩
  · rw [hc]; exact hb.1
  · rw [hc]; exact hb.2
  · rw [hp]; exact hl.1
  · rw [hp]; exact hl.2
  · rw [read_control_invert_strobe (invert_strobe s) (fun v => hrb v), hc, xor_one_twice]
  · rw [invert_strobe_PORTE _ (invert_strobe_PORTE_lt s), hp, xor_0x40_cancel]

/-- Witness for C20: the toggles on `readyState`, whose control port reads
back its latch. -/
theorem invert_strobe_toggles_witness :
    ((∀ v, readyState.pinf v = v) ∧ readyState.PORTE < 256) ∧
    (read_control (invert_strobe (invert_strobe readyState)) = read_control readyState ∧
      (invert_strobe (invert_strobe readyState)).PORTE = readyState.PORTE) :=
  ⟨⟨fun _ => rfl, by decide⟩,
    (invert_strobe_toggles readyState 0x55 (fun _ => rfl) (by decide)).2.2.2.1⟩

/-! ## Number of polls of a wait -/

/-- More than `POLL_MAX` iterations never change the result of the polling
loop started with counter 0. -/
theorem wait_busy_loop_budget (bit : Bool) (pm : Nat) (hpm : pm < 256) (s : State) :
    ∀ extra, wait_busy_loop bit pm (POLL_MAX + extra) 0 s = wait_busy_loop bit pm POLL_MAX 0 s := by
  intro extra
  induction extra with
  | zero => rfl
  | succ n ih =>
    rw [← ih]
    exact wait_busy_loop_fuel bit pm hpm (POLL_MAX + n) 0 s (by omega) (by decide)

/-- A wait entered with the flag clear: number of polls, exit condition and
the resulting flag. -/
theorem wait_busy_bit_exit (bit : Bool) (pm : Nat) (s : State) (hpm : pm < 256)
    (h : s.timeout = false) :
    ∃ k, max 1 pm ≤ k ∧ k ≤ POLL_MAX ∧
      (wait_busy_bit bit pm s).polls = s.polls + k ∧
      (wait_busy_loop bit (pm % 256) POLL_MAX 0 s).2.1 = k ∧
      (busyAt s (s.polls + k - 1) = bit ∨ k = POLL_MAX) ∧
      (∀ j, max 1 pm ≤ j → j < k → busyAt s (s.polls + j - 1) ≠ bit) ∧
      ((wait_busy_bit bit pm s).timeout = true ↔ busyAt s (s.polls + k - 1) ≠ bit) := by
  have hmod : pm % 256 = pm := Nat.mod_eq_of_lt hpm
  obtain ⟨k, hk0, hkP, hkm, hcnt, hpolls, hbit, hex, hno⟩ :=
    wait_busy_loop_exit bit pm hpm POLL_MAX 0 s (by omega) (by decide)
  have hp : ∀ (t : State) (b : Bool), ({ t with timeout := b } : State).polls = t.polls :=
    fun _ _ => rfl
  have hwp : (wait_busy_bit bit pm s).polls = (wait_busy_loop bit pm POLL_MAX 0 s).2.2.polls := by
    unfold wait_busy_bit
    simp only [h, hmod, Bool.false_eq_true, if_false]
    by_cases hc : (wait_busy_loop bit pm POLL_MAX 0 s).1 = bit
    · simp [hc]
    · simp [hc]
  have hwt : (wait_busy_bit bit pm s).timeout = true ↔
      (wait_busy_loop bit pm POLL_MAX 0 s).1 ≠ bit := by
    unfold wait_busy_bit
    simp only [h, hmod, Bool.false_eq_true, if_false]
    by_cases hc : (wait_busy_loop bit pm POLL_MAX 0 s).1 = bit
    · simp [hc, wait_busy_loop_timeout, h]
    · simp [hc]
  simp only [Nat.sub_zero] at hpolls hbit hno
  refine ⟨k, by omega, hkP, by rw [hwp, hpolls], by rw [hmod]; exact hcnt, ?_, ?_, ?_⟩
  · rw [← hbit]; exact hex
  · intro j hj1 hj2
    exact hno j (by omega) hj2 (by omega)
  · rw [hwt, hbit]

/-- C18: entered with the fault flag clear, `wait_busy_bit(bit, poll_min)`
ends after `k` status polls with `max 1 poll_min ≤ k ≤ POLL_MAX = 65534`:
`k` is the first poll number at or after `max 1 poll_min` whose busy bit
equals the awaited one, or 65534 when there is none.  The 16-bit counter
holds exactly `k` at the end, so it never wraps, and iterations beyond
`POLL_MAX` would change nothing. -/
theorem wait_busy_bit_polls (bit : Bool) (pm : Nat) (s : State) (hpm : pm < 256)
    (h : s.timeout = false) :
    ∃ k, (max 1 pm ≤ k ∧ k ≤ 65534) ∧
      (wait_busy_bit bit pm s).polls = s.polls + k ∧
      (busyAt s (s.polls + k - 1) = bit ∨ k = 65534) ∧
      (∀ j, max 1 pm ≤ j → j < k → busyAt s (s.polls + j - 1) ≠ bit) ∧
      ((wait_busy_loop bit (pm % 256) POLL_MAX 0 s).2.1 = k ∧ k < 65536) ∧
      ∀ extra, wait_busy_loop bit (pm % 256) (POLL_MAX + extra) 0 s =
        wait_busy_loop bit (pm % 256) POLL_MAX 0 s := by
  obtain ⟨k, h1, h2, h3, h4, h5, h6, _⟩ := wait_busy_bit_exit bit pm s hpm h
  have hP : POLL_MAX = 65534 := rfl
  refine ⟨k, ⟨h1, by omega⟩, h3, h5, h6, ⟨h4, by omega⟩, ?_⟩
  rw [Nat.mod_eq_of_lt hpm]
  exact wait_busy_loop_budget bit pm hpm s

/-- Witness for C18: a wait for busy = 0 with `poll_min = 3` on `readyState`,
whose busy bit is always 1. -/
theorem wait_busy_bit_polls_witness :
    (3 < 256 ∧ readyState.timeout = false) ∧
    ∃ k, (max 1 3 ≤ k ∧ k ≤ 65534) ∧
      (wait_busy_bit false 3 readyState).polls = readyState.polls + k ∧
      (busyAt readyState (readyState.polls + k - 1) = false ∨ k = 65534) ∧
      (∀ j, max 1 3 ≤ j → j < k → busyAt readyState (readyState.polls + j - 1) ≠ false) ∧
      ((wait_busy_loop false (3 % 256) POLL_MAX 0 readyState).2.1 = k ∧ k < 65536) ∧
      ∀ extra, wait_busy_loop false (3 % 256) (POLL_MAX + extra) 0 readyState =
        wait_busy_loop false (3 % 256) POLL_MAX 0 readyState :=
  ⟨⟨by decide, rfl⟩, wait_busy_bit_polls false 3 readyState (by decide) rfl⟩

/-- A wait whose awaited busy bit never shows: `POLL_MAX` polls, flag set. -/
theorem wait_busy_bit_never (bit : Bool) (pm : Nat) (s : State) (hpm : pm < 256)
    (h : s.timeout = false) (hn : ∀ k, busyAt s k ≠ bit) :
    (wait_busy_bit bit pm s).timeout = true ∧
      (wait_busy_bit bit pm s).polls = s.polls + POLL_MAX := by
  obtain ⟨k, _, _, h3, _, h5, _, h7⟩ := wait_busy_bit_exit bit pm s hpm h
  have hk : k = POLL_MAX := by
    rcases h5 with h5 | h5
    · exact absurd h5 (hn _)
    · exact h5
  exact ⟨h7.2 (hn _), by rw [h3, hk]⟩

/-! ## `send_command0` on the wire -/

theorem command0Bytes_length (addr b : Nat) : (command0Bytes addr b).length = 11 := rfl

theorem or_shiftLeft_8 (a n : Nat) (ha : a < 256) : a ||| (n <<< 8) = 256 * n + a := by
  rw [Nat.or_comm, Nat.shiftLeft_eq, Nat.mul_comm]
  exact (Nat.mul_add_lt_is_or (i := 8) ha n).symm

/-- The packet `send_command(6, 5 | (N << 8), N >> 8)`, byte by byte. -/
theorem commandBytes_blocks (N : Nat) (hN : N < 65536) :
    commandBytes 6 ((5 ||| (N <<< 8)) % 65536) (N >>> 8) =
      [0xD5, 0xAA, 0x96, 6, 5, N &&& 0xFF, N >>> 8, 0,
        0x81 ^^^ 6 ^^^ 5 ^^^ (N &&& 0xFF) ^^^ (N >>> 8) ^^^ 0] := by
  have h1 : ((5 ||| (N <<< 8)) % 65536) &&& 0xFF = 5 := by
    rw [and_255, or_shiftLeft_8 5 N (by decide)]; omega
  have h2 : ((5 ||| (N <<< 8)) % 65536) >>> 8 = N &&& 0xFF := by
    rw [and_255, or_shiftLeft_8 5 N (by decide), Nat.shiftRight_eq_div_pow]; omega
  have h3 : (N >>> 8) &&& 0xFF = N >>> 8 := by
    rw [and_255]; exact Nat.mod_eq_of_lt (shiftRight_8_lt N hN)
  have h4 : (N >>> 8) >>> 8 = 0 := by
    rw [Nat.shiftRight_eq_div_pow, Nat.shiftRight_eq_div_pow]; omega
  unfold commandBytes
  rw [h1, h2, h3, h4]

/-- The packet `send_command(6, 1 | (m << 8), 0)`, byte by byte. -/
theorem commandBytes_mode (m : Nat) :
    commandBytes 6 (1 ||| (m <<< 8)) 0 =
      [0xD5, 0xAA, 0x96, 6, 1, m, 0, 0, 0x81 ^^^ 6 ^^^ 1 ^^^ m ^^^ 0 ^^^ 0] := by
  have h1 : (1 ||| (m <<< 8)) &&& 0xFF = 1 := by
    rw [and_255, or_shiftLeft_8 1 m (by decide)]; omega
  have h2 : (1 ||| (m <<< 8)) >>> 8 = m := by
    rw [or_shiftLeft_8 1 m (by decide), Nat.shiftRight_eq_div_pow]; omega
  unfold commandBytes
  rw [h1, h2]
  rfl

theorem or_shiftLeft_8_lt (a m : Nat) (ha : a < 256) (hm : m < 256) :
    a ||| (m <<< 8) < 65536 := by
  rw [or_shiftLeft_8 a m ha]; omega

/-- C16: a `write_rom(N, m)` whose block loop ends without a fault (the loop
leaves with the final index `block` and the state `t`) goes on, after the
bank select that is due for more than 0x200 blocks, to send three packets
in this order and then `OK\n`: `command(5, 0, 0)`; the packet whose bytes
after the preamble are 6, 5, `N & 0xFF`, `N >> 8`, 0 and the checksum; the
packet whose bytes after the preamble are 6, 1, `m`, 0, 0 and the checksum. -/
theorem write_rom_final_packets (N m block : Nat) (s t : State) (hN : N < 65536) (hm : m < 256)
    (hloop : write_rom_loop N N 0 0x200 s = some (false, block, t)) :
    ∃ s', write_rom N m s = some s' ∧
      s'.trace = t.trace ++
        sendEvents ((if block > 0x200 then command0Bytes 0xC010 1 else []) ++
          (commandBytes 5 0 0 ++
            [0xD5, 0xAA, 0x96, 6, 5, N &&& 0xFF, N >>> 8, 0,
              0x81 ^^^ 6 ^^^ 5 ^^^ (N &&& 0xFF) ^^^ (N >>> 8) ^^^ 0] ++
            [0xD5, 0xAA, 0x96, 6, 1, m, 0, 0, 0x81 ^^^ 6 ^^^ 1 ^^^ m ^^^ 0 ^^^ 0])) ++
        [Event.feedback "OK\n"] := by
  have hNm : N % 65536 = N := Nat.mod_eq_of_lt hN
  have hmm : m % 256 = m := Nat.mod_eq_of_lt hm
  refine ⟨_, by rw [write_rom_eq, hNm, hloop], ?_⟩
  rw [send_feedback_trace, send_command_trace, send_command_trace, send_command_trace, hmm,
    ← commandBytes_blocks N hN, ← commandBytes_mode m,
    Nat.mod_eq_of_lt (or_shiftLeft_8_lt 1 m (by decide) hm),
    Nat.mod_eq_of_lt (Nat.lt_of_lt_of_le (shiftRight_8_lt N hN) (by decide))]
  by_cases hb : block > 0x200
  · rw [if_pos hb, if_pos hb, send_command0_trace]
    simp only [sendEvents_append, List.append_assoc]
  · rw [if_neg hb, if_neg hb]
    simp only [sendEvents_append, List.append_assoc, List.nil_append]

/-- Witness for C16: `write_rom(0, 1)` on `readyState`, whose block loop has
nothing to send. -/
theorem write_rom_final_packets_witness :
    ((0 < 65536 ∧ 1 < 256) ∧ write_rom_loop 0 0 0 0x200 readyState = some (false, 0, readyState)) ∧
    ∃ s', write_rom 0 1 readyState = some s' ∧
      s'.trace = readyState.trace ++
        sendEvents ((if 0 > 0x200 then command0Bytes 0xC010 1 else []) ++
          (commandBytes 5 0 0 ++
            [0xD5, 0xAA, 0x96, 6, 5, 0 &&& 0xFF, 0 >>> 8, 0,
              0x81 ^^^ 6 ^^^ 5 ^^^ (0 &&& 0xFF) ^^^ (0 >>> 8) ^^^ 0] ++
            [0xD5, 0xAA, 0x96, 6, 1, 1, 0, 0, 0x81 ^^^ 6 ^^^ 1 ^^^ 1 ^^^ 0 ^^^ 0])) ++
        [Event.feedback "OK\n"] :=
  ⟨⟨⟨by decide, by decide⟩, write_rom_loop_zero 0 0 0x200 readyState⟩,
    write_rom_final_packets 0 1 0 readyState readyState (by decide) (by decide)
      (write_rom_loop_zero 0 0 0x200 readyState)⟩

/-- The blocks of `write_rom`, indexed: block `i` is the bank select
`i >> 9`, the seek to `0x200 + i`, and the data block. -/
theorem romBlocksWire_enum (payloads : List (List Nat)) :
    ∀ block, romBlocksWire block payloads =
      (List.enumFrom block payloads).flatMap (fun ip =>
        command0Bytes 0xC010 (ip.1 >>> 9) ++ commandBytes 5 ((0x200 + ip.1) % 65536) 0 ++
          blockBytes 0x8000 8192 ip.2) := by
  induction payloads with
  | nil => intro block; rfl
  | cons p ps ih =>
    intro block
    rw [romBlocksWire, ih (block + 1), List.enumFrom_cons, List.flatMap_cons]

theorem Carries_single (c : List Nat) (size : Nat) (h1 : 0 < size) (h2 : size ≤ c.length)
    (h3 : c.length < 65536) : Carries [c] size := by
  refine ⟨[], c, rfl, h1, ?_, ?_⟩
  · rw [List.flatten_cons, List.flatten_nil, List.append_nil]; exact h2
  · rw [List.flatten_cons, List.flatten_nil, List.append_nil]; exact h3

theorem Carries_romState :
    ∀ g ∈ [[List.replicate 8192 0x5A], [List.replicate 8192 0xA5]], Carries g 8192 := by
  intro g hg
  simp only [List.mem_cons, List.mem_singleton, List.not_mem_nil, or_false] at hg
  rcases hg with hg | hg
  · subst hg
    exact Carries_single _ 8192 (by decide) (by rw [List.length_replicate])
      (by rw [List.length_replicate]; decide)
  · subst hg
    exact Carries_single _ 8192 (by decide) (by rw [List.length_replicate])
      (by rw [List.length_replicate]; decide)

/-! ## The fault flag and the log across the operations -/

theorem Extends_intro {s t : State} (h1 : s.timeout = true → t.timeout = true)
    (ev : List Event) (h2 : t.trace = s.trace ++ ev) (h3 : Event.feedback "TIMEOUT\n" ∉ ev) :
    Extends s t :=
  ⟨h1, ev, h2, h3⟩

theorem Extends_refl (s : State) : Extends s s :=
  ⟨fun h => h, [], by simp, by simp⟩

theorem Extends_trans {s t u : State} (h1 : Extends s t) (h2 : Extends t u) : Extends s u := by
  obtain ⟨a1, e1, b1, c1⟩ := h1
  obtain ⟨a2, e2, b2, c2⟩ := h2
  refine ⟨fun h => a2 (a1 h), e1 ++ e2, by rw [b2, b1, List.append_assoc], ?_⟩
  intro hm
  rcases List.mem_append.1 hm with hm | hm
  · exact c1 hm
  · exact c2 hm

theorem Extends_of_eq {s t : State} (h1 : t.timeout = s.timeout) (h2 : t.trace = s.trace) :
    Extends s t :=
  ⟨fun h => by rw [h1]; exact h, [], by rw [h2, List.append_nil], by simp⟩

theorem Extends_reports {s t : State} (h : Extends s t) :
    timeoutReports t.trace = timeoutReports s.trace := by
  obtain ⟨_, ev, b, c⟩ := h
  unfold timeoutReports
  rw [b, List.count_append, List.count_eq_zero_of_not_mem c, Nat.add_zero]

theorem not_mem_sendEvents (msg : String) (bytes : List Nat) :
    Event.feedback msg ∉ sendEvents bytes := by
  induction bytes with
  | nil => simp [sendEvents]
  | cons b bs ih =>
    rw [sendEvents_cons]
    intro hm
    simp at hm
    exact ih hm

theorem not_mem_forwardEvents (msg : String) (bytes : List Nat) :
    Event.feedback msg ∉ forwardEvents bytes := by
  induction bytes with
  | nil => simp [forwardEvents]
  | cons b bs ih =>
    rw [forwardEvents_cons]
    intro hm
    simp at hm
    exact ih hm

theorem Extends_wait (bit : Bool) (pm : Nat) (s : State) : Extends s (wait_busy_bit bit pm s) :=
  ⟨fun h => by rw [wait_busy_bit_fault bit pm s h]; exact h, [], by simp, by simp⟩

theorem Extends_send_bytes (bytes : List Nat) (s : State) : Extends s (send_bytes bytes s) :=
  ⟨fun h => (send_bytes_fault_keeps bytes s h).1, _, send_bytes_trace bytes s,
    not_mem_sendEvents _ _⟩

theorem Extends_send_byte (b : Nat) (s : State) : Extends s (send_byte b s) :=
  Extends_send_bytes [b] s

theorem Extends_send_command (op addr len : Nat) (s : State) :
    Extends s (send_command op addr len s) := by
  rw [send_command_eq]; exact Extends_send_bytes _ s

theorem Extends_send_command0 (addr b : Nat) (s : State) :
    Extends s (send_command0 addr b s) := by
  rw [send_command0_eq]
  exact Extends_trans (Extends_send_command 0 addr 1 s) (Extends_send_bytes _ _)

theorem Extends_send_feedback (msg : String) (s : State) (h : msg ≠ "TIMEOUT\n") :
    Extends s (send_feedback msg s) :=
  ⟨fun h => h, [Event.feedback msg], rfl, by
    intro hm
    rw [List.mem_singleton] at hm
    injection hm with hm
    exact h hm.symm⟩

theorem err_line_ne (x : String) : "*#*#*ERR" ++ x ++ "\n" ≠ "TIMEOUT\n" := by
  intro h
  have h1 := congrArg String.data h
  rw [String.data_append, String.data_append] at h1
  have h2 : ("*#*#*ERR" : String).data = ['*', '#', '*', '#', '*', 'E', 'R', 'R'] := rfl
  have h3 : ("TIMEOUT\n" : String).data = ['T', 'I', 'M', 'E', 'O', 'U', 'T', '\n'] := rfl
  rw [h2, h3] at h1
  simp at h1

theorem Extends_send_feedback_err (n : Nat) (s : State) : Extends s (send_feedback_err n s) :=
  Extends_send_feedback _ s (err_line_ne _)

/-! ## Invariants of the host-side loops -/

theorem send_block_drain_inv (Q : State → Prop)
    (hrx : ∀ s, Q s → Q (CDC_Device_ReceiveByte s).2)
    (hsb : ∀ b s, Q s → Q (send_byte b s)) :
    ∀ (k ck n : Nat) (s : State), Q s → Q (send_block_drain k ck n s).2.2 := by
  intro k
  induction k with
  | zero => intro ck n s h; exact h
  | succ j ih =>
    intro ck n s h
    rw [send_block_drain]
    exact ih _ _ _ (hsb _ _ (hrx _ h))

theorem send_block_loop_inv (bs : Nat) (Q : State → Prop)
    (husb : ∀ s, Q s → Q (USB_tasks s))
    (hrx : ∀ s, Q s → Q (CDC_Device_ReceiveByte s).2)
    (hsb : ∀ b s, Q s → Q (send_byte b s)) :
    ∀ (fuel ck n : Nat) (s : State) (r : Nat × State), Q s →
      send_block_loop bs fuel ck n s = some r → Q r.2 := by
  intro fuel
  induction fuel with
  | zero =>
    intro ck n s r hq h
    rw [send_block_loop] at h
    split at h
    · exact absurd h (by simp)
    · injection h with h
      subst h
      exact hq
  | succ f ih =>
    intro ck n s r hq h
    rw [send_block_loop] at h
    split at h
    · exact ih _ _ _ r (send_block_drain_inv Q hrx hsb _ _ _ _ (husb _ hq)) h
    · injection h with h
      subst h
      exact hq

theorem cdc_device_receive_loop_inv (len : Nat) (Q : State → Prop)
    (husb : ∀ s, Q s → Q (USB_tasks s))
    (hrx : ∀ s, Q s → Q (CDC_Device_ReceiveByte s).2) :
    ∀ (fuel count : Nat) (buffer : List Nat) (s : State) (r : List Nat × State), Q s →
      cdc_device_receive_loop len fuel count buffer s = some r → Q r.2 := by
  intro fuel
  induction fuel with
  | zero =>
    intro count buffer s r hq h
    rw [cdc_device_receive_loop] at h
    split at h
    · exact absurd h (by simp)
    · injection h with h
      subst h
      exact hq
  | succ f ih =>
    intro count buffer s r hq h
    rw [cdc_device_receive_loop] at h
    split at h
    · simp only [] at h
      split at h
      · exact ih _ _ _ r (husb _ (hrx _ hq)) h
      · exact ih _ _ _ r (husb _ (hrx _ hq)) h
    · injection h with h
      subst h
      exact hq

theorem cdc_device_receive_bytes_inv (len : Nat) (Q : State → Prop)
    (husb : ∀ s, Q s → Q (USB_tasks s))
    (hrx : ∀ s, Q s → Q (CDC_Device_ReceiveByte s).2)
    (s : State) (r : List Nat × State) (hq : Q s)
    (h : cdc_device_receive_bytes len s = some r) : Q r.2 :=
  cdc_device_receive_loop_inv _ Q husb hrx _ _ _ s r hq h

/-- A projection that ignores the host buffers is constant across
`CDC_Device_ReceiveByte`. -/
theorem CDC_Device_ReceiveByte_proj {α : Type} (f : State → α)
    (hf : ∀ (s : State) (b : List Nat) (n : List (List Nat)),
      f { s with rxbuf := b, rxnext := n } = f s) (s : State) :
    f (CDC_Device_ReceiveByte s).2 = f s := by
  unfold CDC_Device_ReceiveByte
  split
  · rfl
  · exact hf s _ s.rxnext

/-- The fault flag and the log are the same before and after a read from the
host, whatever the host delivers. -/
theorem cdc_device_receive_bytes_frame (len : Nat) (s : State) (r : List Nat × State)
    (h : cdc_device_receive_bytes len s = some r) :
    r.2.timeout = s.timeout ∧ r.2.trace = s.trace ∧ r.2.polls = s.polls ∧ r.2.pinb = s.pinb := by
  refine cdc_device_receive_bytes_inv len
    (fun t => t.timeout = s.timeout ∧ t.trace = s.trace ∧ t.polls = s.polls ∧ t.pinb = s.pinb)
    ?_ ?_ s r ⟨rfl, rfl, rfl, rfl⟩ h
  · intro t ht
    rw [USB_tasks_proj State.timeout (fun _ _ _ => rfl),
      USB_tasks_proj State.trace (fun _ _ _ => rfl),
      USB_tasks_proj State.polls (fun _ _ _ => rfl),
      USB_tasks_proj State.pinb (fun _ _ _ => rfl)]
    exact ht
  · intro t ht
    rw [CDC_Device_ReceiveByte_proj State.timeout (fun _ _ _ => rfl),
      CDC_Device_ReceiveByte_proj State.trace (fun _ _ _ => rfl),
      CDC_Device_ReceiveByte_proj State.polls (fun _ _ _ => rfl),
      CDC_Device_ReceiveByte_proj State.pinb (fun _ _ _ => rfl)]
    exact ht

/-- With the fault flag raised, `send_block` keeps it raised and polls the
status port not once. -/
theorem send_block_fault (address size : Nat) (s s' : State) (hf : s.timeout = true)
    (h : send_block address size s = some s') :
    s'.timeout = true ∧ s'.polls = s.polls := by
  unfold send_block at h
  simp only [] at h
  split at h
  · exact absurd h (by simp)
  · rename_i r hr
    injection h with h
    subst h
    have h0 : (send_command 0 address (size % 65536) s).timeout = true ∧
        (send_command 0 address (size % 65536) s).polls = s.polls := by
      rw [send_command_eq]; exact send_bytes_fault_keeps _ s hf
    have h1 := send_block_loop_inv _ (fun t => t.timeout = true ∧ t.polls = s.polls)
      (fun t ht => by
        show (USB_tasks t).timeout = true ∧ (USB_tasks t).polls = s.polls
        rw [USB_tasks_proj State.timeout (fun _ _ _ => rfl),
          USB_tasks_proj State.polls (fun _ _ _ => rfl)]
        exact ht)
      (fun t ht => by
        show (CDC_Device_ReceiveByte t).2.timeout = true ∧
          (CDC_Device_ReceiveByte t).2.polls = s.polls
        rw [CDC_Device_ReceiveByte_proj State.timeout (fun _ _ _ => rfl),
          CDC_Device_ReceiveByte_proj State.polls (fun _ _ _ => rfl)]
        exact ht)
      (fun b t ht => by
        have := send_byte_fault_keeps b t ht.1
        exact ⟨this.1, by rw [this.2]; exact ht.2⟩)
      _ _ _ _ r h0 hr
    have h2 := send_byte_fault_keeps r.1 r.2 h1.1
    exact ⟨h2.1, by rw [h2.2, h1.2]⟩

theorem Extends_send_block (address size : Nat) (s s' : State)
    (h : send_block address size s = some s') : Extends s s' := by
  obtain ⟨P, hP, _⟩ := send_block_some address size s s' h
  exact ⟨fun hf => (send_block_fault address size s s' hf h).1, _, hP, not_mem_sendEvents _ _⟩

section UnfoldingRead

attribute [local irreducible] send_command send_command0 receive_block send_feedback
  send_feedback_err

theorem read_sram_loop_succ (k address ec : Nat) (s : State) :
    read_sram_loop (k + 1) address ec s =
      (if (receive_block 0x2000 BLOCK_SIZE (send_command 5 address 0 s)).2.timeout then
        (true,
          (ec + (if (receive_block 0x2000 BLOCK_SIZE (send_command 5 address 0 s)).1
            then 1 else 0)) % 256,
          (receive_block 0x2000 BLOCK_SIZE (send_command 5 address 0 s)).2)
      else
        read_sram_loop k ((address + 1) % 65536)
          ((ec + (if (receive_block 0x2000 BLOCK_SIZE (send_command 5 address 0 s)).1
            then 1 else 0)) % 256)
          (receive_block 0x2000 BLOCK_SIZE (send_command 5 address 0 s)).2) := rfl

theorem read_sram_loop_zero (address ec : Nat) (s : State) :
    read_sram_loop 0 address ec s = (false, ec, s) := rfl

theorem read_sram_unfold (s : State) :
    read_sram s =
      (if (read_sram_loop 4 0x100 0
          (send_command0 0xC008 0 (send_command0 0xE00D 0 (send_command 5 0 0 s)))).1 then
        (read_sram_loop 4 0x100 0
          (send_command0 0xC008 0 (send_command0 0xE00D 0 (send_command 5 0 0 s)))).2.2
      else if (read_sram_loop 4 0x100 0
          (send_command0 0xC008 0 (send_command0 0xE00D 0 (send_command 5 0 0 s)))).2.1 ≠ 0 then
        send_feedback_err (read_sram_loop 4 0x100 0
            (send_command0 0xC008 0 (send_command0 0xE00D 0 (send_command 5 0 0 s)))).2.1
          (CDC_Device_Flush (read_sram_loop 4 0x100 0
            (send_command0 0xC008 0 (send_command0 0xE00D 0 (send_command 5 0 0 s)))).2.2)
      else
        send_feedback "*#*#*#*OK\n" (CDC_Device_Flush (read_sram_loop 4 0x100 0
          (send_command0 0xC008 0 (send_command0 0xE00D 0 (send_command 5 0 0 s)))).2.2)) :=
  rfl

end UnfoldingRead

theorem CDC_Device_Flush_eq (s : State) : CDC_Device_Flush s = s := rfl

/-- The body of `read_sram` after its loop, on the result of the loop. -/
theorem read_sram_eq (s : State) :
    read_sram s =
      (if (read_sram_loop 4 0x100 0
          (send_command0 0xC008 0 (send_command0 0xE00D 0 (send_command 5 0 0 s)))).1 then
        (read_sram_loop 4 0x100 0
          (send_command0 0xC008 0 (send_command0 0xE00D 0 (send_command 5 0 0 s)))).2.2
      else if (read_sram_loop 4 0x100 0
          (send_command0 0xC008 0 (send_command0 0xE00D 0 (send_command 5 0 0 s)))).2.1 ≠ 0 then
        send_feedback_err (read_sram_loop 4 0x100 0
            (send_command0 0xC008 0 (send_command0 0xE00D 0 (send_command 5 0 0 s)))).2.1
          (read_sram_loop 4 0x100 0
            (send_command0 0xC008 0 (send_command0 0xE00D 0 (send_command 5 0 0 s)))).2.2
      else
        send_feedback "*#*#*#*OK\n" (read_sram_loop 4 0x100 0
          (send_command0 0xC008 0 (send_command0 0xE00D 0 (send_command 5 0 0 s)))).2.2) := by
  rw [read_sram_unfold, CDC_Device_Flush_eq]

/-! ## Receiving, whatever the peripheral does -/

theorem invert_strobe_timeout (s : State) : (invert_strobe s).timeout = s.timeout := rfl

theorem read_status_timeout (s : State) : (read_status s).2.timeout = s.timeout := rfl

theorem receive_byte_fault (s : State) (h : s.timeout = true) :
    (receive_byte s).2.timeout = true := by
  have h1 : wait_busy_bit false 3 s = s := wait_busy_bit_fault false 3 s h
  have h2 : wait_busy_bit false 3 (invert_strobe (read_status s).2) =
      invert_strobe (read_status s).2 :=
    wait_busy_bit_fault false 3 _ (by rw [invert_strobe_timeout, read_status_timeout]; exact h)
  unfold receive_byte
  simp only [h1, h2]
  rw [invert_strobe_timeout, read_status_timeout, invert_strobe_timeout, read_status_timeout]
  exact h

theorem Extends_receive_byte (s : State) : Extends s (receive_byte s).2 :=
  Extends_intro (receive_byte_fault s) [Event.strobe, Event.strobe] (receive_byte_trace s)
    (by simp)

theorem Extends_receive_block_loop (k : Nat) :
    ∀ (ck : Nat) (s : State), Extends s (receive_block_loop k ck s).2 := by
  induction k with
  | zero => intro ck s; exact Extends_refl s
  | succ n ih =>
    intro ck s
    rw [receive_block_loop_succ]
    refine Extends_trans (Extends_trans (Extends_receive_byte s) ?_) (ih _ _)
    exact Extends_intro (fun h => h) [Event.usb (receive_byte s).1] rfl (by simp)

theorem Extends_receive_block (address len : Nat) (s : State) :
    Extends s (receive_block address len s).2 := by
  unfold receive_block
  exact Extends_trans (Extends_send_command _ _ _ s)
    (Extends_trans (Extends_receive_block_loop _ _ _) (Extends_receive_byte _))

theorem Extends_read_sram_loop (k : Nat) :
    ∀ (address ec : Nat) (s : State), Extends s (read_sram_loop k address ec s).2.2 := by
  induction k with
  | zero => intro address ec s; rw [read_sram_loop_zero]; exact Extends_refl s
  | succ n ih =>
    intro address ec s
    have hstep : Extends s (receive_block 0x2000 BLOCK_SIZE (send_command 5 address 0 s)).2 :=
      Extends_trans (Extends_send_command _ _ _ s) (Extends_receive_block _ _ _)
    rw [read_sram_loop_succ]
    split
    · exact hstep
    · exact Extends_trans hstep (ih _ _ _)

theorem Extends_read_sram (s : State) : Extends s (read_sram s) := by
  have hh : Extends s (send_command0 0xC008 0 (send_command0 0xE00D 0 (send_command 5 0 0 s))) :=
    Extends_trans (Extends_send_command _ _ _ s)
      (Extends_trans (Extends_send_command0 _ _ _) (Extends_send_command0 _ _ _))
  have hl := Extends_read_sram_loop 4 0x100 0
    (send_command0 0xC008 0 (send_command0 0xE00D 0 (send_command 5 0 0 s)))
  rw [read_sram_eq]
  split
  · exact Extends_trans hh hl
  · split
    · exact Extends_trans hh (Extends_trans hl (Extends_send_feedback_err _ _))
    · exact Extends_trans hh (Extends_trans hl (Extends_send_feedback _ _ (by decide)))

/-! ## The writers, whatever the peripheral and the host do -/

theorem Extends_write_rom_loop (total : Nat) :
    ∀ (fuel block address : Nat) (s : State) (r : Bool × Nat × State),
      write_rom_loop total fuel block address s = some r → Extends s r.2.2 := by
  intro fuel
  induction fuel with
  | zero =>
    intro block address s r h
    rw [write_rom_loop_zero] at h
    split at h
    · exact absurd h (by simp)
    · injection h with h
      subst h
      exact Extends_refl s
  | succ f ih =>
    intro block address s r h
    rw [write_rom_loop_succ] at h
    split at h
    · split at h
      · exact absurd h (by simp)
      · rename_i t ht
        have hstep : Extends s t :=
          Extends_trans (Extends_send_command0 _ _ s)
            (Extends_trans (Extends_send_command _ _ _ _) (Extends_send_block _ _ _ _ ht))
        split at h
        · injection h with h
          subst h
          exact hstep
        · exact Extends_trans hstep (ih _ _ _ r h)
    · injection h with h
      subst h
      exact Extends_refl s

theorem Extends_write_rom (total_blocks emu_mode_select : Nat) (s s' : State)
    (h : write_rom total_blocks emu_mode_select s = some s') : Extends s s' := by
  rw [write_rom_eq] at h
  split at h
  · exact absurd h (by simp)
  · rename_i x t hl
    injection h with h
    subst h
    exact Extends_write_rom_loop _ _ _ _ _ _ hl
  · rename_i block t hl
    injection h with h
    subst h
    have h1 : Extends s t := Extends_write_rom_loop _ _ _ _ _ _ hl
    have h2 : Extends t (if block > 0x200 then send_command0 0xC010 1 t else t) := by
      split
      · exact Extends_send_command0 _ _ _
      · exact Extends_refl t
    exact Extends_trans h1 (Extends_trans h2 (Extends_trans (Extends_send_command _ _ _ _)
      (Extends_trans (Extends_send_command _ _ _ _)
        (Extends_trans (Extends_send_command _ _ _ _)
          (Extends_send_feedback _ _ (by decide))))))

theorem Extends_write_sram_loop (blocks last : Nat) :
    ∀ (fuel block block_size address : Nat) (s : State) (r : Bool × State),
      write_sram_loop blocks last fuel block block_size address s = some r → Extends s r.2 := by
  intro fuel
  induction fuel with
  | zero =>
    intro block block_size address s r h
    rw [write_sram_loop_zero] at h
    split at h
    · exact absurd h (by simp)
    · injection h with h
      subst h
      exact Extends_refl s
  | succ f ih =>
    intro block block_size address s r h
    rw [write_sram_loop_succ] at h
    split at h
    · split at h
      · exact absurd h (by simp)
      · rename_i t ht
        have hstep : Extends s t :=
          Extends_trans (Extends_send_command _ _ _ s) (Extends_send_block _ _ _ _ ht)
        split at h
        · injection h with h
          subst h
          exact hstep
        · exact Extends_trans hstep (ih _ _ _ _ r h)
    · injection h with h
      subst h
      exact Extends_refl s

theorem Extends_write_sram (total_bytes : Nat) (s s' : State)
    (h : write_sram total_bytes s = some s') : Extends s s' := by
  have hh : Extends s (send_command0 0xC008 0 (send_command0 0xE00D 0 (send_command 5 0 0 s))) :=
    Extends_trans (Extends_send_command _ _ _ s)
      (Extends_trans (Extends_send_command0 _ _ _) (Extends_send_command0 _ _ _))
  rw [write_sram_eq] at h
  split at h
  · exact absurd h (by simp)
  · rename_i t hl
    rw [← Option.some.inj h]
    have h3 := Extends_write_sram_loop _ _ _ _ _ _ _ _ hl
    exact Extends_trans hh h3
  · rename_i t hl
    rw [← Option.some.inj h]
    have h3 := Extends_write_sram_loop _ _ _ _ _ _ _ _ hl
    exact Extends_trans hh (Extends_trans h3 (Extends_send_feedback _ _ (by decide)))

theorem Extends_cdc (len : Nat) (s : State) (r : List Nat × State)
    (h : cdc_device_receive_bytes len s = some r) : Extends s r.2 :=
  Extends_of_eq (cdc_device_receive_bytes_frame len s r h).1
    (cdc_device_receive_bytes_frame len s r h).2.1

/-- Whatever command is dispatched, the operation keeps a raised fault flag
raised and never logs the line `TIMEOUT\n`. -/
theorem Extends_dispatch (command : List Nat) (s s' : State)
    (h : dispatch command s = some s') : Extends s s' := by
  rw [dispatch_eq] at h
  split at h
  · split at h
    · exact absurd h (by simp)
    · rename_i arguments t hr
      exact Extends_trans (Extends_cdc 3 s (arguments, t) hr) (Extends_write_rom _ _ _ _ h)
  · split at h
    · injection h with h
      subst h
      exact Extends_read_sram s
    · split at h
      · split at h
        · exact absurd h (by simp)
        · rename_i arguments t hr
          exact Extends_trans (Extends_cdc 2 s (arguments, t) hr) (Extends_write_sram _ _ _ h)
      · injection h with h
        subst h
        exact Extends_send_feedback _ _ (by decide)

/-! ## The dispatcher and the fault flag -/

/-- The shape of a completed iteration of `main`: the command is read, the
operation runs, the ports are released, a raised flag is reported and
cleared, and what follows touches the host buffers only. -/
theorem main_iteration_some (s s' : State) (h : main_iteration s = some s') :
    ∃ (cmd : List Nat) (s1 s2 : State) (b : List Nat) (n : List (List Nat)),
      cdc_device_receive_bytes COMMAND_LEN s = some (cmd, s1) ∧
      dispatch (cmd.set (COMMAND_LEN - 1) 0) (activate_ports s1) = some s2 ∧
      s' = { (if (deactivate_ports s2).timeout
              then { send_feedback "TIMEOUT\n" (deactivate_ports s2) with timeout := false }
              else deactivate_ports s2) with rxbuf := b, rxnext := n } := by
  rw [main_iteration_eq] at h
  split at h
  · exact absurd h (by simp)
  · rename_i cmd s1 h1
    split at h
    · exact absurd h (by simp)
    · rename_i s2 h2
      obtain ⟨b, n, r⟩ := drain_and_pump
        (if (deactivate_ports s2).timeout
          then { send_feedback "TIMEOUT\n" (deactivate_ports s2) with timeout := false }
          else deactivate_ports s2)
      rw [r] at h
      exact ⟨cmd, s1, s2, b, n, h1, h2, (Option.some.inj h).symm⟩

theorem timeoutReports_append_one (t : List Event) :
    timeoutReports (t ++ [Event.feedback "TIMEOUT\n"]) = timeoutReports t + 1 := by
  unfold timeoutReports
  rw [List.count_append]
  rfl

/-- A completed iteration ends with the flag clear, and logs `TIMEOUT\n`
once when the operation left the flag raised, not at all otherwise. -/
theorem main_iteration_flag (s s' : State) (h : main_iteration s = some s') :
    s'.timeout = false ∧
    ∃ (cmd : List Nat) (s1 s2 : State),
      cdc_device_receive_bytes COMMAND_LEN s = some (cmd, s1) ∧
      (activate_ports s1).timeout = s.timeout ∧
      dispatch (cmd.set (COMMAND_LEN - 1) 0) (activate_ports s1) = some s2 ∧
      timeoutReports s2.trace = timeoutReports s.trace ∧
      s'.trace = s2.trace ++ (if s2.timeout then [Event.feedback "TIMEOUT\n"] else []) ∧
      timeoutReports s'.trace = timeoutReports s.trace + (if s2.timeout then 1 else 0) := by
  obtain ⟨cmd, s1, s2, b, n, h1, h2, h3⟩ := main_iteration_some s s' h
  have hf := cdc_device_receive_bytes_frame COMMAND_LEN s (cmd, s1) h1
  have hr : timeoutReports s2.trace = timeoutReports s.trace := by
    rw [Extends_reports (Extends_dispatch _ _ _ h2)]
    show timeoutReports s1.trace = _
    rw [hf.2.1]
  by_cases ht : s2.timeout = true
  · have hd : (deactivate_ports s2).timeout = true := ht
    rw [if_pos hd] at h3
    have htr : s'.trace = s2.trace ++ [Event.feedback "TIMEOUT\n"] := by rw [h3]; rfl
    refine ⟨by rw [h3], cmd, s1, s2, h1, hf.1, h2, hr, ?_, ?_⟩
    · rw [if_pos ht]; exact htr
    · rw [if_pos ht, htr, timeoutReports_append_one, hr]
  · have hd : ¬ (deactivate_ports s2).timeout = true := ht
    rw [if_neg hd] at h3
    have htr : s'.trace = s2.trace := by rw [h3]; rfl
    refine ⟨?_, cmd, s1, s2, h1, hf.1, h2, hr, ?_, ?_⟩
    · rw [h3]
      show s2.timeout = false
      simpa using ht
    · rw [if_neg ht, List.append_nil]; exact htr
    · rw [if_neg ht, htr, hr, Nat.add_zero]

theorem main_loop_flag :
    ∀ (n : Nat) (t t' : State), t.timeout = false → main_loop n t = some t' →
      t'.timeout = false := by
  intro n
  induction n with
  | zero =>
    intro t t' h0 h
    rw [main_loop] at h
    rw [← Option.some.inj h]; exact h0
  | succ k ih =>
    intro t t' _ h
    rw [main_loop] at h
    split at h
    · exact absurd h (by simp)
    · rename_i u hu
      exact ih u t' (main_iteration_flag t u hu).1 h

theorem send_step_timeout (b : Nat) (s : State) :
    (invert_strobe (write_data b s)).timeout = s.timeout := rfl

theorem send_step_polls (b : Nat) (s : State) :
    (invert_strobe (write_data b s)).polls = s.polls := rfl

/-- The first byte sent to a peripheral that never shows busy: its first wait
uses up `POLL_MAX` polls and raises the flag, its second wait is skipped. -/
theorem send_byte_never (b : Nat) (s : State) (h : s.timeout = false)
    (hn : ∀ k, busyAt s k = false) :
    (send_byte b s).timeout = true ∧ (send_byte b s).polls = s.polls + POLL_MAX := by
  obtain ⟨w1, w2⟩ := wait_busy_bit_never true 0 s (by decide) h (fun k => by rw [hn k]; decide)
  have h3 : (invert_strobe (write_data (b % 256) (wait_busy_bit true 0 s))).timeout = true := by
    rw [send_step_timeout]; exact w1
  have e : send_byte b s =
      wait_busy_bit true 0 (invert_strobe (write_data (b % 256) (wait_busy_bit true 0 s))) := rfl
  rw [e, wait_busy_bit_fault true 0 _ h3, send_step_timeout, send_step_polls]
  exact ⟨w1, w2⟩

theorem send_bytes_never (b : Nat) (bs : List Nat) (s : State) (h : s.timeout = false)
    (hn : ∀ k, busyAt s k = false) :
    (send_bytes (b :: bs) s).timeout = true ∧
      (send_bytes (b :: bs) s).polls = s.polls + POLL_MAX := by
  obtain ⟨h1, h2⟩ := send_byte_never b s h hn
  obtain ⟨h3, h4⟩ := send_bytes_fault_keeps bs (send_byte b s) h1
  rw [send_bytes_cons]
  exact ⟨h3, by rw [h4, h2]⟩

theorem send_command_never (op addr len : Nat) (s : State) (h : s.timeout = false)
    (hn : ∀ k, busyAt s k = false) :
    (send_command op addr len s).timeout = true ∧
      (send_command op addr len s).polls = s.polls + POLL_MAX := by
  rw [send_command_eq]
  exact send_bytes_never _ _ s h hn

theorem send_command_fault_keeps (op addr len : Nat) (s : State) (h : s.timeout = true) :
    (send_command op addr len s).timeout = true ∧ (send_command op addr len s).polls = s.polls := by
  rw [send_command_eq]
  exact send_bytes_fault_keeps _ s h

theorem send_command0_fault_keeps (addr b : Nat) (s : State) (h : s.timeout = true) :
    (send_command0 addr b s).timeout = true ∧ (send_command0 addr b s).polls = s.polls := by
  obtain ⟨h1, h2⟩ := send_command_fault_keeps 0 addr 1 s h
  obtain ⟨h3, h4⟩ := send_bytes_fault_keeps [b, 0x81 ^^^ (b % 256)] _ h1
  rw [send_command0_eq]
  exact ⟨h3, by rw [h4, h2]⟩

theorem send_command0_never (addr b : Nat) (s : State) (h : s.timeout = false)
    (hn : ∀ k, busyAt s k = false) :
    (send_command0 addr b s).timeout = true ∧
      (send_command0 addr b s).polls = s.polls + POLL_MAX := by
  obtain ⟨h1, h2⟩ := send_command_never 0 addr 1 s h hn
  obtain ⟨h3, h4⟩ := send_bytes_fault_keeps [b, 0x81 ^^^ (b % 256)] _ h1
  rw [send_command0_eq]
  exact ⟨h3, by rw [h4, h2]⟩

/-- An iteration of `main` whose command read and operation return. -/
theorem main_iteration_run (s s1 s2 : State) (cmd : List Nat)
    (h1 : cdc_device_receive_bytes COMMAND_LEN s = some (cmd, s1))
    (h2 : dispatch (cmd.set (COMMAND_LEN - 1) 0) (activate_ports s1) = some s2) :
    ∃ (b : List Nat) (n : List (List Nat)),
      main_iteration s =
        some { (if (deactivate_ports s2).timeout
              then { send_feedback "TIMEOUT\n" (deactivate_ports s2) with timeout := false }
              else deactivate_ports s2) with rxbuf := b, rxnext := n } := by
  obtain ⟨b, n, r⟩ := drain_and_pump
    (if (deactivate_ports s2).timeout
      then { send_feedback "TIMEOUT\n" (deactivate_ports s2) with timeout := false }
      else deactivate_ports s2)
  refine ⟨b, n, ?_⟩
  rw [main_iteration_eq, h1]
  simp only []
  rw [h2]
  exact r

/-- The header of `write_sram` and `read_sram`. -/
theorem sram_header_never (s : State) (h : s.timeout = false) (hn : ∀ k, busyAt s k = false) :
    (send_command0 0xC008 0 (send_command0 0xE00D 0 (send_command 5 0 0 s))).timeout = true ∧
      (send_command0 0xC008 0 (send_command0 0xE00D 0 (send_command 5 0 0 s))).polls =
        s.polls + POLL_MAX := by
  obtain ⟨h1, h2⟩ := send_command_never 5 0 0 s h hn
  obtain ⟨h3, h4⟩ := send_command0_fault_keeps 0xE00D 0 _ h1
  obtain ⟨h5, h6⟩ := send_command0_fault_keeps 0xC008 0 _ h3
  exact ⟨h5, by rw [h6, h4, h2]⟩

theorem sram_header_trace (s : State) :
    (send_command0 0xC008 0 (send_command0 0xE00D 0 (send_command 5 0 0 s))).trace =
      s.trace ++ sendEvents (commandBytes 5 0 0 ++ command0Bytes 0xE00D 0 ++
        command0Bytes 0xC008 0) := by
  rw [send_command0_trace, send_command0_trace, send_command_trace]
  simp only [sendEvents_append, List.append_assoc]

theorem send_feedback_polls (msg : String) (s : State) :
    (send_feedback msg s).polls = s.polls := rfl

/-- `write_sram(0)` against a peripheral that never shows busy: the header
raises the flag, no block is sent, and the function reports `OK\n`. -/
theorem write_sram_zero_never (s : State) (h : s.timeout = false)
    (hn : ∀ k, busyAt s k = false) :
    ∃ s', write_sram 0 s = some s' ∧ s'.timeout = true ∧ s'.polls = s.polls + POLL_MAX ∧
      s'.trace = s.trace ++ sendEvents (commandBytes 5 0 0 ++ command0Bytes 0xE00D 0 ++
        command0Bytes 0xC008 0) ++ [Event.feedback "OK\n"] := by
  obtain ⟨h1, h2⟩ := sram_header_never s h hn
  refine ⟨send_feedback "OK\n"
    (send_command0 0xC008 0 (send_command0 0xE00D 0 (send_command 5 0 0 s))), ?_, ?_, ?_, ?_⟩
  · rw [write_sram_eq]
    have e : (if (0 % 65536) % BLOCK_SIZE ≠ 0
        then ((0 % 65536) / BLOCK_SIZE % 256 + 1) % 256
        else (0 % 65536) / BLOCK_SIZE % 256) = 0 := by decide
    rw [e, write_sram_loop_zero]
    rfl
  · rw [send_feedback_timeout]; exact h1
  · rw [send_feedback_polls]; exact h2
  · rw [send_feedback_trace, sram_header_trace]

/-- An iteration of `main` for `WRITE SRAM` with a byte count of zero, against
a peripheral that never shows busy. -/
theorem main_iteration_write_sram_zero_never (s : State) (more : List Nat)
    (h : s.timeout = false) (hn : ∀ k, busyAt s k = false)
    (hhost : hostBytes s = literal "WRITE SRAM" ++ [0] ++ [0x00, 0x00] ++ more) :
    ∃ s', main_iteration s = some s' ∧
      s'.trace = s.trace ++ sendEvents (commandBytes 5 0 0 ++ command0Bytes 0xE00D 0 ++
        command0Bytes 0xC008 0) ++ [Event.feedback "OK\n", Event.feedback "TIMEOUT\n"] ∧
      s'.timeout = false ∧ s'.polls = s.polls + POLL_MAX := by
  rw [literal_write_sram] at hhost
  -- the command token
  obtain ⟨b1, n1, r1, e1⟩ := cdc_device_receive_bytes_spec COMMAND_LEN s (by norm_num)
    (by
      rw [hhost]
      simp only [List.length_append, List.length_cons, List.length_nil]
      show 11 ≤ _
      omega)
  rw [hhost] at r1 e1
  have t1 : asBytes (List.take COMMAND_LEN
      ([87, 82, 73, 84, 69, 32, 83, 82, 65, 77] ++ [0] ++ [0x00, 0x00] ++ more)) =
        [87, 82, 73, 84, 69, 32, 83, 82, 65, 77, 0] := rfl
  have d1 : List.drop COMMAND_LEN
      ([87, 82, 73, 84, 69, 32, 83, 82, 65, 77] ++ [0] ++ [0x00, 0x00] ++ more) =
        [0x00, 0x00] ++ more := rfl
  rw [t1] at r1
  rw [d1] at e1
  -- the argument
  have hb2 : hostBytes (activate_ports { s with rxbuf := b1, rxnext := n1 }) =
      [0x00, 0x00] ++ more := e1
  obtain ⟨b2, n2, r2, _⟩ := cdc_device_receive_bytes_spec 2
    (activate_ports { s with rxbuf := b1, rxnext := n1 }) (by norm_num) (by rw [hb2]; simp)
  rw [hb2] at r2
  have t2 : asBytes (List.take 2 ([0x00, 0x00] ++ more)) = [0, 0] := rfl
  rw [t2] at r2
  -- the operation
  obtain ⟨s3, q1, q2, q3, q4⟩ := write_sram_zero_never
    { activate_ports { s with rxbuf := b1, rxnext := n1 } with rxbuf := b2, rxnext := n2 }
    h hn
  have hdisp : dispatch (List.set [87, 82, 73, 84, 69, 32, 83, 82, 65, 77, 0] (COMMAND_LEN - 1) 0)
      (activate_ports { s with rxbuf := b1, rxnext := n1 }) = some s3 := by
    have hcmd : List.set [87, 82, 73, 84, 69, 32, 83, 82, 65, 77, 0] (COMMAND_LEN - 1) 0 =
        [87, 82, 73, 84, 69, 32, 83, 82, 65, 77, 0] := rfl
    have hs1 : strcmp_eq [87, 82, 73, 84, 69, 32, 83, 82, 65, 77, 0] "WRITE ROM" = false := by
      decide
    have hs2 : strcmp_eq [87, 82, 73, 84, 69, 32, 83, 82, 65, 77, 0] "READ SRAM" = false := by
      decide
    have hs3 : strcmp_eq [87, 82, 73, 84, 69, 32, 83, 82, 65, 77, 0] "WRITE SRAM" = true := by
      decide
    rw [hcmd, dispatch_eq, hs1, hs2, hs3]
    simp only [Bool.false_eq_true, if_false, if_true]
    rw [r2]
    simp only []
    have hargs : (([0, 0] : List Nat).getD 0 0 <<< 8 ||| ([0, 0] : List Nat).getD 1 0)
        % 65536 = 0 := rfl
    rw [hargs]
    exact q1
  -- the end of the iteration
  obtain ⟨b4, n4, r4⟩ := main_iteration_run s _ s3 _ r1 hdisp
  have hd : (deactivate_ports s3).timeout = true := q2
  rw [if_pos hd] at r4
  refine ⟨_, r4, ?_, rfl, ?_⟩
  · show s3.trace ++ [Event.feedback "TIMEOUT\n"] = _
    rw [q4]
    simp only [List.append_assoc]
    rfl
  · show s3.polls = _
    rw [q3]
    rfl

theorem busyAt_silentSramState (k : Nat) : busyAt silentSramState k = false := by
  show decide (((0xFF % 256) ^^^ PARPORT_IBUSY) &&& PARPORT_IBUSY ≠ 0) = false
  decide

/-- C14 at the failing input: the host sends `WRITE SRAM` with a byte count
of zero while the peripheral never shows busy.  The first `send_byte` of the
header uses up its `POLL_MAX` polls and raises the fault flag, no block
follows that would test the flag, `write_sram` reports `OK\n`, and the
dispatcher then reports `TIMEOUT\n`: the host sees `OK\n` followed by
`TIMEOUT\n` for one command. -/
theorem write_sram_ok_after_fault :
    ∃ s', main_iteration silentSramState = some s' ∧
      s'.trace = sendEvents (commandBytes 5 0 0 ++ command0Bytes 0xE00D 0 ++
        command0Bytes 0xC008 0) ++ [Event.feedback "OK\n", Event.feedback "TIMEOUT\n"] ∧
      s'.polls = POLL_MAX := by
  obtain ⟨s', h1, h2, _, h4⟩ := main_iteration_write_sram_zero_never silentSramState [] rfl
    busyAt_silentSramState rfl
  refine ⟨s', h1, ?_, ?_⟩
  · rw [h2]; rfl
  · rw [h4]; rfl

/-! ## Packet lengths across reads from the host -/

theorem hostChunks_USB_tasks (t : State) :
    ∀ c ∈ hostChunks (USB_tasks t), c ∈ hostChunks t := by
  intro c hc
  unfold USB_tasks at hc
  split at hc
  · rename_i p ps hb hn
    simp only [hostChunks, hb, hn] at hc ⊢
    split at hc
    · simp only [if_true]
      exact List.mem_cons_of_mem _ hc
    · simpa using hc
  · exact hc

theorem hostChunks_ReceiveByte (t : State) :
    ∀ c ∈ hostChunks (CDC_Device_ReceiveByte t).2, ∃ d ∈ hostChunks t, c.length ≤ d.length := by
  intro c hc
  unfold CDC_Device_ReceiveByte at hc
  split at hc
  · exact ⟨c, hc, Nat.le_refl _⟩
  · rename_i b rest hb
    simp only [hostChunks, hb] at hc ⊢
    simp only [List.cons_ne_nil, if_false] 
    split at hc
    · exact ⟨c, List.mem_cons_of_mem _ hc, Nat.le_refl _⟩
    · rcases List.mem_cons.1 hc with h | h
      · exact ⟨b :: rest, List.mem_cons_self _ _, by rw [h]; simp⟩
      · exact ⟨c, List.mem_cons_of_mem _ h, Nat.le_refl _⟩

/-- A bound on the length of the pending packets survives a read from the
host. -/
theorem cdc_device_receive_bytes_chunks (len L : Nat) (s : State) (r : List Nat × State)
    (hq : ∀ c ∈ hostChunks s, c.length ≤ L)
    (h : cdc_device_receive_bytes len s = some r) :
    ∀ c ∈ hostChunks r.2, c.length ≤ L := by
  refine cdc_device_receive_bytes_inv len (fun t => ∀ c ∈ hostChunks t, c.length ≤ L)
    ?_ ?_ s r hq h
  · intro t ht c hc
    exact ht c (hostChunks_USB_tasks t c hc)
  · intro t ht c hc
    obtain ⟨d, hd, hl⟩ := hostChunks_ReceiveByte t c hc
    exact Nat.le_trans hl (ht d hd)

/-! ## Scenario 5: a peripheral that does not answer during `WRITE ROM` -/

theorem hostBytes_send_command0 (addr b : Nat) (s : State) :
    hostBytes (send_command0 addr b s) = hostBytes s := by
  rw [← hostChunks_flatten, ← hostChunks_flatten, hostChunks_send_command0]

/-- `write_rom` for one block or more against a peripheral that never shows
busy, the host delivering the first block: the first `send_byte` raises the
flag after `POLL_MAX` polls, the first block goes out unpolled, and the
function returns from inside its loop, without `OK\n`. -/
theorem write_rom_never (N m : Nat) (s : State) (hN1 : 1 ≤ N) (hN : N < 65536)
    (h : s.timeout = false) (hn : ∀ k, busyAt s k = false)
    (hlen : 8192 ≤ (hostBytes s).length)
    (hch : ∀ c ∈ hostChunks s, c.length + 8192 < 65536) :
    ∃ (s' : State) (P : List Nat), write_rom N m s = some s' ∧ s'.timeout = true ∧
      s'.polls = s.polls + POLL_MAX ∧
      s'.trace = s.trace ++ sendEvents (command0Bytes 0xC010 0 ++ commandBytes 5 0x200 0 ++
        blockBytes 0x8000 8192 (asBytes P)) ∧
      hostBytes s = P ++ hostBytes s' := by
  obtain ⟨a1, a2⟩ := send_command0_never 0xC010 (0 >>> 9) s h hn
  obtain ⟨b1, b2⟩ := send_command_fault_keeps 5 0x200 0 _ a1
  have hsome := send_block_returns 0x8000 BLOCK_SIZE
    (send_command 5 0x200 0 (send_command0 0xC010 (0 >>> 9) s))
    (by rw [hostBytes_send_command, hostBytes_send_command0]; exact hlen)
    (by rw [hostChunks_send_command, hostChunks_send_command0]; exact hch)
  obtain ⟨t, ht⟩ := Option.isSome_iff_exists.1 hsome
  obtain ⟨c1, c2⟩ := send_block_fault _ _ _ _ b1 ht
  obtain ⟨P, p1, p2⟩ := send_block_some _ _ _ _ ht
  obtain ⟨f, hf⟩ : ∃ f, N = f + 1 := ⟨N - 1, by omega⟩
  refine ⟨t, P, ?_, c1, by rw [c2, b2, a2], ?_, ?_⟩
  · rw [write_rom_eq, Nat.mod_eq_of_lt hN]
    have hl : write_rom_loop N N 0 0x200 s = some (true, 0, t) := by
      rw [hf, write_rom_loop_succ, if_pos (by omega), ht]
      simp only [c1, if_true]
    rw [hl]
  · rw [p1, send_command_trace, send_command0_trace]
    simp only [sendEvents_append, List.append_assoc]
    rfl
  · rw [← p2, hostBytes_send_command, hostBytes_send_command0]

/-- An iteration of `main` for `WRITE ROM` with one block or more, against a
peripheral that never shows busy, the host delivering the first block. -/
theorem main_iteration_write_rom_never (s : State) (hi lo m : Nat) (rest : List Nat)
    (h : s.timeout = false) (hn : ∀ k, busyAt s k = false) (hhi : hi < 256) (hlo : lo < 256)
    (hN : 1 ≤ ((hi <<< 8) ||| lo) % 65536)
    (hhost : hostBytes s = literal "WRITE ROM" ++ [0, 0] ++ [hi, lo, m] ++ rest)
    (hlen : 8192 ≤ rest.length) (hch : ∀ c ∈ hostChunks s, c.length + 8192 < 65536) :
    ∃ (s' : State) (P : List Nat), main_iteration s = some s' ∧
      s'.trace = s.trace ++ sendEvents (command0Bytes 0xC010 0 ++ commandBytes 5 0x200 0 ++
        blockBytes 0x8000 8192 (asBytes P)) ++ [Event.feedback "TIMEOUT\n"] ∧
      s'.timeout = false ∧ s'.polls = s.polls + POLL_MAX ∧ P <+: rest := by
  rw [literal_write_rom] at hhost
  have hch0 : ∀ c ∈ hostChunks s, c.length ≤ 57343 := fun c hc => by
    have := hch c hc; omega
  -- the command token
  obtain ⟨b1, n1, r1, e1⟩ := cdc_device_receive_bytes_spec COMMAND_LEN s (by norm_num)
    (by
      rw [hhost]
      simp only [List.length_append, List.length_cons, List.length_nil]
      show 11 ≤ _
      omega)
  have hch1 := cdc_device_receive_bytes_chunks COMMAND_LEN 57343 s _ hch0 r1
  rw [hhost] at r1 e1
  have t1 : asBytes (List.take COMMAND_LEN
      ([87, 82, 73, 84, 69, 32, 82, 79, 77] ++ [0, 0] ++ [hi, lo, m] ++ rest)) =
        [87, 82, 73, 84, 69, 32, 82, 79, 77, 0, 0] := rfl
  have d1 : List.drop COMMAND_LEN
      ([87, 82, 73, 84, 69, 32, 82, 79, 77] ++ [0, 0] ++ [hi, lo, m] ++ rest) =
        [hi, lo, m] ++ rest := rfl
  rw [t1] at r1
  rw [d1] at e1
  -- the arguments
  have hb2 : hostBytes (activate_ports { s with rxbuf := b1, rxnext := n1 }) =
      [hi, lo, m] ++ rest := e1
  obtain ⟨b2, n2, r2, e2⟩ := cdc_device_receive_bytes_spec 3
    (activate_ports { s with rxbuf := b1, rxnext := n1 }) (by norm_num) (by rw [hb2]; simp)
  have hch2 := cdc_device_receive_bytes_chunks 3 57343
    (activate_ports { s with rxbuf := b1, rxnext := n1 }) _ hch1 r2
  rw [hb2] at r2 e2
  have t2 : asBytes (List.take 3 ([hi, lo, m] ++ rest)) = [hi % 256, lo % 256, m % 256] := rfl
  have d2 : List.drop 3 ([hi, lo, m] ++ rest) = rest := rfl
  rw [t2, Nat.mod_eq_of_lt hhi, Nat.mod_eq_of_lt hlo] at r2
  rw [d2] at e2
  -- the operation
  have hb3 : hostBytes
      { activate_ports { s with rxbuf := b1, rxnext := n1 } with rxbuf := b2, rxnext := n2 }
        = rest := e2
  obtain ⟨s3, P, q1, q2, q3, q4, q5⟩ := write_rom_never (((hi <<< 8) ||| lo) % 65536) (m % 256)
    { activate_ports { s with rxbuf := b1, rxnext := n1 } with rxbuf := b2, rxnext := n2 }
    hN (Nat.mod_lt _ (by norm_num)) h hn (by rw [hb3]; exact hlen)
    (fun c hc => by have := hch2 c hc; omega)
  have hdisp : dispatch (List.set [87, 82, 73, 84, 69, 32, 82, 79, 77, 0, 0] (COMMAND_LEN - 1) 0)
      (activate_ports { s with rxbuf := b1, rxnext := n1 }) = some s3 := by
    have hcmd : List.set [87, 82, 73, 84, 69, 32, 82, 79, 77, 0, 0] (COMMAND_LEN - 1) 0 =
        [87, 82, 73, 84, 69, 32, 82, 79, 77, 0, 0] := rfl
    have hs : strcmp_eq [87, 82, 73, 84, 69, 32, 82, 79, 77, 0, 0] "WRITE ROM" = true := by
      decide
    rw [hcmd, dispatch_eq, if_pos hs, r2]
    exact q1
  -- the end of the iteration
  obtain ⟨b4, n4, r4⟩ := main_iteration_run s _ s3 _ r1 hdisp
  have hd : (deactivate_ports s3).timeout = true := q2
  rw [if_pos hd] at r4
  refine ⟨_, P, r4, ?_, rfl, ?_, ?_⟩
  · show s3.trace ++ [Event.feedback "TIMEOUT\n"] = _
    rw [q4]
    rfl
  · show s3.polls = _
    rw [q3]
    rfl
  · rw [hb3] at q5
    exact ⟨_, q5.symm⟩

theorem busyAt_stuckState (k : Nat) : busyAt stuckState k = false := by
  show decide (((0xFF % 256) ^^^ PARPORT_IBUSY) &&& PARPORT_IBUSY ≠ 0) = false
  decide

theorem hostBytes_stuckState :
    hostBytes stuckState =
      literal "WRITE ROM" ++ [0, 0] ++ [0x00, 0x01, 0x00] ++ List.replicate 8192 0xAA :=
  hostBytes_scenarioState

theorem hostChunks_stuckState : ∀ c ∈ hostChunks stuckState, c.length + 8192 < 65536 := by
  intro c hc
  have e : hostChunks stuckState =
      [[87, 82, 73, 84, 69, 32, 82, 79, 77, 0, 0, 0x00, 0x01, 0x00, 0xAA, 0xAA]] ++
        List.replicate 511 (List.replicate 16 0xAA) ++ [List.replicate 14 0xAA] := rfl
  rw [e] at hc
  simp only [List.mem_append, List.mem_singleton, List.mem_replicate] at hc
  rcases hc with (hc | hc) | hc
  · rw [hc]; decide
  · rw [hc.2, List.length_replicate]; decide
  · rw [hc, List.length_replicate]; decide

theorem receive_block_trace (address len : Nat) (s : State) (hlen : len < 65536) :
    (receive_block address len s).2.trace =
      s.trace ++ sendEvents (commandBytes 1 (address % 65536) len) ++
        forwardEvents ((receive_bytes (len + 1) (send_command 1 address len s)).1.take len) ++
        [Event.strobe, Event.strobe] := by
  obtain ⟨_, _, p3, _⟩ := receive_block_loop_spec len 0x81 (send_command 1 address len s)
    (send_command 1 address len s) (by norm_num) ⟨rfl, rfl, rfl⟩
  obtain ⟨t1, _⟩ := receive_bytes_succ_take len (send_command 1 address len s)
  have hm : len % 65536 = len := Nat.mod_eq_of_lt hlen
  unfold receive_block
  simp only [hm]
  rw [receive_byte_trace, p3, send_command_trace, t1, hm]

theorem receive_block_flag (address len : Nat) (s : State) (hlen : len < 65536) :
    (receive_block address len s).1 =
      decide (xorFold 0x81 ((receive_bytes (len + 1) (send_command 1 address len s)).1.take len)
        ≠ (receive_bytes (len + 1) (send_command 1 address len s)).1.getD len 0) := by
  obtain ⟨p1, _, _, p4⟩ := receive_block_loop_spec len 0x81 (send_command 1 address len s)
    (send_command 1 address len s) (by norm_num) ⟨rfl, rfl, rfl⟩
  obtain ⟨t1, t2⟩ := receive_bytes_succ_take len (send_command 1 address len s)
  obtain ⟨v, _⟩ := receive_byte_link _ _ p4
  have hm : len % 65536 = len := Nat.mod_eq_of_lt hlen
  unfold receive_block
  simp only [hm]
  rw [p1, v, t1, t2]

theorem sramBlocksRead_succ (k address : Nat) (s : State) :
    sramBlocksRead (k + 1) address s =
      (receive_bytes (BLOCK_SIZE + 1)
          (send_command 1 0x2000 BLOCK_SIZE (send_command 5 address 0 s))).1 ::
        sramBlocksRead k ((address + 1) % 65536)
          (receive_block 0x2000 BLOCK_SIZE (send_command 5 address 0 s)).2 := rfl

theorem sramBlocksRead_zero (address : Nat) (s : State) : sramBlocksRead 0 address s = [] := rfl

theorem sramErrors_cons (b : List Nat) (rest : List (List Nat)) :
    sramErrors (b :: rest) =
      (if xorFold 0x81 (b.take BLOCK_SIZE) ≠ b.getD BLOCK_SIZE 0 then 1 else 0) +
        sramErrors rest := by
  unfold sramErrors
  rw [List.filter_cons]
  by_cases h : xorFold 0x81 (b.take BLOCK_SIZE) ≠ b.getD BLOCK_SIZE 0
  · simp only [h, decide_True, if_true, List.length_cons, ne_eq, not_false_eq_true]
    omega
  · simp only [h, decide_False, if_false, Bool.false_eq_true, Nat.zero_add]

theorem sramErrors_le (blocks : List (List Nat)) : sramErrors blocks ≤ blocks.length :=
  List.length_filter_le _ _

theorem sramBlocksRead_length (k : Nat) :
    ∀ (address : Nat) (s : State), (sramBlocksRead k address s).length = k := by
  induction k with
  | zero => intro address s; rfl
  | succ n ih => intro address s; rw [sramBlocksRead_succ, List.length_cons, ih]

theorem sramBlocksRead_sizes (k : Nat) :
    ∀ (address : Nat) (s : State), ∀ b ∈ sramBlocksRead k address s,
      b.length = BLOCK_SIZE + 1 := by
  induction k with
  | zero => intro address s b hb; rw [sramBlocksRead_zero] at hb; exact absurd hb (List.not_mem_nil _)
  | succ n ih =>
    intro address s b hb
    rw [sramBlocksRead_succ] at hb
    rcases List.mem_cons.1 hb with h | h
    · rw [h]; exact receive_bytes_length _ _
    · exact ih _ _ b h

theorem sramReadEvents_cons (address : Nat) (b : List Nat) (rest : List (List Nat)) :
    sramReadEvents address (b :: rest) =
      sendEvents (commandBytes 5 address 0 ++ commandBytes 1 0x2000 BLOCK_SIZE) ++
        forwardEvents (b.take BLOCK_SIZE) ++ [Event.strobe, Event.strobe] ++
        sramReadEvents ((address + 1) % 65536) rest := rfl

/-- One block read of `read_sram`: the log it leaves and the mismatch flag. -/
theorem read_sram_block (address : Nat) (s : State) (ha : address < 65536) :
    (receive_block 0x2000 BLOCK_SIZE (send_command 5 address 0 s)).2.trace =
      s.trace ++ (sendEvents (commandBytes 5 address 0 ++ commandBytes 1 0x2000 BLOCK_SIZE) ++
        forwardEvents ((receive_bytes (BLOCK_SIZE + 1)
          (send_command 1 0x2000 BLOCK_SIZE (send_command 5 address 0 s))).1.take BLOCK_SIZE) ++
        [Event.strobe, Event.strobe]) ∧
    (receive_block 0x2000 BLOCK_SIZE (send_command 5 address 0 s)).1 =
      decide (xorFold 0x81 ((receive_bytes (BLOCK_SIZE + 1)
          (send_command 1 0x2000 BLOCK_SIZE (send_command 5 address 0 s))).1.take BLOCK_SIZE) ≠
        (receive_bytes (BLOCK_SIZE + 1)
          (send_command 1 0x2000 BLOCK_SIZE (send_command 5 address 0 s))).1.getD BLOCK_SIZE 0) := by
  constructor
  · rw [receive_block_trace 0x2000 BLOCK_SIZE _ (by decide), send_command_trace,
      Nat.mod_eq_of_lt ha]
    simp only [sendEvents_append, List.append_assoc]
  · exact receive_block_flag 0x2000 BLOCK_SIZE _ (by decide)

/-- The loop of `read_sram` when it ends with the fault flag clear: it did
not return early, counted the mismatching blocks, and logged every block. -/
theorem read_sram_loop_spec (k : Nat) :
    ∀ (address ec : Nat) (s : State), address < 65536 → ec < 256 →
      (read_sram_loop k address ec s).2.2.timeout = false →
      (read_sram_loop k address ec s).1 = false ∧
      (read_sram_loop k address ec s).2.1 =
        (ec + sramErrors (sramBlocksRead k address s)) % 256 ∧
      (read_sram_loop k address ec s).2.2.trace =
        s.trace ++ sramReadEvents address (sramBlocksRead k address s) := by
  induction k with
  | zero =>
    intro address ec s _ hec _
    rw [read_sram_loop_zero, sramBlocksRead_zero]
    refine ⟨rfl, ?_, by simp [sramReadEvents]⟩
    show ec = (ec + 0) % 256
    omega
  | succ n ih =>
    intro address ec s ha hec h
    obtain ⟨b1, b2⟩ := read_sram_block address s ha
    rw [read_sram_loop_succ] at h ⊢
    by_cases ht : (receive_block 0x2000 BLOCK_SIZE (send_command 5 address 0 s)).2.timeout = true
    · rw [if_pos ht] at h
      rw [ht] at h
      exact absurd h (by decide)
    · rw [if_neg ht] at h ⊢
      obtain ⟨i1, i2, i3⟩ := ih ((address + 1) % 65536) _ _ (Nat.mod_lt _ (by decide))
        (Nat.mod_lt _ (by decide)) h
      refine ⟨i1, ?_, ?_⟩
      · rw [i2, sramBlocksRead_succ, sramErrors_cons, b2]
        simp only [decide_eq_true_eq]
        omega
      · rw [i3, b1, sramBlocksRead_succ, sramReadEvents_cons]
        simp only [List.append_assoc]

theorem usbBytes_sramReadEvents (blocks : List (List Nat)) :
    ∀ address, usbBytes (sramReadEvents address blocks) =
      (blocks.map (fun b => b.take BLOCK_SIZE)).flatten := by
  induction blocks with
  | nil => intro address; rfl
  | cons b rest ih =>
    intro address
    have he : usbBytes [Event.strobe, Event.strobe] = [] := rfl
    rw [sramReadEvents_cons, usbBytes_append, usbBytes_append, usbBytes_append,
      usbBytes_sendEvents, usbBytes_forwardEvents, he, ih, List.map_cons, List.flatten_cons,
      List.nil_append, List.append_nil]

theorem sram_payload_length (blocks : List (List Nat))
    (h : ∀ b ∈ blocks, b.length = BLOCK_SIZE + 1) :
    ((blocks.map (fun b => b.take BLOCK_SIZE)).flatten).length = blocks.length * BLOCK_SIZE := by
  induction blocks with
  | nil => rfl
  | cons b rest ih =>
    have h1 := h b (List.mem_cons_self _ _)
    have h2 := ih (fun c hc => h c (List.mem_cons_of_mem _ hc))
    rw [List.map_cons, List.flatten_cons, List.length_append, h2, List.length_take, h1,
      List.length_cons]
    have hB : BLOCK_SIZE = 8192 := rfl
    rw [hB]
    omega

theorem send_feedback_err_timeout (n : Nat) (s : State) :
    (send_feedback_err n s).timeout = s.timeout := rfl

theorem send_feedback_err_trace (n : Nat) (s : State) :
    (send_feedback_err n s).trace = s.trace ++
      [Event.feedback ("*#*#*ERR" ++
        String.mk ((c_string_at s.dmem 65536 (n % 256)).map Char.ofNat) ++ "\n")] := rfl

/-! ### The data space is not written by `read_sram` -/

theorem wait_busy_bit_dmem (bit : Bool) (pm : Nat) (s : State) :
    (wait_busy_bit bit pm s).dmem = s.dmem :=
  wait_busy_bit_proj State.dmem (fun _ _ => rfl) (fun _ _ => rfl) bit pm s

theorem send_byte_dmem (b : Nat) (s : State) : (send_byte b s).dmem = s.dmem := by
  have e : send_byte b s =
      wait_busy_bit true 0 (invert_strobe (write_data (b % 256) (wait_busy_bit true 0 s))) := rfl
  have e2 : ∀ t : State, (invert_strobe (write_data (b % 256) t)).dmem = t.dmem := fun _ => rfl
  rw [e, wait_busy_bit_dmem, e2, wait_busy_bit_dmem]

theorem send_bytes_dmem (bytes : List Nat) : ∀ s : State, (send_bytes bytes s).dmem = s.dmem := by
  induction bytes with
  | nil => intro s; rfl
  | cons b bs ih => intro s; rw [send_bytes_cons, ih, send_byte_dmem]

theorem send_command_dmem (op addr len : Nat) (s : State) :
    (send_command op addr len s).dmem = s.dmem := by
  rw [send_command_eq, send_bytes_dmem]

theorem send_command0_dmem (addr b : Nat) (s : State) :
    (send_command0 addr b s).dmem = s.dmem := by
  rw [send_command0_eq, send_bytes_dmem, send_command_dmem]

theorem receive_byte_dmem (s : State) : (receive_byte s).2.dmem = s.dmem := by
  have e : (receive_byte s).2 =
      invert_strobe (read_status (wait_busy_bit false 3
        (invert_strobe (read_status (wait_busy_bit false 3 s)).2))).2 := rfl
  have e2 : ∀ t : State, (invert_strobe (read_status t).2).dmem = t.dmem := fun _ => rfl
  rw [e, e2, wait_busy_bit_dmem, e2, wait_busy_bit_dmem]

theorem receive_block_loop_dmem (k : Nat) :
    ∀ (ck : Nat) (s : State), (receive_block_loop k ck s).2.dmem = s.dmem := by
  induction k with
  | zero => intro ck s; rfl
  | succ n ih =>
    intro ck s
    have e : ∀ (l : List Nat) (t : State), (CDC_Device_SendData l t).dmem = t.dmem :=
      fun _ _ => rfl
    rw [receive_block_loop_succ, ih, e, receive_byte_dmem]

theorem receive_block_dmem (address len : Nat) (s : State) :
    (receive_block address len s).2.dmem = s.dmem := by
  have e : (receive_block address len s).2 =
      (receive_byte (receive_block_loop (len % 65536) 0x81
        (send_command 1 address (len % 65536) s)).2).2 := rfl
  rw [e, receive_byte_dmem, receive_block_loop_dmem, send_command_dmem]

theorem read_sram_loop_dmem (k : Nat) :
    ∀ (address ec : Nat) (s : State), (read_sram_loop k address ec s).2.2.dmem = s.dmem := by
  induction k with
  | zero => intro address ec s; rfl
  | succ n ih =>
    intro address ec s
    rw [read_sram_loop_succ]
    split
    · rw [receive_block_dmem, send_command_dmem]
    · rw [ih, receive_block_dmem, send_command_dmem]

/-- A `read_sram` that ends with the fault flag clear: the value of
`error_count` and the log.  The status line for a count that is not zero is
what `%s` makes of the count taken for an address. -/
theorem read_sram_run (s : State) (h : (read_sram s).timeout = false) :
    (read_sram_loop 4 0x100 0
        (send_command0 0xC008 0 (send_command0 0xE00D 0 (send_command 5 0 0 s)))).2.1 =
      sramErrors (sramBlocksRead 4 0x100
        (send_command0 0xC008 0 (send_command0 0xE00D 0 (send_command 5 0 0 s)))) ∧
    (read_sram s).trace =
      s.trace ++ sendEvents (commandBytes 5 0 0 ++ command0Bytes 0xE00D 0 ++
          command0Bytes 0xC008 0) ++
        sramReadEvents 0x100 (sramBlocksRead 4 0x100
          (send_command0 0xC008 0 (send_command0 0xE00D 0 (send_command 5 0 0 s)))) ++
        [if sramErrors (sramBlocksRead 4 0x100
            (send_command0 0xC008 0 (send_command0 0xE00D 0 (send_command 5 0 0 s)))) = 0
          then Event.feedback "*#*#*#*OK\n"
          else Event.feedback ("*#*#*ERR" ++
            String.mk ((c_string_at s.dmem 65536
              (sramErrors (sramBlocksRead 4 0x100
                (send_command0 0xC008 0 (send_command0 0xE00D 0 (send_command 5 0 0 s))))
                % 256)).map Char.ofNat) ++ "\n")] := by
  have hspec := read_sram_loop_spec 4 0x100 0
    (send_command0 0xC008 0 (send_command0 0xE00D 0 (send_command 5 0 0 s)))
    (by decide) (by decide)
  have hle := sramErrors_le (sramBlocksRead 4 0x100
    (send_command0 0xC008 0 (send_command0 0xE00D 0 (send_command 5 0 0 s))))
  rw [sramBlocksRead_length] at hle
  have htr := sram_header_trace s
  have hdm : (read_sram_loop 4 0x100 0
      (send_command0 0xC008 0 (send_command0 0xE00D 0 (send_command 5 0 0 s)))).2.2.dmem =
        s.dmem := by
    rw [read_sram_loop_dmem, send_command0_dmem, send_command0_dmem, send_command_dmem]
  rw [read_sram_eq] at h ⊢
  generalize sramBlocksRead 4 0x100
    (send_command0 0xC008 0 (send_command0 0xE00D 0 (send_command 5 0 0 s))) = blocks
    at hspec hle ⊢
  generalize read_sram_loop 4 0x100 0
    (send_command0 0xC008 0 (send_command0 0xE00D 0 (send_command 5 0 0 s))) = L
    at hspec hdm h ⊢
  have hmod : (0 + sramErrors blocks) % 256 = sramErrors blocks := by omega
  by_cases hL : L.1 = true
  · rw [if_pos hL] at h
    have := (hspec h).1
    rw [hL] at this
    exact absurd this (by decide)
  · rw [if_neg hL] at h ⊢
    by_cases hz : L.2.1 ≠ 0
    · rw [if_pos hz] at h ⊢
      rw [send_feedback_err_timeout] at h
      obtain ⟨_, i2, i3⟩ := hspec h
      rw [hmod] at i2
      rw [i2] at hz
      rw [send_feedback_err_trace, i3, htr, i2, if_neg hz, hdm]
      exact ⟨rfl, rfl⟩
    · rw [if_neg hz] at h ⊢
      rw [send_feedback_timeout] at h
      obtain ⟨_, i2, i3⟩ := hspec h
      rw [hmod] at i2
      rw [i2] at hz
      have hz0 : sramErrors blocks = 0 := by simpa using hz
      rw [send_feedback_trace, i3, htr, i2, if_pos hz0]
      exact ⟨rfl, rfl⟩

/-! ## A peripheral that follows the handshake of `read_sram` -/

theorem send_byte_ready_at (b : Nat) (s : State) (h : s.timeout = false)
    (hb0 : busyAt s s.polls = true) (hb1 : busyAt s (s.polls + 1) = true) :
    (send_byte b s).timeout = false ∧ (send_byte b s).polls = s.polls + 2 := by
  unfold send_byte
  simp only []
  rw [wait_busy_bit_ready s h hb0]
  rw [wait_busy_bit_ready]
  · simp [invert_strobe, flip_led, write_control, write_data, h]
  · simp [invert_strobe, flip_led, write_control, write_data, h]
  · simpa [busyAt, invert_strobe, flip_led, write_control, write_data] using hb1

theorem send_bytes_ready_at (bytes : List Nat) :
    ∀ (s : State), s.timeout = false →
      (∀ j, j < 2 * bytes.length → busyAt s (s.polls + j) = true) →
      (send_bytes bytes s).timeout = false ∧
        (send_bytes bytes s).polls = s.polls + 2 * bytes.length := by
  induction bytes with
  | nil => intro s h _; exact ⟨h, rfl⟩
  | cons b bs ih =>
    intro s h hb
    have hl : (b :: bs).length = bs.length + 1 := rfl
    rw [hl] at hb ⊢
    obtain ⟨h1, h2⟩ := send_byte_ready_at b s h (hb 0 (by omega)) (hb 1 (by omega))
    obtain ⟨h3, h4⟩ := ih (send_byte b s) h1 (fun j hj => by
      rw [busyAt_send_byte, h2, Nat.add_assoc]
      exact hb (2 + j) (by omega))
    rw [send_bytes_cons]
    exact ⟨h3, by rw [h4, h2]; omega⟩

theorem send_command_ready_at (op addr len : Nat) (s : State) (h : s.timeout = false)
    (hb : ∀ j, j < 18 → busyAt s (s.polls + j) = true) :
    (send_command op addr len s).timeout = false ∧
      (send_command op addr len s).polls = s.polls + 18 := by
  rw [send_command_eq]
  exact send_bytes_ready_at _ s h hb

theorem send_command0_ready_at (addr b : Nat) (s : State) (h : s.timeout = false)
    (hb : ∀ j, j < 22 → busyAt s (s.polls + j) = true) :
    (send_command0 addr b s).timeout = false ∧
      (send_command0 addr b s).polls = s.polls + 22 := by
  obtain ⟨h1, h2⟩ := send_command_ready_at 0 addr 1 s h (fun j hj => hb j (by omega))
  obtain ⟨h3, h4⟩ := send_bytes_ready_at [b, 0x81 ^^^ (b % 256)] _ h1 (fun j hj => by
    rw [busyAt_send_command, h2, Nat.add_assoc]
    exact hb (18 + j) (by simp only [List.length_cons, List.length_nil] at hj; omega))
  rw [send_command0_eq]
  exact ⟨h3, by rw [h4, h2]; rfl⟩

/-- A wait for not busy with three polls at least, when the third poll
shows not busy. -/
theorem wait_busy_bit_idle (s : State) (h : s.timeout = false)
    (hb : busyAt s (s.polls + 2) = false) :
    (wait_busy_bit false 3 s).timeout = false ∧ (wait_busy_bit false 3 s).polls = s.polls + 3 := by
  obtain ⟨k, h1, _, h3, _, _, h6, h7⟩ := wait_busy_bit_exit false 3 s (by decide) h
  have hk : k = 3 := by
    by_cases hk3 : k = 3
    · exact hk3
    · have := h6 3 (by decide) (by omega)
      exact absurd hb this
  subst hk
  refine ⟨?_, h3⟩
  cases ht : (wait_busy_bit false 3 s).timeout
  · rfl
  · exact absurd hb (h7.1 ht)

theorem read_status_polls (s : State) : (read_status s).2.polls = s.polls + 1 := rfl

theorem invert_strobe_polls (s : State) : (invert_strobe s).polls = s.polls := rfl

theorem busyAt_invert_strobe (s : State) (k : Nat) : busyAt (invert_strobe s) k = busyAt s k :=
  rfl

theorem busyAt_read_status (s : State) (k : Nat) : busyAt (read_status s).2 k = busyAt s k :=
  rfl

theorem receive_byte_state (s : State) :
    (receive_byte s).2 =
      invert_strobe (read_status (wait_busy_bit false 3
        (invert_strobe (read_status (wait_busy_bit false 3 s)).2))).2 := rfl

theorem busyAt_receive_byte (s : State) (k : Nat) :
    busyAt (receive_byte s).2 k = busyAt s k := by
  rw [receive_byte_state, busyAt_invert_strobe, busyAt_read_status, busyAt_wait,
    busyAt_invert_strobe, busyAt_read_status, busyAt_wait]

/-- A byte received from a peripheral that shows not busy at the third poll
of both waits: eight polls, flag still clear. -/
theorem receive_byte_ready_at (s : State) (h : s.timeout = false)
    (hb2 : busyAt s (s.polls + 2) = false) (hb6 : busyAt s (s.polls + 6) = false) :
    (receive_byte s).2.timeout = false ∧ (receive_byte s).2.polls = s.polls + 8 := by
  obtain ⟨w1, w2⟩ := wait_busy_bit_idle s h hb2
  have h2 : (invert_strobe (read_status (wait_busy_bit false 3 s)).2).timeout = false := by
    rw [invert_strobe_timeout, read_status_timeout]; exact w1
  have p2 : (invert_strobe (read_status (wait_busy_bit false 3 s)).2).polls = s.polls + 4 := by
    rw [invert_strobe_polls, read_status_polls, w2]
  obtain ⟨w3, w4⟩ := wait_busy_bit_idle _ h2 (by
    rw [busyAt_invert_strobe, busyAt_read_status, busyAt_wait, p2]
    exact hb6)
  rw [receive_byte_state, invert_strobe_timeout, read_status_timeout, invert_strobe_polls,
    read_status_polls, w4, p2]
  exact ⟨w3, rfl⟩

theorem CDC_Device_SendData_link (bytes : List Nat) (s : State) :
    (CDC_Device_SendData bytes s).timeout = s.timeout ∧
      (CDC_Device_SendData bytes s).polls = s.polls ∧
      ∀ k, busyAt (CDC_Device_SendData bytes s) k = busyAt s k :=
  ⟨rfl, rfl, fun _ => rfl⟩

theorem receive_block_loop_ready_at (k : Nat) :
    ∀ (ck : Nat) (s : State), s.timeout = false →
      (∀ j, j < 8 * k → busyAt s (s.polls + j) = false) →
      (receive_block_loop k ck s).2.timeout = false ∧
        (receive_block_loop k ck s).2.polls = s.polls + 8 * k ∧
        ∀ i, busyAt (receive_block_loop k ck s).2 i = busyAt s i := by
  induction k with
  | zero => intro ck s h _; exact ⟨h, rfl, fun _ => rfl⟩
  | succ n ih =>
    intro ck s h hb
    obtain ⟨r1, r2⟩ := receive_byte_ready_at s h (hb 2 (by omega)) (hb 6 (by omega))
    obtain ⟨c1, c2, c3⟩ := CDC_Device_SendData_link [(receive_byte s).1] (receive_byte s).2
    obtain ⟨i1, i2, i3⟩ := ih ((ck ^^^ (receive_byte s).1) % 256)
      (CDC_Device_SendData [(receive_byte s).1] (receive_byte s).2) (by rw [c1]; exact r1)
      (fun j hj => by
        rw [c3, busyAt_receive_byte, c2, r2, Nat.add_assoc]
        exact hb (8 + j) (by omega))
    rw [receive_block_loop_succ]
    refine ⟨i1, by rw [i2, c2, r2]; omega, fun i => ?_⟩
    rw [i3, c3, busyAt_receive_byte]

/-- A block received from a peripheral that shows busy during the request
and not busy while it delivers the bytes. -/
theorem receive_block_ready_at (address len : Nat) (s : State) (hlen : len < 65536)
    (h : s.timeout = false)
    (hb : ∀ j, j < 18 → busyAt s (s.polls + j) = true)
    (hr : ∀ j, 18 ≤ j → j < 18 + 8 * (len + 1) → busyAt s (s.polls + j) = false) :
    (receive_block address len s).2.timeout = false ∧
      (receive_block address len s).2.polls = s.polls + 18 + 8 * (len + 1) ∧
      ∀ i, busyAt (receive_block address len s).2 i = busyAt s i := by
  have hm : len % 65536 = len := Nat.mod_eq_of_lt hlen
  obtain ⟨a1, a2⟩ := send_command_ready_at 1 address len s h hb
  obtain ⟨b1, b2, b3⟩ := receive_block_loop_ready_at len 0x81 (send_command 1 address len s) a1
    (fun j hj => by
      rw [busyAt_send_command, a2, Nat.add_assoc]
      exact hr (18 + j) (by omega) (by omega))
  obtain ⟨c1, c2⟩ := receive_byte_ready_at _ b1
    (by
      rw [b3, busyAt_send_command, b2, a2, Nat.add_assoc, Nat.add_assoc]
      exact hr _ (by omega) (by omega))
    (by
      rw [b3, busyAt_send_command, b2, a2, Nat.add_assoc, Nat.add_assoc]
      exact hr _ (by omega) (by omega))
  have e : (receive_block address len s).2 =
      (receive_byte (receive_block_loop len 0x81 (send_command 1 address len s)).2).2 := by
    unfold receive_block
    simp only [hm]
  rw [e]
  refine ⟨c1, by rw [c2, b2, a2]; omega, fun i => ?_⟩
  rw [busyAt_receive_byte, b3, busyAt_send_command]

theorem busyAt_send_command0 (addr b : Nat) (s : State) (k : Nat) :
    busyAt (send_command0 addr b s) k = busyAt s k := by
  rw [send_command0_eq, busyAt_send_bytes, busyAt_send_command]

theorem read_sram_loop_ready_at (k : Nat) :
    ∀ (address ec : Nat) (s : State), s.timeout = false →
      (∀ i, i < k → ∀ j, j < 36 → busyAt s (s.polls + 65580 * i + j) = true) →
      (∀ i, i < k → ∀ j, 36 ≤ j → j < 65580 → busyAt s (s.polls + 65580 * i + j) = false) →
      (read_sram_loop k address ec s).2.2.timeout = false := by
  induction k with
  | zero => intro address ec s h _ _; rw [read_sram_loop_zero]; exact h
  | succ n ih =>
    intro address ec s h hb hr
    have hB : BLOCK_SIZE = 8192 := rfl
    obtain ⟨a1, a2⟩ := send_command_ready_at 5 address 0 s h (fun j hj => by
      have := hb 0 (by omega) j (by omega)
      simpa using this)
    obtain ⟨b1, b2, b3⟩ := receive_block_ready_at 0x2000 BLOCK_SIZE (send_command 5 address 0 s)
      (by decide) a1
      (fun j hj => by
        rw [busyAt_send_command, a2, Nat.add_assoc]
        have := hb 0 (by omega) (18 + j) (by omega)
        simpa using this)
      (fun j hj1 hj2 => by
        rw [busyAt_send_command, a2, Nat.add_assoc]
        have := hr 0 (by omega) (18 + j) (by omega) (by omega)
        simpa using this)
    have b2' : (receive_block 0x2000 BLOCK_SIZE (send_command 5 address 0 s)).2.polls =
        (send_command 5 address 0 s).polls + 18 + 8 * (8192 + 1) := b2
    have hp : (receive_block 0x2000 BLOCK_SIZE (send_command 5 address 0 s)).2.polls =
        s.polls + 65580 := by
      omega
    rw [read_sram_loop_succ, if_neg (by rw [b1]; decide)]
    refine ih _ _ _ b1 (fun i hi j hj => ?_) (fun i hi j hj1 hj2 => ?_)
    · have e : s.polls + 65580 + 65580 * i + j = s.polls + 65580 * (i + 1) + j := by omega
      rw [b3, busyAt_send_command, hp, e]
      exact hb (i + 1) (by omega) j hj
    · have e : s.polls + 65580 + 65580 * i + j = s.polls + 65580 * (i + 1) + j := by omega
      rw [b3, busyAt_send_command, hp, e]
      exact hr (i + 1) (by omega) j hj1 hj2

/-- `read_sram` against a peripheral that shows busy while the header and
the commands of each block are sent and not busy while each block is
received: no wait times out. -/
theorem read_sram_ready_at (s : State) (h : s.timeout = false)
    (hh : ∀ j, j < 62 → busyAt s (s.polls + j) = true)
    (hb : ∀ i, i < 4 → ∀ j, j < 36 → busyAt s (s.polls + 62 + 65580 * i + j) = true)
    (hr : ∀ i, i < 4 → ∀ j, 36 ≤ j → j < 65580 →
      busyAt s (s.polls + 62 + 65580 * i + j) = false) :
    (read_sram s).timeout = false := by
  obtain ⟨a1, a2⟩ := send_command_ready_at 5 0 0 s h (fun j hj => hh j (by omega))
  obtain ⟨b1, b2⟩ := send_command0_ready_at 0xE00D 0 _ a1 (fun j hj => by
    rw [busyAt_send_command, a2, Nat.add_assoc]
    exact hh (18 + j) (by omega))
  obtain ⟨c1, c2⟩ := send_command0_ready_at 0xC008 0 _ b1 (fun j hj => by
    rw [busyAt_send_command0, busyAt_send_command, b2, a2, Nat.add_assoc, Nat.add_assoc]
    exact hh (18 + (22 + j)) (by omega))
  have hp : (send_command0 0xC008 0 (send_command0 0xE00D 0 (send_command 5 0 0 s))).polls =
      s.polls + 62 := by
    rw [c2, b2, a2]
  have hl := read_sram_loop_ready_at 4 0x100 0 _ c1
    (fun i hi j hj => by
      rw [busyAt_send_command0, busyAt_send_command0, busyAt_send_command, hp]
      exact hb i hi j hj)
    (fun i hi j hj1 hj2 => by
      rw [busyAt_send_command0, busyAt_send_command0, busyAt_send_command, hp]
      exact hr i hi j hj1 hj2)
  rw [read_sram_eq]
  split
  · exact hl
  · split
    · rw [send_feedback_err_timeout]; exact hl
    · rw [send_feedback_timeout]; exact hl

theorem busyAt_sramReadState (k : Nat) :
    busyAt sramReadState k = decide (k < 62 ∨ (k - 62) % 65580 < 36) := by
  show decide ((((if k < 62 ∨ (k - 62) % 65580 < 36 then 0x00 else 0x80) % 256) ^^^
    PARPORT_IBUSY) &&& PARPORT_IBUSY ≠ 0) = _
  by_cases hk : k < 62 ∨ (k - 62) % 65580 < 36
  · rw [if_pos hk]
    simp only [hk, decide_True]
    decide
  · rw [if_neg hk]
    simp only [hk, decide_False]
    decide

/-- On `sramReadState` no wait of `read_sram` times out. -/
theorem read_sram_sramReadState : (read_sram sramReadState).timeout = false := by
  refine read_sram_ready_at sramReadState rfl (fun j hj => ?_) (fun i hi j hj => ?_)
    (fun i hi j hj1 hj2 => ?_)
  · rw [busyAt_sramReadState, decide_eq_true_eq]
    have : sramReadState.polls = 0 := rfl
    omega
  · rw [busyAt_sramReadState, decide_eq_true_eq]
    have : sramReadState.polls = 0 := rfl
    right
    omega
  · rw [busyAt_sramReadState, decide_eq_false_iff_not]
    have : sramReadState.polls = 0 := rfl
    omega

/-! ## The status line of `read_sram` after checksum errors -/

theorem receive_byte_fst (s : State) :
    (receive_byte s).1 =
      ((((read_status (wait_busy_bit false 3 s)).1 &&& PARPORT_INPUT_MASK) >>> 3) % 256 |||
        (((read_status (wait_busy_bit false 3
          (invert_strobe (read_status (wait_busy_bit false 3 s)).2))).1 &&&
            PARPORT_INPUT_MASK) <<< 1)) % 256 := rfl

theorem read_status_value (s : State) :
    (read_status s).1 = (s.pinb s.polls % 256) ^^^ PARPORT_IBUSY := rfl

theorem send_command0_pinb (addr b : Nat) (s : State) :
    (send_command0 addr b s).pinb = s.pinb := by
  rw [send_command0_eq, send_bytes_pinb, send_command_pinb]

theorem getD_zeros (n : Nat) : ∀ m, (List.replicate n 0).getD m 0 = 0 := by
  induction n with
  | zero => intro m; rfl
  | succ k ih =>
    intro m
    cases m with
    | zero => rfl
    | succ j => rw [List.replicate_succ, List.getD_cons_succ, ih]

theorem receive_byte_pinb (s : State) : (receive_byte s).2.pinb = s.pinb := by
  have e2 : ∀ t : State, (invert_strobe (read_status t).2).pinb = t.pinb := fun _ => rfl
  rw [receive_byte_state, e2, wait_busy_bit_pinb, e2, wait_busy_bit_pinb]

/-- A peripheral whose nibble lines read zero at every poll delivers the
byte zero. -/
theorem receive_byte_zero (s : State)
    (hz : ∀ k, ((s.pinb k % 256) ^^^ PARPORT_IBUSY) &&& PARPORT_INPUT_MASK = 0) :
    (receive_byte s).1 = 0 := by
  have e2 : ∀ t : State, (invert_strobe (read_status t).2).pinb = t.pinb := fun _ => rfl
  rw [receive_byte_fst, read_status_value, read_status_value, wait_busy_bit_pinb,
    wait_busy_bit_pinb, e2, wait_busy_bit_pinb, hz, hz]
  rfl

theorem receive_bytes_zero (n : Nat) :
    ∀ (s : State), (∀ k, ((s.pinb k % 256) ^^^ PARPORT_IBUSY) &&& PARPORT_INPUT_MASK = 0) →
      (receive_bytes n s).1 = List.replicate n 0 := by
  induction n with
  | zero => intro s _; rfl
  | succ m ih =>
    intro s hz
    have e : (receive_bytes (m + 1) s).1 =
        (receive_byte s).1 :: (receive_bytes m (receive_byte s).2).1 := rfl
    rw [e, receive_byte_zero s hz, ih (receive_byte s).2 (by rw [receive_byte_pinb]; exact hz),
      List.replicate_succ]

theorem receive_block_loop_pinb (k : Nat) :
    ∀ (ck : Nat) (s : State), (receive_block_loop k ck s).2.pinb = s.pinb := by
  induction k with
  | zero => intro ck s; rfl
  | succ n ih =>
    intro ck s
    have e : ∀ (l : List Nat) (t : State), (CDC_Device_SendData l t).pinb = t.pinb :=
      fun _ _ => rfl
    rw [receive_block_loop_succ, ih, e, receive_byte_pinb]

theorem receive_block_pinb (address len : Nat) (s : State) :
    (receive_block address len s).2.pinb = s.pinb := by
  have e : (receive_block address len s).2 =
      (receive_byte (receive_block_loop (len % 65536) 0x81
        (send_command 1 address (len % 65536) s)).2).2 := rfl
  rw [e, receive_byte_pinb, receive_block_loop_pinb, send_command_pinb]

/-- With nibble lines that read zero at every poll, every block read is
`BLOCK_SIZE + 1` zero bytes. -/
theorem sramBlocksRead_zeros (k : Nat) :
    ∀ (address : Nat) (s : State),
      (∀ i, ((s.pinb i % 256) ^^^ PARPORT_IBUSY) &&& PARPORT_INPUT_MASK = 0) →
      sramBlocksRead k address s = List.replicate k (List.replicate (BLOCK_SIZE + 1) 0) := by
  induction k with
  | zero => intro address s _; rfl
  | succ n ih =>
    intro address s hz
    rw [sramBlocksRead_succ, List.replicate_succ,
      receive_bytes_zero _ _ (by rw [send_command_pinb, send_command_pinb]; exact hz),
      ih _ _ (by rw [receive_block_pinb, send_command_pinb]; exact hz)]

theorem xorFold_zeros (seed n : Nat) : xorFold seed (List.replicate n 0) = seed := by
  induction n with
  | zero => rfl
  | succ m ih => rw [List.replicate_succ, xorFold_cons, Nat.xor_zero, ih]

/-- A block of zero bytes fails the checksum: 0x81 XORed with the payload is
0x81, the checksum byte is 0. -/
theorem sramErrors_zeros (k : Nat) :
    sramErrors (List.replicate k (List.replicate (BLOCK_SIZE + 1) 0)) = k := by
  have hne : xorFold 0x81 ((List.replicate (BLOCK_SIZE + 1) 0).take BLOCK_SIZE) ≠
      (List.replicate (BLOCK_SIZE + 1) 0).getD BLOCK_SIZE 0 := by
    rw [List.take_replicate, xorFold_zeros, getD_zeros]
    decide
  induction k with
  | zero => rfl
  | succ n ih => rw [List.replicate_succ, sramErrors_cons, if_pos hne, ih]; omega

theorem c_string_at_nul (mem : Nat → Nat) (fuel address : Nat) (h : mem address % 256 = 0) :
    c_string_at mem fuel address = [] := by
  cases fuel with
  | zero => rfl
  | succ n => rw [c_string_at, if_pos h]

theorem c_string_at_one (mem : Nat → Nat) (fuel address : Nat) (h : mem address % 256 ≠ 0)
    (h1 : mem ((address + 1) % 65536) % 256 = 0) :
    c_string_at mem (fuel + 1) address = [mem address % 256] := by
  rw [c_string_at, if_neg h, c_string_at_nul mem fuel _ h1]

/-- No wait of `read_sram` times out against the peripheral of
`sramReadState`, whatever the data space holds. -/
theorem read_sram_flag_sramRead (s : State) (h1 : s.timeout = false)
    (h2 : s.pinb = sramReadState.pinb) (h3 : s.polls = 0) :
    (read_sram s).timeout = false := by
  have hb : ∀ k, busyAt s k = decide (k < 62 ∨ (k - 62) % 65580 < 36) := by
    intro k
    rw [← busyAt_sramReadState]
    unfold busyAt
    rw [h2]
  refine read_sram_ready_at s h1 (fun j hj => ?_) (fun i hi j hj => ?_)
    (fun i hi j hj1 hj2 => ?_)
  · rw [hb, decide_eq_true_eq]
    omega
  · rw [hb, decide_eq_true_eq]
    right
    omega
  · rw [hb, decide_eq_false_iff_not]
    omega

theorem nibbles_sramReadState (k : Nat) :
    ((sramReadState.pinb k % 256) ^^^ PARPORT_IBUSY) &&& PARPORT_INPUT_MASK = 0 := by
  show (((if k < 62 ∨ (k - 62) % 65580 < 36 then 0x00 else 0x80) % 256) ^^^ PARPORT_IBUSY) &&&
    PARPORT_INPUT_MASK = 0
  split <;> decide

/-- `read_sram` against the peripheral of `sramReadState`, which delivers
zero bytes only: all four blocks fail the checksum, `error_count` is 4, and
the status line is `*#*#*ERR`, the string found at address 4 of the data
space, and a newline. -/
theorem read_sram_four_errors (s : State) (h1 : s.timeout = false)
    (h2 : s.pinb = sramReadState.pinb) (h3 : s.polls = 0) :
    (read_sram s).timeout = false ∧
    (read_sram_loop 4 0x100 0
        (send_command0 0xC008 0 (send_command0 0xE00D 0 (send_command 5 0 0 s)))).2.1 = 4 ∧
    (read_sram s).trace =
      s.trace ++ sendEvents (commandBytes 5 0 0 ++ command0Bytes 0xE00D 0 ++
          command0Bytes 0xC008 0) ++
        sramReadEvents 0x100 (List.replicate 4 (List.replicate (BLOCK_SIZE + 1) 0)) ++
        [Event.feedback ("*#*#*ERR" ++
          String.mk ((c_string_at s.dmem 65536 4).map Char.ofNat) ++ "\n")] := by
  have hf := read_sram_flag_sramRead s h1 h2 h3
  obtain ⟨r1, r2⟩ := read_sram_run s hf
  have hz : ∀ i, (((send_command0 0xC008 0 (send_command0 0xE00D 0
      (send_command 5 0 0 s))).pinb i % 256) ^^^ PARPORT_IBUSY) &&& PARPORT_INPUT_MASK = 0 := by
    intro i
    rw [send_command0_pinb, send_command0_pinb, send_command_pinb, h2]
    exact nibbles_sramReadState i
  have hblocks := sramBlocksRead_zeros 4 0x100 _ hz
  rw [hblocks, sramErrors_zeros] at r1 r2
  refine ⟨hf, r1, ?_⟩
  rw [r2, if_neg (by decide)]

/-- A `read_sram` in which no wait times out (it ends with the fault flag
clear) performs, after its header, exactly four block reads.  With `blocks`
the bytes the peripheral delivers for them, 8193 per block, block `i` is
`command(5, 0x100 + i, 0)` followed by `receive_block(0x2000, 8192)`: the
request `command(1, 0x2000, 8192)`, the 8192 payload bytes forwarded to the
host, the checksum byte.  So `4 * 8192` bytes are streamed to the host before
the status line.  The final `error_count` is the number of blocks whose
checksum byte differs from 0x81 XORed with the payload, at most 4, so the
8-bit counter does not wrap; and the status line is `*#*#*#*OK\n` exactly
when that count is 0.  Otherwise it is `*#*#*ERR`, then the string that the
data space holds at the address equal to the count, then a newline: the line
does not hold the count. -/
theorem read_sram_block_reads (s : State) (blocks : List (List Nat))
    (hb : blocks = sramBlocksRead 4 0x100
      (send_command0 0xC008 0 (send_command0 0xE00D 0 (send_command 5 0 0 s))))
    (h : (read_sram s).timeout = false) :
    (blocks.length = 4 ∧ ∀ b ∈ blocks, b.length = 8192 + 1) ∧
    (∀ b0 b1 b2 b3 : List Nat, sramReadEvents 0x100 [b0, b1, b2, b3] =
      sendEvents (commandBytes 5 0x100 0 ++ commandBytes 1 0x2000 8192) ++
        forwardEvents (b0.take 8192) ++ [Event.strobe, Event.strobe] ++
      (sendEvents (commandBytes 5 0x101 0 ++ commandBytes 1 0x2000 8192) ++
        forwardEvents (b1.take 8192) ++ [Event.strobe, Event.strobe] ++
      (sendEvents (commandBytes 5 0x102 0 ++ commandBytes 1 0x2000 8192) ++
        forwardEvents (b2.take 8192) ++ [Event.strobe, Event.strobe] ++
      (sendEvents (commandBytes 5 0x103 0 ++ commandBytes 1 0x2000 8192) ++
        forwardEvents (b3.take 8192) ++ [Event.strobe, Event.strobe] ++ [])))) ∧
    ((read_sram_loop 4 0x100 0
        (send_command0 0xC008 0 (send_command0 0xE00D 0 (send_command 5 0 0 s)))).2.1 =
      sramErrors blocks ∧ sramErrors blocks ≤ 4) ∧
    (read_sram s).trace =
      s.trace ++ sendEvents (commandBytes 5 0 0 ++ command0Bytes 0xE00D 0 ++
          command0Bytes 0xC008 0) ++
        sramReadEvents 0x100 blocks ++
        [if sramErrors blocks = 0 then Event.feedback "*#*#*#*OK\n"
          else Event.feedback ("*#*#*ERR" ++
            String.mk ((c_string_at s.dmem 65536 (sramErrors blocks % 256)).map Char.ofNat) ++
            "\n")] ∧
    (usbBytes (read_sram s).trace =
      usbBytes s.trace ++ (blocks.map (fun b => b.take 8192)).flatten ∧
      ((blocks.map (fun b => b.take 8192)).flatten).length = 4 * 8192) := by
  obtain ⟨r1, r2⟩ := read_sram_run s h
  rw [← hb] at r1 r2
  have hlen : blocks.length = 4 := by rw [hb]; exact sramBlocksRead_length _ _ _
  have hsz : ∀ b ∈ blocks, b.length = BLOCK_SIZE + 1 := by
    rw [hb]; exact sramBlocksRead_sizes _ _ _
  have hle : sramErrors blocks ≤ 4 := by rw [← hlen]; exact sramErrors_le blocks
  have hpl := sram_payload_length blocks hsz
  rw [hlen] at hpl
  refine ⟨⟨hlen, hsz⟩, fun _ _ _ _ => rfl, ⟨r1, hle⟩, r2, ?_, hpl⟩
  rw [r2, usbBytes_append, usbBytes_append, usbBytes_append, usbBytes_sendEvents,
    usbBytes_sramReadEvents]
  have he : usbBytes [if sramErrors blocks = 0 then Event.feedback "*#*#*#*OK\n"
      else Event.feedback ("*#*#*ERR" ++
        String.mk ((c_string_at s.dmem 65536 (sramErrors blocks % 256)).map Char.ofNat) ++
        "\n")] = [] := by
    split <;> rfl
  rw [he, List.append_nil, List.append_nil]

/-- C11 at the failing input: `READ SRAM` against the peripheral of
`sramReadState`, which answers every handshake and delivers zero bytes only.
No wait times out, the four blocks are read, each fails its checksum, and
`error_count` ends as 4.  The status line the host gets is `*#*#*ERR\n` when
the data space holds NUL at address 4, and `*#*#*ERR9\n` when it holds the
character `9` there (`sramNineState`): the format `%s` takes the count for
the address of a string, so the error report does not carry the count. -/
theorem read_sram_error_line :
    ((read_sram sramReadState).timeout = false ∧
      (read_sram_loop 4 0x100 0
        (send_command0 0xC008 0 (send_command0 0xE00D 0
          (send_command 5 0 0 sramReadState)))).2.1 = 4 ∧
      (read_sram sramReadState).trace =
        sramReadState.trace ++ sendEvents (commandBytes 5 0 0 ++ command0Bytes 0xE00D 0 ++
            command0Bytes 0xC008 0) ++
          sramReadEvents 0x100 (List.replicate 4 (List.replicate (BLOCK_SIZE + 1) 0)) ++
          [Event.feedback "*#*#*ERR\n"]) ∧
    ((read_sram sramNineState).timeout = false ∧
      (read_sram_loop 4 0x100 0
        (send_command0 0xC008 0 (send_command0 0xE00D 0
          (send_command 5 0 0 sramNineState)))).2.1 = 4 ∧
      (read_sram sramNineState).trace =
        sramNineState.trace ++ sendEvents (commandBytes 5 0 0 ++ command0Bytes 0xE00D 0 ++
            command0Bytes 0xC008 0) ++
          sramReadEvents 0x100 (List.replicate 4 (List.replicate (BLOCK_SIZE + 1) 0)) ++
          [Event.feedback "*#*#*ERR9\n"]) := by
  obtain ⟨a1, a2, a3⟩ := read_sram_four_errors sramReadState rfl rfl rfl
  obtain ⟨b1, b2, b3⟩ := read_sram_four_errors sramNineState rfl rfl rfl
  have ea : c_string_at sramReadState.dmem 65536 4 = [] :=
    c_string_at_nul _ _ _ rfl
  have eb : c_string_at sramNineState.dmem (65535 + 1) 4 = [0x39] :=
    c_string_at_one _ 65535 4 (by show (0x39 : Nat) % 256 ≠ 0; decide) rfl
  have eb' : c_string_at sramNineState.dmem 65536 4 = [0x39] := eb
  rw [ea] at a3
  rw [eb'] at b3
  exact ⟨⟨a1, a2, a3⟩, b1, b2, b3⟩

/-! ## The writers with any peripheral -/

/-- The loop of `write_rom`, whatever the peripheral does, when the host
delivers, block after block, packets that carry 8192 bytes: the loop ends;
it returns early only with the fault flag set, and otherwise it has sent
every block. -/
theorem write_rom_loop_any (total : Nat) (htotal : total < 65536) (rest : List (List Nat)) :
    ∀ (groups : List (List (List Nat))) (fuel block : Nat) (s : State),
      (∀ g ∈ groups, Carries g 8192) → block + groups.length = total →
      groups.length ≤ fuel → hostChunks s = groups.flatten ++ rest →
      ∃ r, write_rom_loop total fuel block ((0x200 + block) % 65536) s = some r ∧
        (r.1 = true → r.2.2.timeout = true) ∧
        (r.1 = false → r.2.1 = total ∧
          r.2.2.trace = s.trace ++ sendEvents
            (romBlocksWire block (groups.map (fun g => asBytes g.flatten))) ∧
          hostChunks r.2.2 = rest) := by
  intro groups
  induction groups with
  | nil =>
    intro fuel block s _ hblk _ hhost
    simp only [List.length_nil, Nat.add_zero] at hblk
    subst hblk
    refine ⟨(false, block, s), write_rom_loop_done _ _ _ _ _ (by omega), ?_, ?_⟩
    · intro h; exact absurd h (Bool.false_ne_true)
    · intro _; exact ⟨rfl, by simp [romBlocksWire], by simpa using hhost⟩
  | cons g gs ih =>
    intro fuel block s hc hblk hfuel hhost
    simp only [List.length_cons] at hblk hfuel
    obtain ⟨g0, c, eg, c1, c2, c3⟩ := hc g (by simp)
    obtain ⟨f, rfl⟩ : ∃ f, fuel = f + 1 := ⟨fuel - 1, by omega⟩
    have hflat : g.flatten = g0.flatten ++ c := by rw [eg]; simp
    have hlen : g.flatten.length = g0.flatten.length + c.length := by rw [hflat]; simp
    have hh : hostChunks s = g0 ++ c :: (gs.flatten ++ rest) := by
      rw [hhost, eg]; simp
    obtain ⟨s1, q1, q2, q3, q4, _⟩ :=
      send_block_group 0x8000 BLOCK_SIZE
        (send_command 5 ((0x200 + block) % 65536) 0 (send_command0 0xC010 (block >>> 9) s))
        g0 c (gs.flatten ++ rest) (by norm_num) (by simpa using hh) c1
        (by show 8192 ≤ _; omega) (by omega)
    have htr : s1.trace = s.trace ++ sendEvents (command0Bytes 0xC010 (block >>> 9) ++
        commandBytes 5 ((0x200 + block) % 65536) 0 ++
        blockBytes 0x8000 8192 (asBytes g.flatten)) := by
      have h9 : (block >>> 9) % 256 = block >>> 9 :=
        Nat.mod_eq_of_lt (shiftRight_9_lt block (by omega))
      rw [q2, send_command_trace, send_command0_trace, h9, hflat]
      simp [sendEvents_append]
    by_cases ht : s1.timeout = true
    · refine ⟨(true, block, s1), ?_, fun _ => ht, fun h => absurd h (Bool.noConfusion)⟩
      rw [write_rom_loop_succ, if_pos (by omega), q1]
      simp only [ht, if_true]
    · have hb : (block + 1) % 65536 = block + 1 := Nat.mod_eq_of_lt (by omega)
      have ha : ((0x200 + block) % 65536 + 1) % 65536 = (0x200 + (block + 1)) % 65536 := by
        omega
      obtain ⟨r, r1, r2, r3⟩ := ih f (block + 1) s1 (fun x hx => hc x (by simp [hx]))
        (by omega) (by omega) (hostChunks_of_rx q3 q4)
      refine ⟨r, ?_, r2, fun h => ?_⟩
      · rw [write_rom_loop_succ, if_pos (by omega), q1]
        simp only [ht, if_false]
        rw [hb, ha]
        exact r1
      · obtain ⟨e1, e2, e3⟩ := r3 h
        refine ⟨e1, ?_, e3⟩
        rw [e2, htr]
        simp only [List.map_cons, romBlocksWire, sendEvents_append, List.append_assoc]

/-- `write_rom(N, m)`, whatever the peripheral does, with a host that
delivers what each block takes: the function returns, and when it ends with
the fault flag clear it has sent `N` blocks with increasing index, the extra
bank select for more than 0x200 blocks, the three finalization packets and
`OK\n`. -/
theorem write_rom_any (N m : Nat) (s : State) (groups : List (List (List Nat)))
    (rest : List (List Nat)) (hN : N < 65536) (hm : m < 256)
    (hhost : hostChunks s = groups.flatten ++ rest) (hlen : groups.length = N)
    (hcarry : ∀ g ∈ groups, Carries g 8192) :
    ∃ s', write_rom N m s = some s' ∧
      (s'.timeout = false →
        s'.trace = s.trace ++ sendEvents
          (romBlocksWire 0 (groups.map (fun g => asBytes g.flatten)) ++
            (if N > 0x200 then command0Bytes 0xC010 1 else []) ++ commandBytes 5 0 0 ++
            commandBytes 6 ((5 ||| (N <<< 8)) % 65536) (N >>> 8) ++
            commandBytes 6 (1 ||| (m <<< 8)) 0) ++ [Event.feedback "OK\n"] ∧
        hostChunks s' = rest) := by
  obtain ⟨r, q1, q2, q3⟩ := write_rom_loop_any N hN rest groups N 0 s hcarry
    (by omega) (by omega) hhost
  have hNm : N % 65536 = N := Nat.mod_eq_of_lt hN
  have hmm : m % 256 = m := Nat.mod_eq_of_lt hm
  have h8 : N >>> 8 < 256 := shiftRight_8_lt N hN
  have hm8 : 1 ||| (m <<< 8) < 65536 := or_shiftLeft_8_lt 1 m (by decide) hm
  have q1' : write_rom_loop N N 0 0x200 s = some r := q1
  obtain ⟨b, blk, s1⟩ := r
  cases b
  · obtain ⟨e1, e2, e3⟩ := q3 rfl
    have e1' : blk = N := e1
    subst e1'
    refine ⟨send_feedback "OK\n" (send_command 6 (1 ||| (m <<< 8)) 0
      (send_command 6 (5 ||| (blk <<< 8)) (blk >>> 8) (send_command 5 0 0
        (if blk > 0x200 then send_command0 0xC010 1 s1 else s1)))), ?_, fun _ => ⟨?_, ?_⟩⟩
    · rw [write_rom_eq, hNm, hmm, q1']
    · rw [send_feedback_trace, send_command_trace, send_command_trace, send_command_trace]
      have ht : (if blk > 0x200 then send_command0 0xC010 1 s1 else s1).trace =
          s1.trace ++ sendEvents (if blk > 0x200 then command0Bytes 0xC010 1 else []) := by
        split
        · rw [send_command0_trace]
        · simp
      have e2' : s1.trace = s.trace ++ sendEvents
          (romBlocksWire 0 (groups.map (fun g => asBytes g.flatten))) := e2
      rw [ht, e2']
      simp only [sendEvents_append, List.append_assoc, Nat.mod_eq_of_lt hm8,
        Nat.mod_eq_of_lt (Nat.lt_of_lt_of_le h8 (by norm_num : 256 ≤ 65536))]
    · rw [hostChunks_send_feedback, hostChunks_send_command, hostChunks_send_command,
        hostChunks_send_command]
      split
      · rw [hostChunks_send_command0]; exact e3
      · exact e3
  · have ht : s1.timeout = true := q2 rfl
    refine ⟨s1, by rw [write_rom_eq, hNm, q1'], fun h => ?_⟩
    rw [ht] at h
    exact absurd h (by decide)

/-- The loop of `write_sram`, whatever the peripheral does, when the host
delivers, block after block, packets that carry the size requested: the
loop ends; it returns early only with the fault flag set, and otherwise it
has sent every block. -/
theorem write_sram_loop_any (blocks last : Nat) (hB : blocks ≤ 255) (rest : List (List Nat)) :
    ∀ (groups : List (List (List Nat))) (sizes : List Nat) (fuel block block_size address : Nat)
      (s : State),
      List.Forall₂ Carries groups sizes →
      sizes = sramSizesFrom blocks last block groups.length →
      (groups ≠ [] → block_size = BLOCK_SIZE) → block + groups.length = blocks →
      address + groups.length < 65536 → groups.length ≤ fuel →
      hostChunks s = groups.flatten ++ rest →
      ∃ r, write_sram_loop blocks last fuel block block_size address s = some r ∧
        (r.1 = true → r.2.timeout = true) ∧
        (r.1 = false →
          r.2.trace = s.trace ++ sendEvents
            (sramBlocksWire address (sizes.zip (groups.map (fun g => asBytes g.flatten))))) := by
  intro groups
  induction groups with
  | nil =>
    intro sizes fuel block block_size address s hF hs hbs hblk haddr hfuel hhost
    cases hF
    refine ⟨(false, s), write_sram_loop_done _ _ _ _ _ _ _ (by simp at hblk; omega),
      fun h => absurd h Bool.false_ne_true, fun _ => ?_⟩
    simp [sramBlocksWire]
  | cons g gs ih =>
    intro sizes fuel block block_size address s hF hs hbs hblk haddr hfuel hhost
    cases hF with
    | cons hg hrest =>
    rename_i sz szs
    simp only [List.length_cons] at hblk haddr hfuel
    have hsz : sz = sramSizeAt blocks last block ∧
        szs = sramSizesFrom blocks last (block + 1) gs.length := by
      simp only [List.length_cons, sramSizesFrom] at hs
      injection hs with a b
      exact ⟨a, b⟩
    obtain ⟨g0, c, eg, c1, c2, c3⟩ := hg
    have hblock : block < blocks := by omega
    obtain ⟨f, rfl⟩ : ∃ f, fuel = f + 1 := ⟨fuel - 1, by omega⟩
    have hbs' : block_size = BLOCK_SIZE := hbs (by simp)
    have hsize : (if last ≠ 0 ∧ (block : Int) = (blocks : Int) - 1 then last else block_size)
        = sz := by
      rw [hsz.1, hbs']; rfl
    have hlen : g.flatten.length = g0.flatten.length + c.length := by
      rw [eg]; simp
    have hh : hostChunks (send_command 5 address 0 s) = g0 ++ c :: (gs.flatten ++ rest) := by
      rw [hostChunks_send_command, hhost, eg]
      simp
    obtain ⟨s1, q1, q2, q3, q4, _⟩ := send_block_group 0x2000 sz (send_command 5 address 0 s)
      g0 c (gs.flatten ++ rest) (by omega) hh c1 (by omega) (by omega)
    have hflat : g.flatten = g0.flatten ++ c := by rw [eg]; simp
    have ha : address % 65536 = address := Nat.mod_eq_of_lt (by omega)
    have htr : s1.trace = s.trace ++ sendEvents (commandBytes 5 address 0 ++
        blockBytes 0x2000 sz (asBytes g.flatten)) := by
      rw [q2, send_command_trace, ha, hflat]
      simp only [sendEvents_append, List.append_assoc]
    by_cases ht : s1.timeout = true
    · refine ⟨(true, s1), ?_, fun _ => ht, fun h => absurd h Bool.noConfusion⟩
      rw [write_sram_loop_succ, if_pos hblock, hsize, q1]
      simp only [ht, if_true]
    · have hnext : gs ≠ [] → sz = BLOCK_SIZE := by
        intro hne
        have : 0 < gs.length := List.length_pos.mpr hne
        rw [hsz.1]
        unfold sramSizeAt
        rw [if_neg]
        intro hcon
        have := hcon.2
        omega
      obtain ⟨r, r1, r2, r3⟩ := ih szs f (block + 1) sz (address + 1) s1 hrest hsz.2 hnext
        (by omega) (by omega) (by omega) (hostChunks_of_rx q3 q4)
      refine ⟨r, ?_, r2, fun h => ?_⟩
      · rw [write_sram_loop_succ, if_pos hblock, hsize, q1]
        simp only [ht, if_false]
        rw [Nat.mod_eq_of_lt (by omega : block + 1 < 256),
          Nat.mod_eq_of_lt (by omega : address + 1 < 65536)]
        exact r1
      · rw [r3 h, htr]
        simp only [List.map_cons, List.zip_cons_cons, sramBlocksWire, sendEvents_append,
          List.append_assoc]
        rfl

/-- `write_sram`, whatever the peripheral does, with a host that delivers
what each block takes: the function returns, and when it ends with the fault
flag clear it has sent the header, every block and `OK\n`. -/
theorem write_sram_any (total_bytes : Nat) (s : State) (groups : List (List (List Nat)))
    (rest : List (List Nat)) (htb : total_bytes < 65536)
    (hhost : hostChunks s = groups.flatten ++ rest)
    (hcarry : List.Forall₂ Carries groups (sramBlockSizes total_bytes)) :
    ∃ s', write_sram total_bytes s = some s' ∧
      (s'.timeout = false →
        s'.trace = s.trace ++ sendEvents (commandBytes 5 0 0 ++ command0Bytes 0xE00D 0 ++
          command0Bytes 0xC008 0 ++
          sramBlocksWire 0x100
            ((sramBlockSizes total_bytes).zip (groups.map (fun g => asBytes g.flatten)))) ++
          [Event.feedback "OK\n"]) := by
  have hm : total_bytes % 65536 = total_bytes := Nat.mod_eq_of_lt htb
  have hq : total_bytes / 8192 ≤ 7 := by omega
  have hblocks : (if (total_bytes % 65536) % BLOCK_SIZE ≠ 0
        then ((total_bytes % 65536) / BLOCK_SIZE % 256 + 1) % 256
        else (total_bytes % 65536) / BLOCK_SIZE % 256) =
      (if total_bytes % 8192 ≠ 0 then total_bytes / 8192 + 1 else total_bytes / 8192) := by
    rw [hm]
    show (if total_bytes % 8192 ≠ 0 then (total_bytes / 8192 % 256 + 1) % 256
      else total_bytes / 8192 % 256) = _
    split <;> omega
  have hlenG : groups.length =
      (if total_bytes % 8192 ≠ 0 then total_bytes / 8192 + 1 else total_bytes / 8192) := by
    rw [Forall₂_length_eq hcarry, sramBlockSizes_length]
  have hle : (if total_bytes % 8192 ≠ 0 then total_bytes / 8192 + 1 else total_bytes / 8192)
      ≤ 8 := by split <;> omega
  obtain ⟨r, r1, r2, r3⟩ := write_sram_loop_any
    (if total_bytes % 8192 ≠ 0 then total_bytes / 8192 + 1 else total_bytes / 8192)
    (total_bytes % 8192) (by omega) rest groups (sramBlockSizes total_bytes)
    (if total_bytes % 8192 ≠ 0 then total_bytes / 8192 + 1 else total_bytes / 8192)
    0 BLOCK_SIZE 0x100
    (send_command0 0xC008 0 (send_command0 0xE00D 0 (send_command 5 0 0 s)))
    hcarry (by rw [hlenG, sramSizes_eq]) (fun _ => rfl) (by omega) (by omega) (by omega)
    (by simpa using hhost)
  obtain ⟨b, s1⟩ := r
  cases b
  · refine ⟨send_feedback "OK\n" s1, ?_, fun _ => ?_⟩
    · rw [write_sram_eq, hblocks, hm]
      show (match write_sram_loop _ (total_bytes % 8192) _ 0 BLOCK_SIZE 0x100 _ with
        | none => none
        | some (true, t) => some t
        | some (false, t) => some (send_feedback "OK\n" t)) = _
      rw [r1]
    · have e := r3 rfl
      have e' : s1.trace = _ := e
      rw [send_feedback_trace, e', send_command0_trace, send_command0_trace, send_command_trace]
      simp only [sendEvents_append, List.append_assoc]
  · have ht : s1.timeout = true := r2 rfl
    refine ⟨s1, ?_, fun h => ?_⟩
    · rw [write_sram_eq, hblocks, hm]
      show (match write_sram_loop _ (total_bytes % 8192) _ 0 BLOCK_SIZE 0x100 _ with
        | none => none
        | some (true, t) => some t
        | some (false, t) => some (send_feedback "OK\n" t)) = _
      rw [r1]
    · rw [ht] at h
      exact absurd h (by decide)

/-! ## Peripherals that answer every wait -/

theorem Answering_of_eq {s t : State} (h1 : t.timeout = s.timeout) (h2 : t.pinb = s.pinb)
    (hs : Answering s) : Answering t := by
  refine ⟨by rw [h1]; exact hs.1, fun k => ?_⟩
  obtain ⟨j, hj, hb⟩ := hs.2 k
  refine ⟨j, hj, ?_⟩
  unfold busyAt at hb ⊢
  rw [h2]
  exact hb

theorem Answering_of_Responsive {s : State} (hs : Responsive s) : Answering s :=
  ⟨hs.1, fun k => ⟨0, by decide, hs.2 _⟩⟩

/-- A wait for busy = 1 on a peripheral that answers does not time out. -/
theorem Answering_wait (s : State) (hs : Answering s) :
    Answering (wait_busy_bit true 0 s) := by
  obtain ⟨k, h1, h2, _, _, h5, h6, h7⟩ := wait_busy_bit_exit true 0 s (by decide) hs.1
  have hflag : (wait_busy_bit true 0 s).timeout = false := by
    cases hc : (wait_busy_bit true 0 s).timeout
    · rfl
    · exfalso
      have hne := h7.1 hc
      have hk : k = POLL_MAX := by
        rcases h5 with h5 | h5
        · exact absurd h5 hne
        · exact h5
      obtain ⟨j, hj, hb⟩ := hs.2 s.polls
      by_cases hlt : j + 1 < k
      · have := h6 (j + 1) (by simp) hlt
        rw [Nat.add_sub_assoc (by omega)] at this
        exact this hb
      · have e : s.polls + k - 1 = s.polls + j := by omega
        rw [e] at hne
        exact hne hb
  refine ⟨hflag, fun i => ?_⟩
  obtain ⟨j, hj, hb⟩ := hs.2 i
  exact ⟨j, hj, by rw [busyAt_wait]; exact hb⟩

theorem Answering_send_byte (b : Nat) (s : State) (hs : Answering s) :
    Answering (send_byte b s) := by
  have e : send_byte b s =
      wait_busy_bit true 0 (invert_strobe (write_data (b % 256) (wait_busy_bit true 0 s))) := rfl
  rw [e]
  exact Answering_wait _ (Answering_of_eq rfl rfl (Answering_wait s hs))

theorem Answering_send_bytes (bytes : List Nat) :
    ∀ (s : State), Answering s → Answering (send_bytes bytes s) := by
  induction bytes with
  | nil => intro s hs; exact hs
  | cons b bs ih =>
    intro s hs
    have e : send_bytes (b :: bs) s = send_bytes bs (send_byte b s) := rfl
    rw [e]
    exact ih _ (Answering_send_byte b s hs)

theorem Answering_send_command (op addr len : Nat) (s : State) (hs : Answering s) :
    Answering (send_command op addr len s) := by
  rw [send_command_eq]; exact Answering_send_bytes _ s hs

theorem Answering_send_command0 (addr b : Nat) (s : State) (hs : Answering s) :
    Answering (send_command0 addr b s) := by
  rw [send_command0_eq]
  exact Answering_send_bytes _ _ (Answering_send_command 0 addr 1 s hs)

theorem Answering_send_block (address size : Nat) (s s' : State) (hs : Answering s)
    (h : send_block address size s = some s') : Answering s' := by
  unfold send_block at h
  simp only [] at h
  split at h
  · exact absurd h (by simp)
  · rename_i r hr
    injection h with h
    subst h
    have h1 := send_block_loop_inv _ Answering
      (fun t ht => Answering_of_eq (USB_tasks_proj State.timeout (fun _ _ _ => rfl) t)
        (USB_tasks_proj State.pinb (fun _ _ _ => rfl) t) ht)
      (fun t ht => Answering_of_eq
        (CDC_Device_ReceiveByte_proj State.timeout (fun _ _ _ => rfl) t)
        (CDC_Device_ReceiveByte_proj State.pinb (fun _ _ _ => rfl) t) ht)
      (fun b t ht => Answering_send_byte b t ht)
      _ _ _ _ r (Answering_send_command 0 address (size % 65536) s hs) hr
    exact Answering_send_byte _ _ h1

theorem send_feedback_pinb (msg : String) (s : State) :
    (send_feedback msg s).pinb = s.pinb := rfl

theorem Answering_send_feedback (msg : String) (s : State) (hs : Answering s) :
    Answering (send_feedback msg s) :=
  @Answering_of_eq s (send_feedback msg s) (send_feedback_timeout msg s)
    (send_feedback_pinb msg s) hs

theorem Answering_write_rom_loop (total : Nat) :
    ∀ (fuel block address : Nat) (s : State) (r : Bool × Nat × State),
      Answering s → write_rom_loop total fuel block address s = some r → Answering r.2.2 := by
  intro fuel
  induction fuel with
  | zero =>
    intro block address s r hs h
    rw [write_rom_loop_zero] at h
    split at h
    · exact absurd h (by simp)
    · rw [← Option.some.inj h]
      exact hs
  | succ f ih =>
    intro block address s r hs h
    rw [write_rom_loop_succ] at h
    split at h
    · split at h
      · exact absurd h (by simp)
      · rename_i t ht
        have hstep : Answering t :=
          Answering_send_block _ _ _ _
            (Answering_send_command _ _ _ _ (Answering_send_command0 _ _ s hs)) ht
        split at h
        · rw [← Option.some.inj h]
          exact hstep
        · exact ih _ _ _ r hstep h
    · rw [← Option.some.inj h]
      exact hs

/-- With a peripheral that answers every wait, `write_rom` ends with the
fault flag clear. -/
theorem Answering_write_rom (total_blocks emu_mode_select : Nat) (s s' : State)
    (hs : Answering s) (h : write_rom total_blocks emu_mode_select s = some s') :
    Answering s' := by
  rw [write_rom_eq] at h
  split at h
  · exact absurd h (by simp)
  · rename_i x t hl
    rw [← Option.some.inj h]
    exact Answering_write_rom_loop _ _ _ _ _ _ hs hl
  · rename_i block t hl
    rw [← Option.some.inj h]
    have h1 : Answering t := Answering_write_rom_loop _ _ _ _ _ _ hs hl
    have h2 : Answering (if block > 0x200 then send_command0 0xC010 1 t else t) := by
      split
      · exact Answering_send_command0 _ _ _ h1
      · exact h1
    exact Answering_send_feedback _ _ (Answering_send_command _ _ _ _
      (Answering_send_command _ _ _ _ (Answering_send_command _ _ _ _ h2)))

theorem Answering_write_sram_loop (blocks last : Nat) :
    ∀ (fuel block block_size address : Nat) (s : State) (r : Bool × State),
      Answering s → write_sram_loop blocks last fuel block block_size address s = some r →
      Answering r.2 := by
  intro fuel
  induction fuel with
  | zero =>
    intro block block_size address s r hs h
    rw [write_sram_loop_zero] at h
    split at h
    · exact absurd h (by simp)
    · rw [← Option.some.inj h]
      exact hs
  | succ f ih =>
    intro block block_size address s r hs h
    rw [write_sram_loop_succ] at h
    split at h
    · split at h
      · exact absurd h (by simp)
      · rename_i t ht
        have hstep : Answering t :=
          Answering_send_block _ _ _ _ (Answering_send_command _ _ _ _ hs) ht
        split at h
        · rw [← Option.some.inj h]
          exact hstep
        · exact ih _ _ _ _ r hstep h
    · rw [← Option.some.inj h]
      exact hs

/-- With a peripheral that answers every wait, `write_sram` ends with the
fault flag clear. -/
theorem Answering_write_sram (total_bytes : Nat) (s s' : State) (hs : Answering s)
    (h : write_sram total_bytes s = some s') : Answering s' := by
  have hh : Answering (send_command0 0xC008 0 (send_command0 0xE00D 0 (send_command 5 0 0 s))) :=
    Answering_send_command0 _ _ _ (Answering_send_command0 _ _ _
      (Answering_send_command _ _ _ _ hs))
  rw [write_sram_eq] at h
  split at h
  · exact absurd h (by simp)
  · rename_i t hl
    rw [← Option.some.inj h]
    exact Answering_write_sram_loop _ _ _ _ _ _ _ _ hh hl
  · rename_i t hl
    rw [← Option.some.inj h]
    exact Answering_send_feedback _ _ (Answering_write_sram_loop _ _ _ _ _ _ _ _ hh hl)

/-- The slow peripheral of `slowSramState` answers every wait, at the second
poll at the latest. -/
theorem Answering_slowSramState : Answering slowSramState := by
  refine ⟨rfl, fun k => ?_⟩
  have hb : ∀ i, busyAt slowSramState i = decide (i % 2 = 1) := by
    intro i
    show decide ((((if i % 2 = 0 then 0x80 else 0x00) % 256) ^^^ PARPORT_IBUSY) &&&
      PARPORT_IBUSY ≠ 0) = _
    by_cases hi : i % 2 = 0
    · rw [if_pos hi]
      have : ¬ i % 2 = 1 := by omega
      simp only [this, decide_False]
      decide
    · rw [if_neg hi]
      have : i % 2 = 1 := by omega
      simp only [this, decide_True]
      decide
  by_cases hk : k % 2 = 1
  · exact ⟨0, by decide, by rw [hb, decide_eq_true_eq]; omega⟩
  · exact ⟨1, by decide, by rw [hb, decide_eq_true_eq]; omega⟩

/-- The slow peripheral is not one that shows busy = 1 at every poll. -/
theorem slowSramState_not_Responsive : ¬ Responsive slowSramState := by
  intro h
  have := h.2 0
  exact absurd this (by decide)

/-! ## The block sequences of `write_rom` and `write_sram`, for any peripheral

The fault flag is set only by a wait that times out and is never cleared
inside an operation, so an operation in which no wait times out is one that
ends with the flag clear.  The theorems below make no assumption about the
peripheral: they hold for every `pinb`, and read "no timeout" as "the
operation ends with the fault flag clear".  That is the case, among others,
for every peripheral that shows busy = 1 within `POLL_MAX` polls of any poll
(`Answering`), however slowly. -/

/-- C19: for every block count `N` and mode `m`, whatever the peripheral does,
with a host that delivers what each block takes, `write_rom(N, m)` returns;
when no wait times out (the fault flag is clear at its end) it has sent for
block `i = 0, 1, .., N - 1`, in increasing order,
`send_command0(0xC010, i >> 9)`, `send_command(5, (0x200 + i) mod 65536, 0)`
and a data block of announced size 8192 to 0x8000; after the last block it
has sent one extra `send_command0(0xC010, 1)` exactly when `N > 0x200`, then
the three finalization packets and `OK\n`.  With a peripheral that answers
every wait within `POLL_MAX` polls no wait times out. -/
theorem write_rom_block_sequence (N m : Nat) (s : State) (groups : List (List (List Nat)))
    (rest : List (List Nat)) (hN : N < 65536) (hm : m < 256)
    (hhost : hostChunks s = groups.flatten ++ rest) (hlen : groups.length = N)
    (hcarry : ∀ g ∈ groups, Carries g 8192) :
    ∃ s', write_rom N m s = some s' ∧
      (Answering s → s'.timeout = false) ∧
      (s'.timeout = false →
        s'.trace = s.trace ++ sendEvents
          ((List.enumFrom 0 (groups.map (fun g => asBytes g.flatten))).flatMap (fun ip =>
              command0Bytes 0xC010 (ip.1 >>> 9) ++ commandBytes 5 ((0x200 + ip.1) % 65536) 0 ++
                blockBytes 0x8000 8192 ip.2) ++
            (if N > 0x200 then command0Bytes 0xC010 1 else []) ++ commandBytes 5 0 0 ++
            commandBytes 6 ((5 ||| (N <<< 8)) % 65536) (N >>> 8) ++
            commandBytes 6 (1 ||| (m <<< 8)) 0) ++ [Event.feedback "OK\n"]) ∧
      (List.enumFrom 0 (groups.map (fun g => asBytes g.flatten))).map Prod.fst = List.range N := by
  obtain ⟨s', h1, h2⟩ := write_rom_any N m s groups rest hN hm hhost hlen hcarry
  refine ⟨s', h1, fun ha => (Answering_write_rom N m s s' ha h1).1, fun h => ?_, ?_⟩
  · rw [(h2 h).1, romBlocksWire_enum]
  · rw [List.enumFrom_map_fst, List.length_map, hlen, List.range_eq_range']

/-- Witness for C19: `write_rom(2, 0)` on `romState`, the host delivering one
8192-byte packet per block: the call returns with the fault flag clear, having
sent the two blocks, the finalization and `OK\n`. -/
theorem write_rom_block_sequence_witness :
    ((2 < 65536 ∧ 0 < 256) ∧
      hostChunks romState =
        [[List.replicate 8192 0x5A], [List.replicate 8192 0xA5]].flatten ++ [] ∧
      [[List.replicate 8192 0x5A], [List.replicate 8192 0xA5]].length = 2 ∧
      ∀ g ∈ [[List.replicate 8192 0x5A], [List.replicate 8192 0xA5]], Carries g 8192) ∧
    ∃ s', write_rom 2 0 romState = some s' ∧ s'.timeout = false ∧
      s'.trace = romState.trace ++ sendEvents
        ((List.enumFrom 0 ([[List.replicate 8192 0x5A], [List.replicate 8192 0xA5]].map
            (fun g => asBytes g.flatten))).flatMap (fun ip =>
            command0Bytes 0xC010 (ip.1 >>> 9) ++ commandBytes 5 ((0x200 + ip.1) % 65536) 0 ++
              blockBytes 0x8000 8192 ip.2) ++
          (if 2 > 0x200 then command0Bytes 0xC010 1 else []) ++ commandBytes 5 0 0 ++
          commandBytes 6 ((5 ||| (2 <<< 8)) % 65536) (2 >>> 8) ++
          commandBytes 6 (1 ||| (0 <<< 8)) 0) ++ [Event.feedback "OK\n"] :=
  ⟨⟨⟨by decide, by decide⟩, rfl, rfl, Carries_romState⟩,
    (write_rom_block_sequence 2 0 romState
      [[List.replicate 8192 0x5A], [List.replicate 8192 0xA5]] [] (by decide) (by decide)
      rfl rfl Carries_romState).imp
      (fun _ h => ⟨h.1,
        h.2.1 (Answering_of_Responsive (Responsive_of_eq rfl rfl Responsive_readyState)),
        h.2.2.1 (h.2.1
          (Answering_of_Responsive (Responsive_of_eq rfl rfl Responsive_readyState)))⟩)⟩

/-- C9: for every `total_bytes` below 65536, whatever the peripheral does,
with a host that delivers what each block takes, `write_sram` returns; when
no wait times out (the fault flag is clear at its end) it has sent its
header, then exactly `ceil(total_bytes / 8192)` blocks, block `i` being
command(5, 0x100 + i, 0) followed by a `send_block` to 0x2000 whose size is
8192, or `total_bytes mod 8192` for the final block when that is not zero, so
that the sizes sum to `total_bytes`; then it has reported `OK\n`.  With a
peripheral that answers every wait within `POLL_MAX` polls no wait times
out. -/
theorem write_sram_blocks (total_bytes : Nat) (s : State) (groups : List (List (List Nat)))
    (rest : List (List Nat)) (htb : total_bytes < 65536)
    (hhost : hostChunks s = groups.flatten ++ rest)
    (hcarry : List.Forall₂ Carries groups (sramBlockSizes total_bytes)) :
    (∃ s', write_sram total_bytes s = some s' ∧
      (Answering s → s'.timeout = false) ∧
      (s'.timeout = false →
        s'.trace = s.trace ++ sendEvents (commandBytes 5 0 0 ++ command0Bytes 0xE00D 0 ++
          command0Bytes 0xC008 0 ++
          sramBlocksWire 0x100
            ((sramBlockSizes total_bytes).zip (groups.map (fun g => asBytes g.flatten)))) ++
          [Event.feedback "OK\n"])) ∧
    groups.length = (total_bytes + 8191) / 8192 ∧
    (sramBlockSizes total_bytes).length = (total_bytes + 8191) / 8192 ∧
    (sramBlockSizes total_bytes).sum = total_bytes ∧
    (∀ z ∈ sramBlockSizes total_bytes, z = 8192 ∨ (z = total_bytes % 8192 ∧ z ≠ 0)) := by
  have hl := sramBlockSizes_length total_bytes
  have hlen : (sramBlockSizes total_bytes).length = (total_bytes + 8191) / 8192 := by
    rw [hl]; split <;> omega
  obtain ⟨s', h1, h2⟩ := write_sram_any total_bytes s groups rest htb hhost hcarry
  refine ⟨⟨s', h1, fun ha => (Answering_write_sram total_bytes s s' ha h1).1, h2⟩,
    by rw [Forall₂_length_eq hcarry, hlen], hlen, ?_, ?_⟩
  · unfold sramBlockSizes
    by_cases h0 : total_bytes % 8192 ≠ 0
    · simp only [h0, ne_eq, not_false_eq_true, if_true, List.sum_append, List.sum_replicate,
        smul_eq_mul, List.sum_cons, List.sum_nil]
      omega
    · simp only [h0, if_false, List.append_nil, List.sum_replicate, smul_eq_mul]
      omega
  · intro z hz
    unfold sramBlockSizes at hz
    rw [List.mem_append] at hz
    rcases hz with hz | hz
    · exact Or.inl (List.eq_of_mem_replicate hz)
    · by_cases h0 : total_bytes % 8192 ≠ 0
      · rw [if_pos h0] at hz
        rw [List.mem_singleton] at hz
        exact Or.inr ⟨hz, by rw [hz]; exact h0⟩
      · rw [if_neg h0] at hz
        exact absurd hz (List.not_mem_nil _)

/-- Witness for C9: scenario 4 with a slow peripheral.  `write_sram(16)` on
`slowSramState`, where busy = 1 shows at every second poll only, returns with
the fault flag clear, having sent one block of size 16 after a seek to 0x100
and reported `OK\n`. -/
theorem write_sram_blocks_witness :
    (16 < 65536 ∧
      hostChunks slowSramState = [[List.replicate 16 0x07]].flatten ++ [] ∧
      List.Forall₂ Carries [[List.replicate 16 0x07]] (sramBlockSizes 16)) ∧
    ∃ s', write_sram 16 slowSramState = some s' ∧ s'.timeout = false ∧
      s'.trace = slowSramState.trace ++ sendEvents (commandBytes 5 0 0 ++
        command0Bytes 0xE00D 0 ++ command0Bytes 0xC008 0 ++
        sramBlocksWire 0x100
          ((sramBlockSizes 16).zip
            ([[List.replicate 16 0x07]].map (fun g => asBytes g.flatten)))) ++
        [Event.feedback "OK\n"] :=
  ⟨⟨by decide, rfl, Carries_sramState⟩,
    (write_sram_blocks 16 slowSramState [[List.replicate 16 0x07]] [] (by decide)
      rfl Carries_sramState).1.imp
      (fun _ h => ⟨h.1, h.2.1 Answering_slowSramState, h.2.2 (h.2.1 Answering_slowSramState)⟩)⟩

/-! ## Scenario 1 for any peripheral -/

/-- An iteration of `main` for `WRITE ROM` with one block and mode 0,
whatever the peripheral does: the iteration ends with the flag clear; it
logs `TIMEOUT\n` once when `write_rom` left the flag raised and not at all
otherwise, and in the latter case its log is the one of scenario 1. -/
theorem main_iteration_write_rom_any (s : State) (payload : List Nat)
    (hhost : hostBytes s =
      literal "WRITE ROM" ++ [0, 0] ++ [0x00, 0x01, 0x00] ++ payload)
    (hlen : payload.length = 8192) :
    ∃ s' s3 : State, main_iteration s = some s' ∧ s'.timeout = false ∧
      timeoutReports s'.trace = timeoutReports s.trace + (if s3.timeout then 1 else 0) ∧
      (Answering s → s3.timeout = false) ∧
      (s3.timeout = false →
        s'.trace = s.trace ++ sendEvents (command0Bytes 0xC010 0 ++ commandBytes 5 0x200 0 ++
          blockBytes 0x8000 8192 (asBytes payload) ++ commandBytes 5 0 0 ++
          commandBytes 6 0x0105 0 ++ commandBytes 6 0x0001 0) ++ [Event.feedback "OK\n"]) := by
  rw [literal_write_rom] at hhost
  -- the command token
  obtain ⟨b1, n1, r1, e1⟩ := cdc_device_receive_bytes_spec COMMAND_LEN s (by norm_num)
    (by
      rw [hhost]
      simp only [List.length_append, List.length_cons, List.length_nil]
      show 11 ≤ _
      omega)
  rw [hhost] at r1 e1
  have t1 : asBytes (List.take COMMAND_LEN
      ([87, 82, 73, 84, 69, 32, 82, 79, 77] ++ [0, 0] ++ [0x00, 0x01, 0x00] ++ payload)) =
        [87, 82, 73, 84, 69, 32, 82, 79, 77, 0, 0] := rfl
  have d1 : List.drop COMMAND_LEN
      ([87, 82, 73, 84, 69, 32, 82, 79, 77] ++ [0, 0] ++ [0x00, 0x01, 0x00] ++ payload) =
        [0x00, 0x01, 0x00] ++ payload := rfl
  rw [t1] at r1
  rw [d1] at e1
  -- the arguments
  have hb2 : hostBytes (activate_ports { s with rxbuf := b1, rxnext := n1 }) =
      [0x00, 0x01, 0x00] ++ payload := e1
  obtain ⟨b2, n2, r2, e2⟩ := cdc_device_receive_bytes_spec 3
    (activate_ports { s with rxbuf := b1, rxnext := n1 }) (by norm_num) (by rw [hb2]; simp)
  rw [hb2] at r2 e2
  have t2 : asBytes (List.take 3 ([0x00, 0x01, 0x00] ++ payload)) = [0, 1, 0] := rfl
  have d2 : List.drop 3 ([0x00, 0x01, 0x00] ++ payload) = payload := rfl
  rw [t2] at r2
  rw [d2] at e2
  -- the block
  have hb3 : hostBytes
      { activate_ports { s with rxbuf := b1, rxnext := n1 } with rxbuf := b2, rxnext := n2 }
        = payload := e2
  obtain ⟨g0, c, rest, hc, h1, h2, h3, h4⟩ := exact_crossing _ 8192 (by norm_num)
    (by rw [hb3]; exact hlen)
  have hfl : (g0 ++ [c]).flatten = g0.flatten ++ c := by simp
  have hcarry : ∀ g ∈ [g0 ++ [c]], Carries g 8192 := by
    intro g hg
    rw [List.mem_singleton] at hg
    rw [hg]
    refine ⟨g0, c, rfl, h1, ?_, ?_⟩
    · rw [hfl, List.length_append]; exact h2
    · rw [hfl, List.length_append]; omega
  obtain ⟨s3, q1, q2⟩ := write_rom_any 1 0 _ [g0 ++ [c]] rest (by norm_num) (by norm_num)
    (by rw [hc]; simp) rfl hcarry
  -- the dispatcher
  have hs : strcmp_eq [87, 82, 73, 84, 69, 32, 82, 79, 77, 0, 0] "WRITE ROM" = true := by
    decide
  have hcmd : List.set [87, 82, 73, 84, 69, 32, 82, 79, 77, 0, 0] (COMMAND_LEN - 1) 0 =
      [87, 82, 73, 84, 69, 32, 82, 79, 77, 0, 0] := rfl
  have hargs : (([0, 1, 0] : List Nat).getD 0 0 <<< 8 ||| ([0, 1, 0] : List Nat).getD 1 0)
      % 65536 = 1 := rfl
  have harg2 : ([0, 1, 0] : List Nat).getD 2 0 = 0 := rfl
  have hd : dispatch (List.set [87, 82, 73, 84, 69, 32, 82, 79, 77, 0, 0] (COMMAND_LEN - 1) 0)
      (activate_ports { s with rxbuf := b1, rxnext := n1 }) = some s3 := by
    rw [hcmd, dispatch_eq, if_pos hs, r2]
    simp only []
    rw [hargs, harg2]
    exact q1
  obtain ⟨b4, n4, r4⟩ := main_iteration_run s _ s3 _ r1 hd
  obtain ⟨hflag, cmd, u1, u2, a1, _, a3, _, a5, a6⟩ := main_iteration_flag s _ r4
  have k1 := Prod.mk.inj (Option.some.inj (a1.symm.trans r1))
  rw [k1.1, k1.2] at a3
  have k2 : u2 = s3 := Option.some.inj (a3.symm.trans hd)
  rw [k2] at a5 a6
  refine ⟨_, s3, r4, hflag, a6, fun ha => ?_, fun ht => ?_⟩
  · have hr2 : Answering
        { activate_ports { s with rxbuf := b1, rxnext := n1 } with rxbuf := b2, rxnext := n2 } :=
      Answering_of_eq rfl rfl ha
    exact (Answering_write_rom 1 0 _ s3 hr2 q1).1
  · have e := (q2 ht).1
    have hgt : ¬ (1 > 512) := by decide
    rw [a5, ht, e]
    simp only [Bool.false_eq_true, if_false, List.append_nil, List.map_cons, List.map_nil,
      hfl, h4, hb3, romBlocksWire, if_neg hgt]
    rfl

/-- C5 (as amended): scenario 1.  When the host sends the token
`WRITE ROM\0\0`, the arguments 0x00 0x01 0x00 and 8192 payload bytes, in any
packets, the iteration ends, whatever the peripheral does, with the fault
flag clear; when the peripheral never times out (the iteration reports no
`TIMEOUT\n`) it has driven, in order, command0(0xC010, 0),
command(5, 0x200, 0), a block to 0x8000 with the host's 8192 bytes,
command(5, 0, 0), command(6, address 0x0105, length 0) and
command(6, address 0x0001, length 0), and has reported `OK\n` after them and
nothing else.  A peripheral that answers every wait within `POLL_MAX` polls
is one that never times out. -/
theorem scenario_write_rom (s : State) (payload : List Nat)
    (hhost : hostBytes s =
      literal "WRITE ROM" ++ [0, 0] ++ [0x00, 0x01, 0x00] ++ payload)
    (hlen : payload.length = 8192) :
    ∃ s', main_iteration s = some s' ∧ s'.timeout = false ∧
      (Answering s → timeoutReports s'.trace = timeoutReports s.trace) ∧
      (timeoutReports s'.trace = timeoutReports s.trace →
        s'.trace = s.trace ++ sendEvents (command0Bytes 0xC010 0 ++ commandBytes 5 0x200 0 ++
          blockBytes 0x8000 8192 (asBytes payload) ++ commandBytes 5 0 0 ++
          commandBytes 6 0x0105 0 ++ commandBytes 6 0x0001 0) ++ [Event.feedback "OK\n"] ∧
        dataBytes s'.trace = dataBytes s.trace ++ (command0Bytes 0xC010 0 ++
          commandBytes 5 0x200 0 ++ blockBytes 0x8000 8192 (asBytes payload) ++
          commandBytes 5 0 0 ++ commandBytes 6 0x0105 0 ++ commandBytes 6 0x0001 0)) ∧
      (asBytes payload).length = 8192 := by
  obtain ⟨s', s3, q1, q2, q3, q4, q5⟩ := main_iteration_write_rom_any s payload hhost hlen
  have hf : dataBytes [Event.feedback "OK\n"] = [] := rfl
  refine ⟨s', q1, q2, fun hresp => ?_, fun hno => ?_, by rw [asBytes_length, hlen]⟩
  · rw [q3, q4 hresp]
    rfl
  · have ht : s3.timeout = false := by
      cases h : s3.timeout
      · rfl
      · rw [h] at q3
        simp only [if_true] at q3
        omega
    refine ⟨q5 ht, ?_⟩
    rw [q5 ht, dataBytes_append, dataBytes_append, dataBytes_sendEvents, hf, List.append_nil]

/-- Witness for C5 (as amended): scenario 1 on `scenarioState`, the iteration
reporting no `TIMEOUT\n`. -/
theorem scenario_write_rom_witness :
    (hostBytes scenarioState =
        literal "WRITE ROM" ++ [0, 0] ++ [0x00, 0x01, 0x00] ++ List.replicate 8192 0xAA ∧
      (List.replicate 8192 0xAA).length = 8192) ∧
    ∃ s', main_iteration scenarioState = some s' ∧ s'.timeout = false ∧
      timeoutReports s'.trace = timeoutReports scenarioState.trace ∧
      s'.trace = scenarioState.trace ++ sendEvents (command0Bytes 0xC010 0 ++
        commandBytes 5 0x200 0 ++
        blockBytes 0x8000 8192 (asBytes (List.replicate 8192 0xAA)) ++ commandBytes 5 0 0 ++
        commandBytes 6 0x0105 0 ++ commandBytes 6 0x0001 0) ++ [Event.feedback "OK\n"] :=
  ⟨⟨hostBytes_scenarioState, List.length_replicate _ _⟩,
    (scenario_write_rom scenarioState (List.replicate 8192 0xAA) hostBytes_scenarioState
      (List.length_replicate _ _)).imp (fun _ h =>
        ⟨h.1, h.2.1,
          h.2.2.1 (Answering_of_Responsive (Responsive_of_eq rfl rfl Responsive_readyState)),
          (h.2.2.2.1 (h.2.2.1
            (Answering_of_Responsive (Responsive_of_eq rfl rfl Responsive_readyState)))).1⟩)⟩

end SwcUsb
